import Mathlib

/-!
# peerswap: durable state layer

A shallow embedding of the storage, version-gate, gossip and configuration code of the
repository (packages `version`, `bbolt`, `sqlite`, `swap`, `poll`, `clightning`)
together with theorems about it.

Conventions of the embedding:

* a Go `error` is an `Option Error` (`none` is `nil`); a Go `(T, error)` result is
  either a pair or an `Except Error T`;
* stateful code threads its state explicitly: every operation takes the state of the
  storage engine and returns the new one;
* a Go `[]byte` is a list of byte values (`Bytes`), a Go `string` is a `String`.
-/

set_option linter.dupNamespace false

namespace peerswap

/-- Byte strings (`[]byte`): a list of byte values. -/
abbrev Bytes := List Nat

/-- Go error values that occur in the embedded code.  Package-level error variables
(sentinels) are compared by identity in Go and are distinct constructors here; errors
built on the spot (`fmt.Errorf`, engine failures) carry their message. -/
inductive Error where
  /-- The variable `version.ErrDoesNotExist`. -/
  | versionErrDoesNotExist
  /-- The variable `swap.ErrDoesNotExist`. -/
  | swapErrDoesNotExist
  /-- The variable `swap.ErrDataNotAvailable`. -/
  | swapErrDataNotAvailable
  /-- The variable `bbolt.ErrAlreadyExists` of this repository. -/
  | ErrAlreadyExists
  /-- The variable `bbolt.ErrExistingSwaps` of this repository. -/
  | ErrExistingSwaps
  /-- The variable `sql.ErrNoRows`. -/
  | sqlErrNoRows
  /-- The value `version.ActiveSwapsError{version}`. -/
  | ActiveSwapsError (version : String)
  /-- The error `hex.InvalidByteError`. -/
  | hexInvalidByteError (c : Char)
  /-- The variable `hex.ErrLength`. -/
  | hexErrLength
  /-- An error for which `os.IsNotExist` holds. -/
  | osErrNotExist
  /-- A fresh error made by `fmt.Errorf` without a wrapped error. -/
  | errorf (msg : String)
  /-- A fresh error made by `fmt.Errorf` with `%w`. -/
  | wrapf (msg : String) (inner : Error)
  /-- A failure reported by a storage engine or the operating system. -/
  | engine (msg : String)
  /-- A run-time panic: the call does not return to its caller. -/
  | panic (msg : String)
  deriving DecidableEq, Repr

/-- The method `Error()`; only the message of `ActiveSwapsError` is written in this
repository (`version/service.go`), the other messages are those of the libraries. -/
def Error.Error : Error → String
  | .versionErrDoesNotExist => "does not exist"
  | .swapErrDoesNotExist => "does not exist"
  | .swapErrDataNotAvailable => "data not available"
  | .ErrAlreadyExists => "swap already exist"
  | .ErrExistingSwaps => "active swaps in deprecated bbolt database"
  | .sqlErrNoRows => "sql: no rows in result set"
  | .ActiveSwapsError version =>
      "Can\x27t upgrade because of active swaps. Please downgrade peerswap to version " ++ version
  | .hexInvalidByteError c => "encoding/hex: invalid byte: " ++ c.toString
  | .hexErrLength => "encoding/hex: odd length hex string"
  | .osErrNotExist => "file does not exist"
  | .errorf msg => msg
  | .wrapf msg inner => msg ++ inner.Error
  | .engine msg => msg
  | .panic msg => "panic: " ++ msg

/-! ## Package `version` -/

namespace version

/-- The constant `version` of `version/service.go`. -/
def version : String := "v0.2"

/-- The variable `ErrDoesNotExist` of `version/store.go`. -/
def ErrDoesNotExist : Error := Error.versionErrDoesNotExist

/-- The interface `VersionStore` of `version/store.go`, over the state `σ` its
implementation reads and writes. -/
structure VersionStore (σ : Type) where
  GetVersion : σ → (String × Option Error) × σ
  SetVersion : String → σ → Option Error × σ

/-- The interface `ActiveSwapGetter` of `version/service.go`. -/
structure ActiveSwapGetter (σ : Type) where
  HasActiveSwaps : σ → (Bool × Option Error) × σ

/-- The calls `SafeUpgrade` makes on its collaborators, in order. -/
inductive Call where
  | GetVersion
  | HasActiveSwaps
  | SetVersion (version : String)
  deriving DecidableEq, Repr

/-- What a run of `SafeUpgrade` leaves behind: the returned error, the state of the
collaborators and the calls made on them. -/
structure Outcome (σ : Type) where
  err : Option Error
  state : σ
  calls : List Call

/-- The method `VersionService.SafeUpgrade` of `version/service.go`. -/
def SafeUpgrade {σ : Type} (versionStore : VersionStore σ) (swapStore : ActiveSwapGetter σ)
    (s : σ) : Outcome σ :=
  -- first check if we need to upgrade
  match versionStore.GetVersion s with
  | ((currentVersion, err), s1) =>
    if err ≠ some ErrDoesNotExist ∧ err ≠ none then
      ⟨err, s1, [Call.GetVersion]⟩
    -- we are running the same version as before and can safely continue
    else if err ≠ some ErrDoesNotExist ∧ currentVersion = version then
      ⟨none, s1, [Call.GetVersion]⟩
    else
      -- check if we have active swaps
      match swapStore.HasActiveSwaps s1 with
      | ((hasActiveSwaps, err2), s2) =>
        if err2 ≠ none then
          ⟨err2, s2, [Call.GetVersion, Call.HasActiveSwaps]⟩
        else if hasActiveSwaps then
          ⟨some (Error.ActiveSwapsError currentVersion), s2,
            [Call.GetVersion, Call.HasActiveSwaps]⟩
        else
          -- now it is safe to upgrade
          match versionStore.SetVersion version s2 with
          | (err3, s3) =>
            if err3 ≠ none then
              ⟨err3, s3, [Call.GetVersion, Call.HasActiveSwaps, Call.SetVersion version]⟩
            else
              ⟨none, s3, [Call.GetVersion, Call.HasActiveSwaps, Call.SetVersion version]⟩

/-- The function `GetCurrentVersion` of `version/service.go`. -/
def GetCurrentVersion : String := version

/-- The test doubles of `version/version_test.go`: the field of `mockVersionStore` and
the field of `MockActiveSwaps`. -/
structure MockWorld where
  version : String
  hasActiveSwaps : Bool
  deriving DecidableEq, Repr

/-- The type `mockVersionStore` of `version/version_test.go`. -/
def mockVersionStore : VersionStore MockWorld where
  GetVersion := fun vs =>
    if vs.version = "" then (("", some ErrDoesNotExist), vs) else ((vs.version, none), vs)
  SetVersion := fun version vs => (none, { vs with version := version })

/-- The type `MockActiveSwaps` of `version/version_test.go`. -/
def MockActiveSwaps : ActiveSwapGetter MockWorld where
  HasActiveSwaps := fun m => ((m.hasActiveSwaps, none), m)

/-- Whether a call is a call of `SetVersion`. -/
def Call.isSetVersion : Call → Bool
  | Call.SetVersion _ => true
  | _ => false

/-- A version store that keeps what it is given, as `mockVersionStore` does, where
`stored` reads the version a state holds: `GetVersion` answers with the stored version
and leaves it stored, an answer without error is the stored version, and a successful
`SetVersion` of the running version stores it. -/
structure Lawful {σ : Type} (vs : VersionStore σ) (stored : σ → Option String) : Prop where
  get_stored : ∀ s v, stored s = some v →
    (vs.GetVersion s).1 = (v, none) ∧ stored (vs.GetVersion s).2 = some v
  get_ok : ∀ s v s1, vs.GetVersion s = ((v, none), s1) → stored s1 = some v
  set_ok : ∀ s s1, vs.SetVersion version s = (none, s1) → stored s1 = some version

/-- The version `mockVersionStore` holds: the empty string stands for no version. -/
def mockStored (m : MockWorld) : Option String :=
  if m.version = "" then none else some m.version

/-- Further calls of `SafeUpgrade`, one for each active-swap checker of the list, each
on the state the call before it left. -/
def SafeUpgradeAgain {σ : Type} (vs : VersionStore σ) :
    List (ActiveSwapGetter σ) → σ → List (Outcome σ)
  | [], _ => []
  | sw :: rest, s => SafeUpgrade vs sw s :: SafeUpgradeAgain vs rest (SafeUpgrade vs sw s).state

/-- An active-swap checker that reports active swaps whatever the state is. -/
def alwaysActive {σ : Type} : ActiveSwapGetter σ where
  HasActiveSwaps := fun s => ((true, none), s)

/-- The contract of a version store at the version `v`: once `SetVersion v` has
succeeded, `GetVersion` returns `v` and no error. -/
def ReadsBack {σ : Type} (vs : VersionStore σ) (v : String) : Prop :=
  ∀ t t2 : σ, vs.SetVersion v t = (none, t2) → (vs.GetVersion t2).1 = (v, none)

end version

/-! ## Library `encoding/hex` -/

namespace hex

/-- The table `reverseHexTable` of the Go library: the value of a hexadecimal digit,
upper or lower case; `none` stands for the entry `0xff` of every other byte. -/
def fromHexChar (c : Char) : Option Nat :=
  if 48 ≤ c.toNat ∧ c.toNat ≤ 57 then some (c.toNat - 48)
  else if 97 ≤ c.toNat ∧ c.toNat ≤ 102 then some (c.toNat - 97 + 10)
  else if 65 ≤ c.toNat ∧ c.toNat ≤ 70 then some (c.toNat - 65 + 10)
  else none

/-- The function `hex.Decode` of the Go library on the characters of the input: the
bytes decoded before the first error, and that error. -/
def Decode : List Char → Bytes × Option Error
  | p :: q :: rest =>
    match fromHexChar p with
    | none => ([], some (Error.hexInvalidByteError p))
    | some a =>
      match fromHexChar q with
      | none => ([], some (Error.hexInvalidByteError q))
      | some b => ((a * 16 + b) :: (Decode rest).1, (Decode rest).2)
  | [p] =>
    match fromHexChar p with
    | none => ([], some (Error.hexInvalidByteError p))
    | some _ => ([], some Error.hexErrLength)
  | [] => ([], none)

/-- The function `hex.DecodeString` of the Go library: on malformed input it returns
the bytes decoded before the error together with the error. -/
def DecodeString (s : String) : Bytes × Option Error := Decode s.toList

/-- The digits of `hex.EncodeToString`: the string `0123456789abcdef`. -/
def hextable (n : Nat) : Char :=
  if n < 10 then Char.ofNat (48 + n) else Char.ofNat (97 + (n - 10))

/-- The function `hex.Encode` of the Go library, two digits for each byte. -/
def Encode : Bytes → List Char
  | [] => []
  | b :: rest => hextable (b / 16) :: hextable (b % 16) :: Encode rest

/-- The function `hex.EncodeToString` of the Go library. -/
def EncodeToString (b : Bytes) : String := String.mk (Encode b)

end hex

/-! ## Package `swap`: the persisted record -/

namespace swap

/-- Modelled from the spec: the type `SwapId` is declared outside `src/`; the spec
(section 3) makes it a 32-byte identifier written as 64 hexadecimal characters, and
`sqlite/swap_store.go` slices it (`s.SwapId[:]`). -/
structure SwapId where
  bytes : Bytes
  deriving DecidableEq, Repr

/-- A `SwapId` as the Go array type `[32]byte` holds it: 32 byte values. -/
def SwapId.Valid (s : SwapId) : Prop := s.bytes.length = 32 ∧ ∀ b ∈ s.bytes, b < 256

instance (s : SwapId) : Decidable s.Valid := by
  unfold SwapId.Valid; exact inferInstance

/-- Modelled from the spec: the method `SwapId.String` is declared outside `src/`; the
textual form of an identifier is its hexadecimal encoding (spec, section 3). -/
def SwapId.String (s : SwapId) : String := hex.EncodeToString s.bytes

/-- Modelled from the spec: the type `SwapData` is declared outside `src/`; these are
the fields the spec (section 3) lists and `sqlite/swap_store.go` reads and writes. -/
structure SwapData where
  PeerNodeId : String
  InitiatorNodeId : String
  CreatedAt : Int
  Role : Int
  FSMState : String
  PrivkeyBytes : Bytes
  FeePreimage : String
  OpeningTxFee : Nat
  OpeningTxHex : String
  StartingBlockHeight : Nat
  ClaimTxId : String
  ClaimPaymentHash : String
  ClaimPreimage : String
  BlindingKeyHex : String
  NextMessage : Bytes
  NextMessageType : Int
  LastErrString : String
  deriving DecidableEq, Repr

/-- Modelled from the spec: the type `SwapStateMachine` is declared outside `src/`;
these are the fields the spec (section 3) lists and `sqlite/swap_store.go` reads and
writes. -/
structure SwapStateMachine where
  SwapId : SwapId
  /-- The field `Type`. -/
  SwapType : Int
  Role : Int
  Previous : String
  Current : String
  Data : SwapData
  deriving DecidableEq, Repr

/-- The type `RequestedSwap` of `swap/store.go`. -/
structure RequestedSwap where
  Asset : String
  AmountSat : Nat
  /-- The field `Type`. -/
  SwapType : Int
  RejectionReason : String
  deriving DecidableEq, Repr

/-- A request used in the examples: a swap out of 100000 sat. -/
def exampleRequest : RequestedSwap :=
  { Asset := "btc", AmountSat := 100000, SwapType := 1, RejectionReason := "" }

/-- A second request used in the examples: a rejected swap in of 2500 sat. -/
def exampleRejected : RequestedSwap :=
  { Asset := "lbtc", AmountSat := 2500, SwapType := 0, RejectionReason := "asset not allowed" }

/-- The variable `ErrDoesNotExist` of `swap/store.go`. -/
def ErrDoesNotExist : Error := Error.swapErrDoesNotExist

/-- The variable `swap.ErrDataNotAvailable`, returned by `GetData` of both backends. -/
def ErrDataNotAvailable : Error := Error.swapErrDataNotAvailable

/-- A record as the swap engine writes it, used in the examples. -/
def exampleSwap : SwapStateMachine :=
  { SwapId := ⟨List.replicate 32 171⟩
    SwapType := 1
    Role := 0
    Previous := "State_SwapOutSender_AwaitAgreement"
    Current := "State_SwapOutSender_PayFeeInvoice"
    Data :=
      { PeerNodeId := "02ab"
        InitiatorNodeId := "03cd"
        CreatedAt := 1700000000
        Role := 0
        FSMState := "State_SwapOutSender_PayFeeInvoice"
        PrivkeyBytes := [1, 2, 3]
        FeePreimage := "0a0b"
        OpeningTxFee := 250
        OpeningTxHex := "0200"
        StartingBlockHeight := 800000
        ClaimTxId := ""
        ClaimPaymentHash := "ff00"
        ClaimPreimage := ""
        BlindingKeyHex := ""
        NextMessage := [123, 125]
        NextMessageType := 42069
        LastErrString := "" } }

/-- The record `exampleSwap` one state later, with the same identifier. -/
def exampleSwapNext : SwapStateMachine :=
  { exampleSwap with
    Previous := "State_SwapOutSender_PayFeeInvoice"
    Current := "State_SwapOutSender_AwaitTxBroadcastedMessage"
    Data := { exampleSwap.Data with FSMState := "State_SwapOutSender_AwaitTxBroadcastedMessage" } }

end swap

/-- The pair `json.Marshal` / `json.Unmarshal` for values of type `α`: the encoding
library is outside the repository and is taken as a parameter. -/
structure Codec (α : Type) where
  Marshal : α → Except Error Bytes
  Unmarshal : Bytes → Except Error α

/-- The function `json.Unmarshal` on input that may be nil or empty: such input is
rejected before anything is decoded; other input goes to the codec. -/
def jsonUnmarshal {α : Type} (c : Codec α) (data : Bytes) : Except Error α :=
  if data = [] then .error (Error.errorf "unexpected end of JSON input")
  else c.Unmarshal data

/-- The conversion `[]byte(s)` of a Go string, one value for each character. -/
def stringToBytes (s : String) : Bytes := s.toList.map Char.toNat

/-- The conversion `string(b)` of a Go byte slice. -/
def bytesToString (b : Bytes) : String := String.mk (b.map Char.ofNat)

/-! ## Library `time` -/

namespace time

/-- An instant (`time.Time`), in nanoseconds since the Unix epoch. -/
abbrev Time := Int

/-- A `time.Duration`, in nanoseconds. -/
abbrev Duration := Int

/-- The constant `minDuration`: the least `int64`. -/
def minDuration : Duration := -9223372036854775808

/-- The constant `maxDuration`: the greatest `int64`. -/
def maxDuration : Duration := 9223372036854775807

/-- The method `Time.Sub`: the difference `t - u` when it fits a `Duration` (an `int64`
of nanoseconds), and otherwise `minDuration` when `t` is before `u` and `maxDuration`
when it is not. -/
def Sub (t u : Time) : Duration :=
  if minDuration ≤ t - u ∧ t - u ≤ maxDuration then t - u
  else if t < u then minDuration
  else maxDuration

/-- The method `Time.Add`. -/
def Add (t : Time) (d : Duration) : Time := t + d

/-- The method `Time.Unix`: the seconds since the Unix epoch. -/
def UnixSeconds (t : Time) : Int := t / 1000000000

/-- The function `time.Unix(sec, 0)`. -/
def Unix (sec : Int) : Time := sec * 1000000000

end time

/-! ## Go maps with string keys -/

namespace gomap

/-- A Go map with string keys: its pairs, one for each key. -/
abbrev GoMap (V : Type) := List (String × V)

/-- The expression `m[k]` with its presence flag. -/
def get {V : Type} : GoMap V → String → Option V
  | [], _ => none
  | (k, v) :: rest, key => if key = k then some v else get rest key

/-- The statement `m[k] = v`. -/
def set {V : Type} (key : String) (value : V) : GoMap V → GoMap V
  | [] => [(key, value)]
  | (k, v) :: rest => if key = k then (k, value) :: rest else (k, v) :: set key value rest

/-- The statement `delete(m, k)`. -/
def delete {V : Type} (key : String) (m : GoMap V) : GoMap V :=
  m.filter (fun kv => decide (kv.1 ≠ key))

end gomap

/-! ## Package `poll`: the capability record -/

namespace poll

/-- Modelled from the spec: the type `PollInfo` is declared outside `src/`; these are
the fields the spec (section 3) lists and `sqlite/poll_store.go` and the tests read and
write. -/
structure PollInfo where
  ProtocolVersion : Nat
  Assets : List String
  PeerAllowed : Bool
  LastSeen : time.Time
  deriving DecidableEq, Repr

/-- A capability record used in the examples. -/
def exampleInfo : PollInfo :=
  { ProtocolVersion := 2, Assets := ["btc", "lbtc"], PeerAllowed := true,
    LastSeen := 1700000000000000000 }

/-- A second capability record used in the examples, seen ten seconds after
`exampleInfo`. -/
def exampleInfoLater : PollInfo :=
  { ProtocolVersion := 2, Assets := ["btc"], PeerAllowed := false,
    LastSeen := 1700000010000000000 }

/-- The method `PollStoreMock.Update` of `poll/service_test.go`; it returns nil. -/
def PollStoreMock.Update (infos : gomap.GoMap PollInfo) (peerId : String) (info : PollInfo) :
    gomap.GoMap PollInfo :=
  gomap.set peerId info infos

/-- The method `PollStoreMock.GetAll` of `poll/service_test.go`; it returns no error. -/
def PollStoreMock.GetAll (infos : gomap.GoMap PollInfo) : gomap.GoMap PollInfo := infos

/-- The method `PollStoreMock.RemoveUnseen` of `poll/service_test.go`, called at the
instant `now`: the loop ranges over the pairs of the map and deletes from it; it
returns nil. -/
def PollStoreMock.RemoveUnseen (infos : gomap.GoMap PollInfo) (now : time.Time)
    (olderThan : time.Duration) : gomap.GoMap PollInfo :=
  infos.foldl (fun m kv =>
    if time.Sub now kv.2.LastSeen > olderThan then gomap.delete kv.1 m else m) infos

/-! ### The gossip service (`poll/service.go`, which is not in `src/`) -/

/-- Modelled from the spec: the type `PollMessage` of `poll/service.go` is missing from
`src/`.  Section 6 gives the wire payload of a capability message: the protocol version,
the list of supported asset identifiers and the peer-allowed flag;
`poll/service_test.go` builds and reads the fields under these names. -/
structure PollMessage where
  Version : Nat
  Assets : List String
  PeerAllowed : Bool
  deriving DecidableEq, Repr

/-- What one call of `MessengerMock.SendMessage` of `poll/service_test.go` appends to
`peersReceived`, `msgReceived` and `msgTypeReceived`. -/
structure SentMessage where
  peerId : String
  message : Bytes
  messageType : Int
  deriving DecidableEq, Repr

/-- The method `MessengerMock.SendMessage` of `poll/service_test.go`; it returns nil. -/
def MessengerMock.SendMessage (m : List SentMessage) (peerId : String) (message : Bytes)
    (messageType : Int) : List SentMessage :=
  m ++ [{ peerId := peerId, message := message, messageType := messageType }]

/-- Modelled from the spec: the type `Service` of `poll/service.go` is missing from
`src/`.  These are what section 4.4 has the service work with, besides the poll store
and the messenger: the locally configured list of supported assets, the policy
collaborator (`IsPeerAllowed`, section 6), the protocol version, the two message types
with the function of the package `messages` that writes a type as the tag a message
handler receives, and the json encoding of the payload. -/
structure Service where
  assets : List String
  IsPeerAllowed : String → Bool
  version : Nat
  MESSAGETYPE_POLL : Int
  MESSAGETYPE_REQUEST_POLL : Int
  MessageTypeToHexString : Int → String
  json : Codec PollMessage

/-- The collaborators of the service in `poll/service_test.go`: the map of
`PollStoreMock` and the messages `MessengerMock` has received. -/
structure ServiceState where
  infos : gomap.GoMap PollInfo
  sent : List SentMessage
  deriving DecidableEq, Repr

/-- Modelled from the spec: the method `Service.Poll` of `poll/service.go` is missing
from `src/`.  Section 4.4, periodic poll, for one peer: build a capability message
containing the protocol version, the locally configured list of supported assets, and
whether local policy currently allows swaps with that peer; send it to the peer via the
messaging collaborator.  The poll store is not read or written.  A message that does not
serialise is not sent. -/
def Service.Poll (s : Service) (st : ServiceState) (peer : String) : ServiceState :=
  let poll : PollMessage :=
    { Version := s.version, Assets := s.assets, PeerAllowed := s.IsPeerAllowed peer }
  match s.json.Marshal poll with
  | .error _ => st
  | .ok msg =>
    { st with sent := MessengerMock.SendMessage st.sent peer msg s.MESSAGETYPE_POLL }

/-- Modelled from the spec: the method `Service.MessageHandler` of `poll/service.go` is
missing from `src/`.  Section 4.4, reactive message handling, at the instant `now`: on
receipt of a capability message from peer P, record or overwrite the entry of P in the
poll store with `LastSeen = now`; on receipt of a capability-request message from peer
P, additionally and immediately respond with the local capability message to P, without
looking P up in the peer directory.  Other message types are not the concern of the
service; a payload that does not decode is answered with the error of the decoder. -/
def Service.MessageHandler (s : Service) (st : ServiceState) (now : time.Time)
    (peerId msgType : String) (payload : Bytes) : Option Error × ServiceState :=
  if msgType = s.MessageTypeToHexString s.MESSAGETYPE_POLL then
    match jsonUnmarshal s.json payload with
    | .error err => (some err, st)
    | .ok msg =>
      let info : PollInfo :=
        { ProtocolVersion := msg.Version, Assets := msg.Assets,
          PeerAllowed := msg.PeerAllowed, LastSeen := now }
      (none, { st with infos := PollStoreMock.Update st.infos peerId info })
  else if msgType = s.MessageTypeToHexString s.MESSAGETYPE_REQUEST_POLL then
    match jsonUnmarshal s.json payload with
    | .error err => (some err, st)
    | .ok msg =>
      let info : PollInfo :=
        { ProtocolVersion := msg.Version, Assets := msg.Assets,
          PeerAllowed := msg.PeerAllowed, LastSeen := now }
      (none, s.Poll { st with infos := PollStoreMock.Update st.infos peerId info } peerId)
  else (none, st)

/-- The messages of `poll/service_test.go`: the message the handler is given, and the
messages the service sends to an allowed and to a refused peer. -/
def exampleMessages : List PollMessage :=
  [{ Version := 0, Assets := [], PeerAllowed := false },
   { Version := 0, Assets := ["asset1", "asset2", "asset3"], PeerAllowed := true },
   { Version := 0, Assets := ["asset1", "asset2", "asset3"], PeerAllowed := false }]

/-- The bytes the codec of the examples writes for a message: its version, its flag and
its assets separated by commas, between braces. -/
def exampleMessageBytes (m : PollMessage) : Bytes :=
  [123, m.Version, if m.PeerAllowed then 1 else 0]
    ++ stringToBytes (String.intercalate "," m.Assets) ++ [125]

/-- A codec for the examples of the gossip service: a message is read back from the
messages of the examples. -/
def exampleMessageCodec : Codec PollMessage where
  Marshal := fun m => .ok (exampleMessageBytes m)
  Unmarshal := fun data =>
    match exampleMessages.find? (fun m => decide (exampleMessageBytes m = data)) with
    | some m => .ok m
    | none => .error (Error.errorf "invalid character")

/-- The service of `poll/service_test.go`: three assets, a policy that allows `peer1`
only, and two message types with distinct tags. -/
def exampleService : Service :=
  { assets := ["asset1", "asset2", "asset3"]
    IsPeerAllowed := fun peer => decide (peer = "peer1")
    version := 0
    MESSAGETYPE_POLL := 1
    MESSAGETYPE_REQUEST_POLL := 2
    MessageTypeToHexString := fun t => if t = 1 then "poll" else "request"
    json := exampleMessageCodec }

end poll

/-! ## The key-value engine (library `go.etcd.io/bbolt`) -/

namespace bbolt

/-- A bucket of the engine: its key/value pairs, kept in ascending key order, which
is the order `ForEach` visits them in. -/
abbrev Bucket := List (Bytes × Bytes)

/-- The constant `MaxKeySize` of the engine. -/
def MaxKeySize : Nat := 32768

/-- The constant `MaxValueSize` of the engine. -/
def MaxValueSize : Nat := 2 ^ 31 - 2

/-- The method `Bucket.Get`: `none` is the nil slice the engine returns for a key
that is not in the bucket. -/
def Bucket.Get : Bucket → Bytes → Option Bytes
  | [], _ => none
  | (k, v) :: rest, key => if key = k then some v else Bucket.Get rest key

/-- Writing a pair into a bucket, at its place in the key order, replacing the value
of a key that is present. -/
def Bucket.insert (key value : Bytes) : Bucket → Bucket
  | [] => [(key, value)]
  | (k, v) :: rest =>
    if key = k then (key, value) :: rest
    else if key < k then (key, value) :: (k, v) :: rest
    else (k, v) :: Bucket.insert key value rest

/-- The method `Bucket.Put` in a writable transaction, with the checks the engine
makes on the key and the value. -/
def Bucket.Put (b : Bucket) (key value : Bytes) : Except Error Bucket :=
  if key.length = 0 then .error (Error.engine "key required")
  else if key.length > MaxKeySize then .error (Error.engine "key too large")
  else if value.length > MaxValueSize then .error (Error.engine "value too large")
  else .ok (Bucket.insert key value b)

/-- The method `Bucket.Delete` in a writable transaction. -/
def Bucket.Delete (b : Bucket) (key : Bytes) : Bucket :=
  b.filter (fun kv => decide (kv.1 ≠ key))

/-- The method `Bucket.ForEach`: `fn` is run on every pair in key order and the walk
stops at the first error; `acc` is what the closure `fn` updates. -/
def Bucket.ForEach {β : Type} (fn : Bytes → Bytes → β → Except Error β) :
    Bucket → β → Except Error β
  | [], acc => .ok acc
  | (k, v) :: rest, acc =>
    match fn k v acc with
    | .error e => .error e
    | .ok acc2 => Bucket.ForEach fn rest acc2

/-- The state behind a `*bbolt.DB` handle: the root buckets by name, the errors the
engine answers with when a transaction is begun or committed (a closed or read-only
database, a failing disk; `none` when it works), and a count of the write
transactions begun so far. -/
structure DB where
  buckets : List (String × Bucket)
  readBeginErr : Option Error
  writeBeginErr : Option Error
  commitErr : Option Error
  writeTxBegun : Nat
  deriving DecidableEq, Repr

/-- A transaction: whether it is writable, and its view of the root buckets. -/
structure Tx where
  writable : Bool
  buckets : List (String × Bucket)
  deriving DecidableEq, Repr

/-- Looking a root bucket up by name. -/
def lookupBucket : List (String × Bucket) → String → Option Bucket
  | [], _ => none
  | (n, b) :: rest, name => if name = n then some b else lookupBucket rest name

/-- Replacing the content of the root bucket `name`. -/
def setBucket (name : String) (b : Bucket) : List (String × Bucket) → List (String × Bucket)
  | [] => []
  | (n, old) :: rest =>
    if name = n then (n, b) :: rest else (n, old) :: setBucket name b rest

/-- The method `DB.Begin`: a transaction on the current content, or the error of the
engine; beginning a write transaction is counted. -/
def DB.Begin (db : DB) (writable : Bool) : Except Error Tx × DB :=
  if writable then
    match db.writeBeginErr with
    | some e => (.error e, db)
    | none => (.ok ⟨true, db.buckets⟩, { db with writeTxBegun := db.writeTxBegun + 1 })
  else
    match db.readBeginErr with
    | some e => (.error e, db)
    | none => (.ok ⟨false, db.buckets⟩, db)

/-- The method `Tx.Bucket`: `none` is the nil bucket. -/
def Tx.Bucket (tx : Tx) (name : String) : Option Bucket := lookupBucket tx.buckets name

/-- The method `Tx.CreateBucketIfNotExists` in a writable transaction, for a
non-empty name. -/
def Tx.CreateBucketIfNotExists (tx : Tx) (name : String) : Tx :=
  match lookupBucket tx.buckets name with
  | some _ => tx
  | none => { tx with buckets := tx.buckets ++ [(name, [])] }

/-- The effect of a successful `Bucket.Put` or `Bucket.Delete` on the transaction
the bucket belongs to. -/
def Tx.setBucket (tx : Tx) (name : String) (b : bbolt.Bucket) : Tx :=
  { tx with buckets := bbolt.setBucket name b tx.buckets }

/-- The method `Tx.Commit` of a write transaction: the view of the transaction
becomes the content of the database, unless the engine fails, in which case the
transaction is rolled back.  (`Tx.Rollback`, deferred by every caller, leaves the
database as it is.) -/
def DB.Commit (db : DB) (tx : Tx) : Option Error × DB :=
  match db.commitErr with
  | some e => (some e, db)
  | none => (none, { db with buckets := tx.buckets })

/-- A database on which beginning and committing transactions works. -/
def DB.Healthy (db : DB) : Prop :=
  db.readBeginErr = none ∧ db.writeBeginErr = none ∧ db.commitErr = none

instance (db : DB) : Decidable db.Healthy := by
  unfold DB.Healthy; exact inferInstance

/-- The method `DB.Update`: `fn` runs in a write transaction, which is committed when
`fn` returns no error and rolled back otherwise. -/
def DB.Update (db : DB) (fn : Tx → Except Error Tx) : Option Error × DB :=
  match db.Begin true with
  | (.error err, db1) => (some err, db1)
  | (.ok tx, db1) =>
    match fn tx with
    | .error err => (some err, db1)
    | .ok tx2 => db1.Commit tx2

/-- The method `DB.View`: `fn` runs in a read transaction; what `fn` leaves in the
variables of its caller is its result here. -/
def DB.View {α : Type} (db : DB) (fn : Tx → Except Error α) : Except Error α :=
  match (db.Begin false).1 with
  | .error err => .error err
  | .ok tx => fn tx

/-! ### `bbolt/swap_store.go` -/

/-- The variable `swapBuckets`. -/
def swapBuckets : String := "swaps"

/-- The function `h2b`: the error of `hex.DecodeString` is dropped. -/
def h2b (str : String) : Bytes := (hex.DecodeString str).1

/-- The function `NewBBoltSwapStore`; the store it returns is the handle `db`. -/
def NewBBoltSwapStore (db : DB) : Option Error × DB :=
  match db.Begin true with
  | (.error err, db1) => (some err, db1)
  | (.ok tx, db1) =>
    match db1.Commit (tx.CreateBucketIfNotExists swapBuckets) with
    | (some err, db2) => (some err, db2)
    | (none, db2) => (none, db2)

/-- The method `BBoltSwapStore.getById`. -/
def getById (c : Codec swap.SwapStateMachine) (db : DB) (s : String) :
    Except Error swap.SwapStateMachine :=
  match (db.Begin false).1 with
  | .error err => .error err
  | .ok tx =>
    match tx.Bucket swapBuckets with
    | none => .error (Error.errorf "bucket nil")
    | some b =>
      match b.Get (h2b s) with
      | none => .error swap.ErrDoesNotExist
      | some jData =>
        match c.Unmarshal jData with
        | .error err => .error err
        | .ok sw => .ok sw

/-- The method `BBoltSwapStore.idExists`. -/
def idExists (c : Codec swap.SwapStateMachine) (db : DB) (id : String) : Bool × Option Error :=
  match getById c db id with
  | .error err => if err = swap.ErrDoesNotExist then (false, none) else (false, some err)
  | .ok _ => (true, none)

/-- The method `BBoltSwapStore.create`. -/
def create (c : Codec swap.SwapStateMachine) (db : DB) (s : swap.SwapStateMachine) :
    Option Error × DB :=
  match idExists c db s.SwapId.String with
  | (_, some err) => (some err, db)
  | (true, none) => (some Error.ErrAlreadyExists, db)
  | (false, none) =>
    match db.Begin true with
    | (.error err, db1) => (some err, db1)
    | (.ok tx, db1) =>
      match tx.Bucket swapBuckets with
      | none => (some (Error.errorf "bucket nil"), db1)
      | some b =>
        match c.Marshal s with
        | .error err => (some err, db1)
        | .ok jData =>
          match b.Put (h2b s.SwapId.String) jData with
          | .error err => (some err, db1)
          | .ok b2 => db1.Commit (tx.setBucket swapBuckets b2)

/-- The method `BBoltSwapStore.update`. -/
def update (c : Codec swap.SwapStateMachine) (db : DB) (s : swap.SwapStateMachine) :
    Option Error × DB :=
  match idExists c db s.SwapId.String with
  | (_, some err) => (some err, db)
  | (false, none) => (some swap.ErrDoesNotExist, db)
  | (true, none) =>
    match db.Begin true with
    | (.error err, db1) => (some err, db1)
    | (.ok tx, db1) =>
      match tx.Bucket swapBuckets with
      | none => (some (Error.errorf "bucket nil"), db1)
      | some b =>
        match c.Marshal s with
        | .error err => (some err, db1)
        | .ok jData =>
          match b.Put (h2b s.SwapId.String) jData with
          | .error err => (some err, db1)
          | .ok b2 => db1.Commit (tx.setBucket swapBuckets b2)

/-- The method `BBoltSwapStore.UpdateData`. -/
def UpdateData (c : Codec swap.SwapStateMachine) (db : DB) (s : swap.SwapStateMachine) :
    Option Error × DB :=
  match update c db s with
  | (err, db1) =>
    if err = some swap.ErrDoesNotExist then create c db1 s
    else (err, db1)

/-- The method `BBoltSwapStore.GetData`; `.error` stands for a nil record with that
error. -/
def GetData (c : Codec swap.SwapStateMachine) (db : DB) (id : String) :
    Except Error swap.SwapStateMachine :=
  match getById c db id with
  | .error err =>
    if err = swap.ErrDoesNotExist then .error swap.ErrDataNotAvailable else .error err
  | .ok s => .ok s

/-- The method `BBoltSwapStore.ListAll`. -/
def ListAll (c : Codec swap.SwapStateMachine) (db : DB) :
    Except Error (List swap.SwapStateMachine) :=
  match (db.Begin false).1 with
  | .error err => .error err
  | .ok tx =>
    match tx.Bucket swapBuckets with
    | none => .error (Error.errorf "bucket nil")
    | some b =>
      Bucket.ForEach (fun _ v swaps =>
        match c.Unmarshal v with
        | .error err => .error err
        | .ok s => .ok (swaps ++ [s])) b []

/-- The method `BBoltSwapStore.ListAllByPeer`. -/
def ListAllByPeer (c : Codec swap.SwapStateMachine) (db : DB) (peer : String) :
    Except Error (List swap.SwapStateMachine) :=
  match (db.Begin false).1 with
  | .error err => .error err
  | .ok tx =>
    match tx.Bucket swapBuckets with
    | none => .error (Error.errorf "bucket nil")
    | some b =>
      Bucket.ForEach (fun _ v swaps =>
        match c.Unmarshal v with
        | .error err => .error err
        | .ok s => if s.Data.PeerNodeId = peer then .ok (swaps ++ [s]) else .ok swaps) b []

/-! ### `bbolt/version_store.go` -/

/-- The variable `versionBucket`. -/
def versionBucket : String := "version"

/-- The function `NewBBoltVersionStore`; the store it returns is the handle `db`. -/
def NewBBoltVersionStore (db : DB) : Option Error × DB :=
  match db.Begin true with
  | (.error err, db1) => (some err, db1)
  | (.ok tx, db1) =>
    match db1.Commit (tx.CreateBucketIfNotExists versionBucket) with
    | (some err, db2) => (some err, db2)
    | (none, db2) => (none, db2)

/-- The method `BBoltVersionStore.GetVersion`. -/
def GetVersion (db : DB) : String × Option Error :=
  match (db.Begin false).1 with
  | .error err => ("", some err)
  | .ok tx =>
    match tx.Bucket versionBucket with
    | none => ("", some (Error.errorf "bucket nil"))
    | some b =>
      match b.Get (stringToBytes "version") with
      | none => ("", some version.ErrDoesNotExist)
      | some jData => (bytesToString jData, none)

/-- The method `BBoltVersionStore.SetVersion`. -/
def SetVersion (db : DB) (version : String) : Option Error × DB :=
  match db.Begin true with
  | (.error err, db1) => (some err, db1)
  | (.ok tx, db1) =>
    match tx.Bucket versionBucket with
    | none => (some (Error.errorf "bucket nil"), db1)
    | some b =>
      match b.Put (stringToBytes "version") (stringToBytes version) with
      | .error err => (some err, db1)
      | .ok b2 => db1.Commit (tx.setBucket versionBucket b2)

/-- The store `BBoltVersionStore` as a `version.VersionStore` over the database. -/
def BBoltVersionStore : version.VersionStore DB where
  GetVersion := fun db => (GetVersion db, db)
  SetVersion := fun v db => SetVersion db v

/-! ### `bbolt/requested_swap_store.go` -/

/-- The variable `requestedSwapsBucket`. -/
def requestedSwapsBucket : String := "requested-swaps"

/-- The function `NewBBoltRequestedSwapsStore`; the store it returns is the handle
`db`. -/
def NewBBoltRequestedSwapsStore (db : DB) : Option Error × DB :=
  match db.Begin true with
  | (.error err, db1) => (some err, db1)
  | (.ok tx, db1) =>
    match db1.Commit (tx.CreateBucketIfNotExists requestedSwapsBucket) with
    | (some err, db2) => (some err, db2)
    | (none, db2) => (none, db2)

/-- The method `BBoltRequestedSwapsStore.Add`.  A method called on the nil bucket
panics. -/
def BBoltRequestedSwapsStore.Add (c : Codec (List swap.RequestedSwap)) (db : DB)
    (id : String) (reqswap : swap.RequestedSwap) : Option Error × DB :=
  db.Update (fun tx =>
    match tx.Bucket requestedSwapsBucket with
    | none => .error (Error.panic "invalid memory address or nil pointer dereference")
    | some b =>
      let appended : Except Error (List swap.RequestedSwap) :=
        match b.Get (stringToBytes id) with
        | none => .ok [reqswap]
        | some k =>
          match jsonUnmarshal c k with
          | .error err => .error err
          | .ok reqswaps => .ok (reqswaps ++ [reqswap])
      match appended with
      | .error err => .error err
      | .ok reqswaps =>
        match c.Marshal reqswaps with
        | .error err => .error err
        | .ok buf =>
          match b.Put (stringToBytes id) buf with
          | .error err => .error err
          | .ok b2 => .ok (tx.setBucket requestedSwapsBucket b2))

/-- The method `BBoltRequestedSwapsStore.Get`: the value of the key, which is nil
when the key is missing, goes to `json.Unmarshal`. -/
def BBoltRequestedSwapsStore.Get (c : Codec (List swap.RequestedSwap)) (db : DB)
    (id : String) : Except Error (List swap.RequestedSwap) :=
  db.View (fun tx =>
    match tx.Bucket requestedSwapsBucket with
    | none => .error (Error.panic "invalid memory address or nil pointer dereference")
    | some b =>
      match b.Get (stringToBytes id) with
      | none => jsonUnmarshal c []
      | some k => jsonUnmarshal c k)

/-! ### `bbolt/poll_store.go` -/

/-- The variable `POLL_BUCKET`. -/
def POLL_BUCKET : String := "poll-list"

/-- The function `NewBBoltPollStore`; the store it returns is the handle `db`. -/
def NewBBoltPollStore (db : DB) : Option Error × DB :=
  match db.Begin true with
  | (.error err, db1) => (some err, db1)
  | (.ok tx, db1) =>
    match db1.Commit (tx.CreateBucketIfNotExists POLL_BUCKET) with
    | (some err, db2) => (some err, db2)
    | (none, db2) => (none, db2)

/-- The method `BBoltPollStore.Update`.  A method called on the nil bucket panics. -/
def BBoltPollStore.Update (c : Codec poll.PollInfo) (db : DB) (peerId : String)
    (info : poll.PollInfo) : Option Error × DB :=
  db.Update (fun tx =>
    match c.Marshal info with
    | .error err => .error err
    | .ok infoBytes =>
      match tx.Bucket POLL_BUCKET with
      | none => .error (Error.panic "invalid memory address or nil pointer dereference")
      | some b =>
        match b.Put (stringToBytes peerId) infoBytes with
        | .error err => .error err
        | .ok b2 => .ok (tx.setBucket POLL_BUCKET b2))

/-- The method `BBoltPollStore.GetAll`. -/
def BBoltPollStore.GetAll (c : Codec poll.PollInfo) (db : DB) :
    Except Error (gomap.GoMap poll.PollInfo) :=
  db.View (fun tx =>
    match tx.Bucket POLL_BUCKET with
    | none => .error (Error.panic "invalid memory address or nil pointer dereference")
    | some b =>
      Bucket.ForEach (fun k v pollinfos =>
        match jsonUnmarshal c v with
        | .error err => .error err
        | .ok info => .ok (gomap.set (bytesToString k) info pollinfos)) b [])

/-- The method `BBoltPollStore.RemoveUnseen`, called at the instant `now`.  The walk
of `ForEach` visits the pairs that are in the bucket when it starts, and `b.Delete(k)`,
whose error is dropped, takes the visited key out of the bucket of the transaction. -/
def BBoltPollStore.RemoveUnseen (c : Codec poll.PollInfo) (db : DB) (now : time.Time)
    (olderThan : time.Duration) : Option Error × DB :=
  db.Update (fun tx =>
    match tx.Bucket POLL_BUCKET with
    | none => .error (Error.panic "invalid memory address or nil pointer dereference")
    | some b =>
      match Bucket.ForEach (fun k v bucket =>
          match jsonUnmarshal c v with
          | .error err => .error err
          | .ok info =>
            if time.Sub now info.LastSeen > olderThan then .ok (Bucket.Delete bucket k)
            else .ok bucket) b b with
      | .error err => .error err
      | .ok b2 => .ok (tx.setBucket POLL_BUCKET b2))

/-! ### `bbolt/check_unused.go` -/

/-- The variable `ErrExistingSwaps`. -/
def ErrExistingSwaps : Error := Error.ErrExistingSwaps

/-- The function `filepath.Join` on a directory and a file name (the cleaning of the
path is left out). -/
def filepathJoin (dir name : String) : String :=
  if dir = "" then name else dir ++ "/" ++ name

/-- The function `os.IsNotExist` on the error of `os.Stat`. -/
def IsNotExist (err : Option Error) : Bool := decide (err = some Error.osErrNotExist)

/-- What `CheckUnused` takes from outside `bbolt/check_unused.go`: the error of
`os.Stat` for a path, the result of `bbolt.Open` for a path, and the method
`BBoltSwapStore.HasActiveSwaps`, which is declared outside `src/` and reads the store
(spec, section 6: a scan of `ListAll()` for non-terminal states). -/
structure Env where
  Stat : String → Option Error
  Open : String → Except Error DB
  HasActiveSwaps : DB → Bool × Option Error

/-- The function `CheckUnused`: the error it returns and the state it leaves the
legacy database in (`none` when the database was not opened).  The `log.Infof` calls
are left out. -/
def CheckUnused (env : Env) (datadir : String) : Option Error × Option DB :=
  let bboltDbFile := filepathJoin datadir "swaps"
  if IsNotExist (env.Stat bboltDbFile) then (none, none)
  else
    match env.Open bboltDbFile with
    | .error _ => (none, none)
    | .ok bboltdb =>
      match NewBBoltSwapStore bboltdb with
      | (some _, db1) => (none, some db1)
      | (none, db1) =>
        match env.HasActiveSwaps db1 with
        | (_, some _) => (none, some db1)
        | (false, none) => (none, some db1)
        | (true, none) =>
          match NewBBoltVersionStore db1 with
          | (some _, db2) => (ErrExistingSwaps, some db2)
          | (none, db2) =>
            match GetVersion db2 with
            | (_, some _) => (ErrExistingSwaps, some db2)
            | (_, none) => (ErrExistingSwaps, some db2)

/-- A database without buckets on which every transaction works. -/
def freshDB : DB :=
  { buckets := [], readBeginErr := none, writeBeginErr := none, commitErr := none,
    writeTxBegun := 0 }

/-- A closed database: beginning a transaction fails with the error `ErrDatabaseNotOpen`
of the engine. -/
def closedDB : DB :=
  { buckets := [], readBeginErr := some (Error.engine "database not open"),
    writeBeginErr := some (Error.engine "database not open"), commitErr := none,
    writeTxBegun := 0 }

/-- Surroundings of `CheckUnused` in which the legacy file exists, opens as `freshDB`
and holds no active swap. -/
def freshEnv : Env :=
  { Stat := fun _ => none
    Open := fun _ => .ok freshDB
    HasActiveSwaps := fun _ => (false, none) }

/-- A record the store can hold: it serialises within the value size of the engine and
its serialisation reads back as the record. -/
def Storable (c : Codec swap.SwapStateMachine) (r : swap.SwapStateMachine) : Prop :=
  ∃ jData : Bytes, c.Marshal r = .ok jData ∧ jData.length ≤ MaxValueSize
    ∧ c.Unmarshal jData = .ok r

/-- The keys of a bucket are in strictly ascending order. -/
def SortedKeys (b : Bucket) : Prop := b.Pairwise (fun x y => x.1 < y.1)

/-- The states of the database that `NewBBoltSwapStore` and `UpdateData` produce:
transactions work, the bucket `swaps` exists with its keys in order, and every value
in it reads back as a record with a valid identifier, stored under the bytes of that
identifier. -/
def StoreInv (c : Codec swap.SwapStateMachine) (db : DB) : Prop :=
  db.Healthy ∧ ∃ b : Bucket, lookupBucket db.buckets swapBuckets = some b ∧ SortedKeys b
    ∧ ∀ kv ∈ b, ∃ r : swap.SwapStateMachine,
        c.Unmarshal kv.2 = .ok r ∧ r.SwapId.Valid ∧ kv.1 = r.SwapId.bytes

/-- The store contents reachable by `UpdateData` calls: the store is constructed on a
working database whose bucket `swaps` is missing or empty, and then written by
`UpdateData` with storable records. -/
inductive Reachable (c : Codec swap.SwapStateMachine) : DB → Prop where
  | new (db : DB) (hdb : db.Healthy)
      (hempty : lookupBucket db.buckets swapBuckets = none
        ∨ lookupBucket db.buckets swapBuckets = some []) :
      Reachable c (NewBBoltSwapStore db).2
  | write (db : DB) (r : swap.SwapStateMachine) (hdb : Reachable c db)
      (hid : r.SwapId.Valid) (hr : Storable c r) :
      Reachable c (UpdateData c db r).2

/-- The record a stored value reads back as (a value that does not read back gives
the fallback `r0`). -/
def decodeOr (c : Codec swap.SwapStateMachine) (r0 : swap.SwapStateMachine) (v : Bytes) :
    swap.SwapStateMachine :=
  match c.Unmarshal v with
  | .ok r => r
  | .error _ => r0

/-- A codec for the examples: a record is written as the bytes of its identifier
followed by its current state, and read back from the records of the examples. -/
def exampleCodec : Codec swap.SwapStateMachine where
  Marshal := fun r => .ok (r.SwapId.bytes ++ stringToBytes r.Current)
  Unmarshal := fun jData =>
    match [swap.exampleSwap, swap.exampleSwapNext].find?
        (fun r => decide (r.SwapId.bytes ++ stringToBytes r.Current = jData)) with
    | some r => .ok r
    | none => .error (Error.errorf "unexpected end of JSON input")

/-- The store constructed on `freshDB`. -/
def freshStore : DB :=
  { buckets := [("swaps", [])], readBeginErr := none, writeBeginErr := none,
    commitErr := none, writeTxBegun := 1 }

/-- The states of the database that `NewBBoltPollStore` and `Update` produce:
transactions work, the bucket `poll-list` exists with its keys in order, every key is
the bytes of a peer id and every value reads back as a capability record. -/
def PollInv (c : Codec poll.PollInfo) (db : DB) : Prop :=
  db.Healthy ∧ ∃ b : Bucket, lookupBucket db.buckets POLL_BUCKET = some b ∧ SortedKeys b
    ∧ ∀ kv ∈ b, (∃ p : String, kv.1 = stringToBytes p)
        ∧ ∃ info : poll.PollInfo, jsonUnmarshal c kv.2 = .ok info

/-- The capability record a stored value reads back as (a value that does not read
back gives the fallback `d`). -/
def unmarshalOr (c : Codec poll.PollInfo) (d : poll.PollInfo) (v : Bytes) : poll.PollInfo :=
  match jsonUnmarshal c v with
  | .ok info => info
  | .error _ => d

/-- The keys `RemoveUnseen` deletes at the instant `now`: those of the pairs whose
record was last seen more than `olderThan` before. -/
def expiredKeys (c : Codec poll.PollInfo) (d : poll.PollInfo) (now : time.Time)
    (olderThan : time.Duration) (b : Bucket) : List Bytes :=
  (b.filter (fun kv =>
    decide (time.Sub now (unmarshalOr c d kv.2).LastSeen > olderThan))).map Prod.fst

/-- A codec for the examples of the poll store: a record is written as its protocol
version and the second it was last seen, between braces, and read back from the
records of the examples. -/
def examplePollCodec : Codec poll.PollInfo where
  Marshal := fun info =>
    .ok [123, info.ProtocolVersion, (time.UnixSeconds info.LastSeen).toNat, 125]
  Unmarshal := fun data =>
    match [poll.exampleInfo, poll.exampleInfoLater].find?
        (fun info => decide
          ([123, info.ProtocolVersion, (time.UnixSeconds info.LastSeen).toNat, 125] = data)) with
    | some info => .ok info
    | none => .error (Error.errorf "invalid character")

/-- A poll store that holds `exampleInfo` for the peer `02ab` and `exampleInfoLater`
for the peer `03cd`. -/
def examplePollStore : DB :=
  { buckets :=
      [("poll-list",
        [(stringToBytes "02ab", [123, 2, 1700000000, 125]),
         (stringToBytes "03cd", [123, 2, 1700000010, 125])])]
    readBeginErr := none, writeBeginErr := none, commitErr := none, writeTxBegun := 3 }

/-- The poll store constructed on `freshDB`. -/
def freshPollStore : DB :=
  { buckets := [("poll-list", [])], readBeginErr := none, writeBeginErr := none,
    commitErr := none, writeTxBegun := 1 }

/-- A codec for the examples of the requested-swap store: a list is written as its
amounts between brackets, and read back from the lists of the examples. -/
def exampleListCodec : Codec (List swap.RequestedSwap) where
  Marshal := fun l => .ok (91 :: l.map (fun e => e.AmountSat) ++ [93])
  Unmarshal := fun data =>
    match [[], [swap.exampleRequest], [swap.exampleRequest, swap.exampleRejected]].find?
        (fun l => decide (91 :: l.map (fun e => e.AmountSat) ++ [93] = data)) with
    | some l => .ok l
    | none => .error (Error.errorf "invalid character")

/-- The requested-swap store constructed on `freshDB`. -/
def freshRequestedStore : DB :=
  { buckets := [("requested-swaps", [])], readBeginErr := none, writeBeginErr := none,
    commitErr := none, writeTxBegun := 1 }

/-- The calls of the interface of `BBoltSwapStore`. -/
inductive Op where
  | UpdateData (s : swap.SwapStateMachine)
  | GetData (id : String)
  | ListAll
  | ListAllByPeer (peer : String)

/-- The database after one call: `GetData`, `ListAll` and `ListAllByPeer` run in a
read transaction and leave it as it is. -/
def applyOp (c : Codec swap.SwapStateMachine) (db : DB) : Op → DB
  | .UpdateData s => (UpdateData c db s).2
  | .GetData _ => db
  | .ListAll => db
  | .ListAllByPeer _ => db

/-- The database after a sequence of calls. -/
def run (c : Codec swap.SwapStateMachine) (db : DB) (ops : List Op) : DB :=
  ops.foldl (applyOp c) db

end bbolt

/-! ## The relational engine (library `database/sql` with the sqlite driver) -/

namespace sqlite

/-- A row of the table `swaps`, column by column. -/
structure SwapRow where
  swap_id : Bytes
  type : Int
  role : Int
  previous_state : String
  current_state : String
  peer_node_id : Bytes
  initiator_node_id : Bytes
  created_at : Int
  private_key : Bytes
  fee_preimage : Bytes
  opening_tx_fee : Int
  opening_tx : Bytes
  starting_block_height : Nat
  claim_tx_id : Bytes
  claim_payment_hash : Bytes
  claim_preimage : Bytes
  blinding_key : Bytes
  next_message : Bytes
  next_message_type : Int
  last_err : String
  deriving DecidableEq, Repr

/-- A row of the table `requested_swaps`. -/
structure RequestedSwapRow where
  peer_node_id : Bytes
  asset : String
  amount_sat : Int
  type : Int
  rejection_reason : String
  deriving DecidableEq, Repr

/-- A row of the table `poll_info`. -/
structure PollInfoRow where
  peer_node_id : Bytes
  protocol_version : Nat
  peer_allowed : Bool
  last_seen : Int
  deriving DecidableEq, Repr

/-- A row of the table `poll_info_assets`. -/
structure PollInfoAssetRow where
  peer_node_id : Bytes
  asset : String
  deriving DecidableEq, Repr

/-- The tables of the database (`swap_id` is the primary key of `swaps`). -/
structure Tables where
  swaps : List SwapRow
  requested_swaps : List RequestedSwapRow
  poll_info : List PollInfoRow
  poll_info_assets : List PollInfoAssetRow
  deriving DecidableEq, Repr

/-- The state behind a `*sql.DB` handle: the committed tables, and for every
transaction that was begun and neither committed nor rolled back the tables as that
transaction sees them. -/
structure DB where
  committed : Tables
  openTxs : List Tables
  deriving DecidableEq, Repr

/-- The method `DB.BeginTx`: the database is opened with `_txlock=immediate`, so a
transaction takes the write lock when it begins, and beginning one fails while
another one is open. -/
def DB.BeginTx (db : DB) : Except Error Tables :=
  match db.openTxs with
  | [] => .ok db.committed
  | _ :: _ => .error (Error.engine "database is locked")

/-- The statement `INSERT INTO swaps (...) VALUES (...) ON CONFLICT(swap_id) DO UPDATE
SET ...` with every column but `swap_id` updated: the row with the same `swap_id` is
replaced, or the row is added. -/
def upsert (row : SwapRow) : List SwapRow → List SwapRow
  | [] => [row]
  | r :: rest => if r.swap_id = row.swap_id then row :: rest else r :: upsert row rest

/-- The statement `SELECT ... FROM swaps WHERE swap_id = ?` outside a transaction: the
first committed row with that `swap_id`. -/
def queryRow (db : DB) (swapid : Bytes) : Option SwapRow :=
  db.committed.swaps.find? (fun r => decide (r.swap_id = swapid))

/-- The method `Row.Scan`: without a row it reports `sql.ErrNoRows`. -/
def Scan (row : Option SwapRow) : Except Error SwapRow :=
  match row with
  | none => .error Error.sqlErrNoRows
  | some r => .ok r

/-- The conversion `int64(x)` of a `uint64`. -/
def toInt64 (x : Nat) : Int :=
  if x % 2 ^ 64 < 2 ^ 63 then (x % 2 ^ 64 : Nat) else (x % 2 ^ 64 : Nat) - (2 ^ 64 : Int)

/-- The conversion `uint64(x)` of an `int64`. -/
def toUint64 (x : Int) : Nat := (x % (2 ^ 64 : Int)).toNat

/-- The method `SqliteSwapStore.UpdateData`.  The transaction it begins is not
committed and not rolled back on any of its return paths: it stays open. -/
def UpdateData (db : DB) (s : swap.SwapStateMachine) : Option Error × DB :=
  match db.BeginTx with
  | .error err => (some err, db)
  | .ok tx =>
    let db1 : DB := { db with openTxs := tx :: db.openTxs }
    match hex.DecodeString s.Data.PeerNodeId with
    | (_, some err) => (some (Error.wrapf ("failed to decode peer node id \x27" ++ s.Data.PeerNodeId ++ "\x27: ") err), db1)
    | (peerid, none) =>
    match hex.DecodeString s.Data.InitiatorNodeId with
    | (_, some err) => (some (Error.wrapf ("failed to decode initiator node id \x27" ++ s.Data.InitiatorNodeId ++ "\x27: ") err), db1)
    | (initiatorid, none) =>
    match hex.DecodeString s.Data.FeePreimage with
    | (_, some err) => (some (Error.wrapf ("failed to decode fee preimage \x27" ++ s.Data.FeePreimage ++ "\x27: ") err), db1)
    | (feePreimage, none) =>
    match hex.DecodeString s.Data.OpeningTxHex with
    | (_, some err) => (some (Error.wrapf ("failed to decode opening tx hex \x27" ++ s.Data.OpeningTxHex ++ "\x27: ") err), db1)
    | (openingtx, none) =>
    match hex.DecodeString s.Data.ClaimTxId with
    | (_, some err) => (some (Error.wrapf ("failed to decode claim tx id \x27" ++ s.Data.ClaimTxId ++ "\x27: ") err), db1)
    | (claimtxid, none) =>
    match hex.DecodeString s.Data.ClaimPreimage with
    | (_, some err) => (some (Error.wrapf ("failed to decode claim preimage \x27" ++ s.Data.ClaimPreimage ++ "\x27: ") err), db1)
    | (claimpreimage, none) =>
    match hex.DecodeString s.Data.ClaimPaymentHash with
    | (_, some err) => (some (Error.wrapf ("failed to decode claim payment hash \x27" ++ s.Data.ClaimPaymentHash ++ "\x27: ") err), db1)
    | (claimPaymentHash, none) =>
    match hex.DecodeString s.Data.BlindingKeyHex with
    | (_, some err) => (some (Error.wrapf ("failed to decode blinding key \x27" ++ s.Data.BlindingKeyHex ++ "\x27: ") err), db1)
    | (blindingkey, none) =>
      let row : SwapRow :=
        { swap_id := s.SwapId.bytes
          type := s.SwapType
          role := s.Role
          previous_state := s.Previous
          current_state := s.Current
          peer_node_id := peerid
          initiator_node_id := initiatorid
          created_at := s.Data.CreatedAt
          private_key := s.Data.PrivkeyBytes
          fee_preimage := feePreimage
          opening_tx_fee := toInt64 s.Data.OpeningTxFee
          opening_tx := openingtx
          starting_block_height := s.Data.StartingBlockHeight
          claim_tx_id := claimtxid
          claim_payment_hash := claimPaymentHash
          claim_preimage := claimpreimage
          blinding_key := blindingkey
          next_message := s.Data.NextMessage
          next_message_type := s.Data.NextMessageType
          last_err := s.Data.LastErrString }
      (none, { db with openTxs := { tx with swaps := upsert row tx.swaps } :: db.openTxs })

/-- Modelled from the spec: the method `SwapId.FromString` is declared outside
`src/`; an identifier is 32 bytes written as 64 hexadecimal characters (spec, section
3), so the string is decoded and its length checked. -/
def FromString (str : String) : Except Error swap.SwapId :=
  match hex.DecodeString str with
  | (_, some err) => .error err
  | (data, none) =>
    if data.length ≠ 32 then .error (Error.errorf "can not decode string: invalid length")
    else .ok ⟨data⟩

/-- The method `SqliteSwapStore.GetData`; `.error` stands for a nil record with that
error. -/
def GetData (db : DB) (id : String) : Except Error swap.SwapStateMachine :=
  match hex.DecodeString id with
  | (_, some err) => .error (Error.wrapf ("failed to decode swap id \x27" ++ id ++ "\x27: ") err)
  | (swapid, none) =>
    match Scan (queryRow db swapid) with
    | .error err =>
      if err = Error.sqlErrNoRows then .error swap.ErrDataNotAvailable else .error err
    | .ok row =>
      match FromString id with
      | .error err => .error err
      | .ok resid =>
        .ok
          { SwapId := resid
            SwapType := row.type
            Role := row.role
            Previous := row.previous_state
            Current := row.current_state
            Data :=
              { PeerNodeId := hex.EncodeToString row.peer_node_id
                InitiatorNodeId := hex.EncodeToString row.initiator_node_id
                CreatedAt := row.created_at
                Role := row.role
                FSMState := row.current_state
                PrivkeyBytes := row.private_key
                FeePreimage := hex.EncodeToString row.fee_preimage
                OpeningTxFee := toUint64 row.opening_tx_fee
                OpeningTxHex := hex.EncodeToString row.opening_tx
                StartingBlockHeight := row.starting_block_height
                ClaimTxId := hex.EncodeToString row.claim_tx_id
                ClaimPaymentHash := hex.EncodeToString row.claim_payment_hash
                ClaimPreimage := hex.EncodeToString row.claim_preimage
                BlindingKeyHex := hex.EncodeToString row.blinding_key
                NextMessage := row.next_message
                NextMessageType := row.next_message_type
                LastErrString := row.last_err } }

/-! ### `sqlite/poll_store.go` -/

/-- The method `SqlitePollStore.Update`.  The statements run in the transaction are
taken to succeed (the paths on which one fails call `tx.Rollback()`); the path on which
the peer id fails to decode returns with the transaction open. -/
def SqlitePollStore.Update (db : DB) (peerId : String) (info : poll.PollInfo) :
    Option Error × DB :=
  match db.BeginTx with
  | .error err => (some err, db)
  | .ok tx =>
    match hex.DecodeString peerId with
    | (_, some err) =>
      (some (Error.wrapf "failed to decode peer id: " err),
        { db with openTxs := tx :: db.openTxs })
    | (peerIdBytes, none) =>
      -- DELETE FROM poll_info_assets WHERE peer_node_id = ?
      let tx1 : Tables :=
        { tx with poll_info_assets :=
            tx.poll_info_assets.filter (fun a => decide (a.peer_node_id ≠ peerIdBytes)) }
      -- DELETE FROM poll_info WHERE peer_node_id = ?
      let tx2 : Tables :=
        { tx1 with poll_info :=
            tx1.poll_info.filter (fun i => decide (i.peer_node_id ≠ peerIdBytes)) }
      -- INSERT INTO poll_info (peer_node_id, protocol_version, peer_allowed, last_seen)
      let tx3 : Tables :=
        { tx2 with poll_info := tx2.poll_info ++
            [{ peer_node_id := peerIdBytes
               protocol_version := info.ProtocolVersion
               peer_allowed := info.PeerAllowed
               last_seen := time.UnixSeconds info.LastSeen }] }
      -- INSERT INTO poll_info_assets (peer_node_id, asset) VALUES (?,?),...
      let tx4 : Tables :=
        if info.Assets.length > 0 then
          { tx3 with poll_info_assets := tx3.poll_info_assets ++
              info.Assets.map (fun a => { peer_node_id := peerIdBytes, asset := a }) }
        else tx3
      -- tx.Commit()
      (none, { db with committed := tx4 })

/-- A row of the query of `SqlitePollStore.GetAll`: a row of `poll_info` with one of
the assets of its peer, or with `NULL` (`none`) when the peer has no asset. -/
structure PollJoinRow where
  peer_node_id : Bytes
  protocol_version : Nat
  peer_allowed : Bool
  last_seen : Int
  asset : Option String
  deriving DecidableEq, Repr

/-- The clause `FROM poll_info i LEFT JOIN poll_info_assets a ON i.peer_node_id =
a.peer_node_id` on the committed tables. -/
def pollJoin (t : Tables) : List PollJoinRow :=
  t.poll_info.flatMap (fun i =>
    match t.poll_info_assets.filter (fun a => decide (a.peer_node_id = i.peer_node_id)) with
    | [] =>
      [{ peer_node_id := i.peer_node_id, protocol_version := i.protocol_version,
         peer_allowed := i.peer_allowed, last_seen := i.last_seen, asset := none }]
    | a :: rest =>
      (a :: rest).map (fun x =>
        { peer_node_id := i.peer_node_id, protocol_version := i.protocol_version,
          peer_allowed := i.peer_allowed, last_seen := i.last_seen, asset := some x.asset }))

/-- The order of a text column in which `NULL` comes first. -/
def assetLe : Option String → Option String → Prop
  | none, _ => True
  | some _, none => False
  | some x, some y => ¬ (stringToBytes y < stringToBytes x)

instance : DecidableRel assetLe := fun a b => by
  cases a <;> cases b <;> unfold assetLe <;> exact inferInstance

/-- The order of `ORDER BY i.peer_node_id, a.asset`. -/
def pollJoinLe (a b : PollJoinRow) : Prop :=
  a.peer_node_id < b.peer_node_id
    ∨ (a.peer_node_id = b.peer_node_id ∧ assetLe a.asset b.asset)

instance : DecidableRel pollJoinLe := fun a b => by
  unfold pollJoinLe; exact inferInstance

/-- The variables of the loop of `SqlitePollStore.GetAll`: the map `result`, the
slice `lastPeerId` (`none` is nil) and the record `lastInfo` points to. -/
structure GetAllState where
  result : gomap.GoMap poll.PollInfo
  lastPeerId : Option Bytes
  lastInfo : Option poll.PollInfo

/-- The loop of `SqlitePollStore.GetAll` over the rows of the query.  Scanning a
`NULL` asset into a `string` fails.  A further row of the same peer appends its asset
to the record `lastInfo` points to; the map holds the copy `*lastInfo` made at the
first row of the peer, whose slice `Assets` has length and capacity one and is not
reached by that append. -/
def SqlitePollStore.GetAllLoop : List PollJoinRow → GetAllState →
    Except Error (gomap.GoMap poll.PollInfo)
  | [], st => .ok st.result
  | row :: rest, st =>
    match row.asset with
    | none =>
      .error (Error.wrapf "failed to scan row: "
        (Error.engine ("sql: Scan error on column index 4, name \x22asset\x22: " ++
          "converting NULL to string is unsupported")))
    | some asset =>
      if st.lastPeerId ≠ none ∧ st.lastPeerId = some row.peer_node_id then
        SqlitePollStore.GetAllLoop rest
          { st with lastInfo :=
              st.lastInfo.map (fun info => { info with Assets := info.Assets ++ [asset] }) }
      else
        let lastInfo : poll.PollInfo :=
          { ProtocolVersion := row.protocol_version
            Assets := [asset]
            PeerAllowed := row.peer_allowed
            LastSeen := time.Unix row.last_seen }
        SqlitePollStore.GetAllLoop rest
          { result := gomap.set (hex.EncodeToString row.peer_node_id) lastInfo st.result
            lastPeerId := some row.peer_node_id
            lastInfo := some lastInfo }

/-- The method `SqlitePollStore.GetAll`. -/
def SqlitePollStore.GetAll (db : DB) : Except Error (gomap.GoMap poll.PollInfo) :=
  SqlitePollStore.GetAllLoop (List.insertionSort pollJoinLe (pollJoin db.committed))
    { result := [], lastPeerId := none, lastInfo := none }

/-- A database with empty tables and no open transaction. -/
def emptyDB : DB :=
  { committed := { swaps := [], requested_swaps := [], poll_info := [], poll_info_assets := [] }
    openTxs := [] }

/-- What the engine and its driver answer to the two statements of
`SqlitePollStore.RemoveUnseen`, which the source of the store does not settle. -/
structure Dialect where
  /-- The error for `DELETE FROM poll_info_assets a WHERE ...`, whose table alias is
  written without `AS`; `none` when the statement is accepted. -/
  aliasErr : Option Error
  /-- The error for a statement that has a placeholder and is given no argument; `none`
  when the statement runs with the parameter unbound, which is `NULL`. -/
  missingArgErr : Option Error

/-- The method `SqlitePollStore.RemoveUnseen`, called at the instant `now`.  The first
statement is given the argument `before`; the second statement has the placeholder `?`
and is given no argument, so when it runs its parameter is `NULL`, the comparison
`last_seen < NULL` is true of no row, and it deletes nothing.  A failing statement is
followed by `tx.Rollback()`. -/
def SqlitePollStore.RemoveUnseen (dl : Dialect) (db : DB) (now : time.Time)
    (olderThan : time.Duration) : Option Error × DB :=
  let before := time.UnixSeconds (time.Add now (-olderThan))
  -- s.db.Begin()
  match db.BeginTx with
  | .error err => (some err, db)
  | .ok tx =>
    -- DELETE FROM poll_info_assets a WHERE a.peer_node_id IN (
    --   SELECT i.peer_node_id FROM poll_info i WHERE i.last_seen < ?)
    match dl.aliasErr with
    | some err => (some err, db) -- tx.Rollback()
    | none =>
      let tx1 : Tables :=
        { tx with poll_info_assets :=
            tx.poll_info_assets.filter (fun a =>
              decide (a.peer_node_id ∉
                (tx.poll_info.filter (fun i => decide (i.last_seen < before))).map
                  (fun i => i.peer_node_id))) }
      -- DELETE FROM poll_info WHERE last_seen < ?
      match dl.missingArgErr with
      | some err => (some err, db) -- tx.Rollback()
      | none =>
        -- tx.Commit()
        (none, { db with committed := tx1 })

/-- A record last seen at second 1700000000, with one asset. -/
def oldInfo : poll.PollInfo := { poll.exampleInfoLater with LastSeen := 1700000000000000000 }

/-- The poll store that holds `oldInfo` for the peer `02ab` and `poll.exampleInfoLater`,
last seen ten seconds later, for the peer `03cd`. -/
def examplePollDB : DB :=
  (SqlitePollStore.Update (SqlitePollStore.Update emptyDB "02ab" oldInfo).2 "03cd"
    poll.exampleInfoLater).2

/-! ### `sqlite/requested_swap_store.go` -/

/-- The method `DB.Exec` outside a transaction: the statement is committed at once,
and fails while a transaction holds the write lock. -/
def DB.Exec (db : DB) (stmt : Tables → Tables) : Option Error × DB :=
  match db.openTxs with
  | [] => (none, { db with committed := stmt db.committed })
  | _ :: _ => (some (Error.engine "database is locked"), db)

/-- The method `SqliteRequestedSwapStore.Add`.  The values are bound in the order
`peerid, Asset, int(Type), int64(AmountSat), RejectionReason` to the columns
`peer_node_id, asset, amount_sat, type, rejection_reason`. -/
def SqliteRequestedSwapStore.Add (db : DB) (id : String) (reqswap : swap.RequestedSwap) :
    Option Error × DB :=
  match hex.DecodeString id with
  | (_, some err) =>
    (some (Error.wrapf ("failed to decode peer id \x27" ++ id ++ "\x27: ") err), db)
  | (peerid, none) =>
    match db.Exec (fun t =>
        { t with requested_swaps := t.requested_swaps ++
            [{ peer_node_id := peerid
               asset := reqswap.Asset
               amount_sat := reqswap.SwapType
               type := toInt64 reqswap.AmountSat
               rejection_reason := reqswap.RejectionReason }] }) with
    | (some err, db1) => (some (Error.wrapf "failed to insert requested swap: " err), db1)
    | (none, db1) => (none, db1)

/-- The entry built from a scanned row of `requested_swaps`. -/
def toRequestedSwap (row : RequestedSwapRow) : swap.RequestedSwap :=
  { Asset := row.asset
    AmountSat := toUint64 row.amount_sat
    SwapType := row.type
    RejectionReason := row.rejection_reason }

/-- The method `SqliteRequestedSwapStore.Get`: the committed rows of the peer, in the
order of the table. -/
def SqliteRequestedSwapStore.Get (db : DB) (id : String) :
    Except Error (List swap.RequestedSwap) :=
  match hex.DecodeString id with
  | (_, some err) =>
    .error (Error.wrapf ("failed to decode peer id \x27" ++ id ++ "\x27: ") err)
  | (peerid, none) =>
    .ok ((db.committed.requested_swaps.filter
      (fun row => decide (row.peer_node_id = peerid))).map toRequestedSwap)

/-- The order of `ORDER BY peer_node_id, asset, type, amount_sat`; blobs and texts
compare byte by byte. -/
def requestedLe (a b : RequestedSwapRow) : Prop :=
  a.peer_node_id < b.peer_node_id ∨ (a.peer_node_id = b.peer_node_id ∧
    (stringToBytes a.asset < stringToBytes b.asset ∨
      (stringToBytes a.asset = stringToBytes b.asset ∧
        (a.type < b.type ∨ (a.type = b.type ∧ a.amount_sat ≤ b.amount_sat)))))

instance : DecidableRel requestedLe := fun a b => by
  unfold requestedLe; exact inferInstance

/-- One turn of the loop of `GetAll`: the map built so far and `lastPeerId`, and the
row that is scanned. -/
def SqliteRequestedSwapStore.GetAllStep
    (st : gomap.GoMap (List swap.RequestedSwap) × String) (row : RequestedSwapRow) :
    gomap.GoMap (List swap.RequestedSwap) × String :=
  let r := toRequestedSwap row
  let currentPeerId := hex.EncodeToString row.peer_node_id
  if st.2 ≠ "" ∧ currentPeerId = st.2 then
    (gomap.set currentPeerId (((gomap.get st.1 currentPeerId).getD []) ++ [r]) st.1,
      currentPeerId)
  else
    (gomap.set currentPeerId [r] st.1, currentPeerId)

/-- The method `SqliteRequestedSwapStore.GetAll`: the rows come in the order of the
`ORDER BY` clause. -/
def SqliteRequestedSwapStore.GetAll (db : DB) :
    Except Error (gomap.GoMap (List swap.RequestedSwap)) :=
  .ok ((List.insertionSort requestedLe db.committed.requested_swaps).foldl
    SqliteRequestedSwapStore.GetAllStep ([], "")).1

end sqlite

/-! ## Library `path/filepath` -/

namespace filepath

/-- The function `filepath.Join`: the empty elements are left out and the others are
joined with the separator (the cleaning of the result is left out). -/
def Join (elem : List String) : String :=
  String.intercalate "/" (elem.filter (fun e => decide (e ≠ "")))

end filepath

/-! ## Package `clightning`: the configuration (`clightning/config.go`) -/

namespace clightning

/-- The constant `defaultRpcHost`. -/
def defaultRpcHost : String := "http://127.0.0.1"

/-- The constant `defaultBitcoinSubDir`. -/
def defaultBitcoinSubDir : String := ".bitcoin"

/-- The constant `defaultElementsSubDir`. -/
def defaultElementsSubDir : String := ".elements"

/-- The constant `defaultCookieFile`. -/
def defaultCookieFile : String := ".cookie"

/-- The type `BitcoinConf`. -/
structure BitcoinConf where
  RpcUser : String
  RpcPassword : String
  RpcPasswordFile : String
  RpcHost : String
  RpcPort : Nat
  Network : String
  DataDir : String
  deriving DecidableEq, Repr

/-- The type `LiquidConf`. -/
structure LiquidConf where
  RpcUser : String
  RpcPassword : String
  RpcPasswordFile : String
  RpcHost : String
  RpcPort : Nat
  RpcWallet : String
  Network : String
  DataDir : String
  Disabled : Bool
  deriving DecidableEq, Repr

/-- The type `Config`; the pointers `Bitcoin` and `Liquid` are not nil, as `Pipeline.Run`
makes them. -/
structure Config where
  LightningDir : String
  PeerswapDir : String
  DbPath : String
  PolicyPath : String
  Bitcoin : BitcoinConf
  Liquid : LiquidConf
  deriving DecidableEq, Repr

/-- The network `BitcoinFallbackFromClnConfig` takes from the options of the plugin
`bcli`, before it asks `getinfo`: `network` is the network the configuration had.  A
value of the map is nil (`none`) or a string; for `mainnet`, `testnet` and `signet` the
presence of the key is what counts. -/
def bcliNetwork (Options : gomap.GoMap (Option String)) (network : String) : String :=
  let n1 :=
    match gomap.get Options "network" with
    | some (some v) => v
    | _ => network
  let n2 := if (gomap.get Options "mainnet").isSome then "mainnet" else n1
  let n3 := if (gomap.get Options "testnet").isSome then "testnet" else n2
  if (gomap.get Options "signet").isSome then "signet" else n3

/-- The function `defaultBitcoinRpcPort`. -/
def defaultBitcoinRpcPort (network : String) : Nat :=
  match network with
  | "signet" => 38332
  | "testnet" => 18332
  | "regtest" => 18443
  | _ => 8332

/-- The function `defaultElementsRpcPort`. -/
def defaultElementsRpcPort (network : String) : Nat :=
  match network with
  | "liquidtestnet" => 18891
  | "regtest" => 18443
  | _ => 7041

/-- The function `bitcoinNetDir`. -/
def bitcoinNetDir (network : String) : Except Error String :=
  match network with
  | "mainnet" => .ok ""
  | "signet" => .ok "signet"
  | "testnet3" => .ok "testnet"
  | "regtest" => .ok "regtest"
  | _ => .error (Error.errorf ("can not get network dir for bitcoin network: " ++ network))

/-- The function `liquidNetDir`. -/
def liquidNetDir (network : String) : Except Error String :=
  match network with
  | "mainnet" => .ok "liquidv1"
  | "testnet3" => .ok "liquidtestnet"
  | "simnet" => .ok "liquidtestnet"
  | "signet" => .ok "liquidtestnet"
  | "regtest" => .ok "liquidregtest"
  | _ =>
    .error (Error.errorf ("can not get liquid network dir for bitcoin network: " ++ network))

/-- The processor `BitcoinFallback` returns; `UserHomeDir` is the result of
`os.UserHomeDir()`, and `.error` stands for a nil configuration with that error. -/
def BitcoinFallback (UserHomeDir : Except Error String) (c : Config) : Except Error Config :=
  match (if c.Bitcoin.DataDir = "" then
      match UserHomeDir with
      | .error err => .error err
      | .ok home =>
        .ok { c with Bitcoin :=
          { c.Bitcoin with DataDir := filepath.Join [home, defaultBitcoinSubDir] } }
    else .ok c : Except Error Config) with
  | .error err => .error err
  | .ok c1 =>
    let c2 : Config :=
      if c1.Bitcoin.RpcHost = "" then
        { c1 with Bitcoin := { c1.Bitcoin with RpcHost := defaultRpcHost } }
      else c1
    let c3 : Config :=
      if c2.Bitcoin.RpcPort = 0 then
        { c2 with Bitcoin :=
          { c2.Bitcoin with RpcPort := defaultBitcoinRpcPort c2.Bitcoin.Network } }
      else c2
    if c3.Bitcoin.RpcPassword = "" ∧ c3.Bitcoin.RpcUser = ""
        ∧ c3.Bitcoin.RpcPasswordFile = "" then
      match bitcoinNetDir c3.Bitcoin.Network with
      | .error err => .error err
      | .ok netdir =>
        .ok { c3 with Bitcoin :=
          { c3.Bitcoin with
            RpcPasswordFile := filepath.Join [c3.Bitcoin.DataDir, netdir, defaultCookieFile] } }
    else .ok c3

/-- The processor `ElementsFallback` returns; `UserHomeDir` is the result of
`os.UserHomeDir()`, and `.error` stands for a nil configuration with that error.  The
field `Liquid.Disabled` is not read. -/
def ElementsFallback (UserHomeDir : Except Error String) (c : Config) : Except Error Config :=
  match (if c.Liquid.DataDir = "" then
      match UserHomeDir with
      | .error err => .error err
      | .ok home =>
        .ok { c with Liquid :=
          { c.Liquid with DataDir := filepath.Join [home, defaultElementsSubDir] } }
    else .ok c : Except Error Config) with
  | .error err => .error err
  | .ok c1 =>
    match (if c1.Liquid.Network = "" then
        match liquidNetDir c1.Bitcoin.Network with
        | .error err => .error err
        | .ok network => .ok { c1 with Liquid := { c1.Liquid with Network := network } }
      else .ok c1 : Except Error Config) with
    | .error err => .error err
    | .ok c2 =>
      let c3 : Config :=
        if c2.Liquid.RpcHost = "" then
          { c2 with Liquid := { c2.Liquid with RpcHost := defaultRpcHost } }
        else c2
      let c4 : Config :=
        if c3.Liquid.RpcPort = 0 then
          { c3 with Liquid :=
            { c3.Liquid with RpcPort := defaultElementsRpcPort c3.Liquid.Network } }
        else c3
      if c4.Liquid.RpcPassword = "" ∧ c4.Liquid.RpcUser = ""
          ∧ c4.Liquid.RpcPasswordFile = "" then
        match liquidNetDir c4.Bitcoin.Network with
        | .error err => .error err
        | .ok netdir =>
          .ok { c4 with Liquid :=
            { c4.Liquid with
              RpcPasswordFile :=
                filepath.Join [c4.Liquid.DataDir, netdir, defaultCookieFile] } }
      else .ok c4

/-- The configuration `Pipeline.Run` starts from, with every option empty. -/
def emptyConfig : Config :=
  { LightningDir := "", PeerswapDir := "", DbPath := "", PolicyPath := ""
    Bitcoin :=
      { RpcUser := "", RpcPassword := "", RpcPasswordFile := "", RpcHost := "",
        RpcPort := 0, Network := "", DataDir := "" }
    Liquid :=
      { RpcUser := "", RpcPassword := "", RpcPasswordFile := "", RpcHost := "",
        RpcPort := 0, RpcWallet := "", Network := "", DataDir := "", Disabled := false } }

/-- A configuration with the bitcoin network `network`, the bitcoin data directory
`/data/bitcoin` and no other option set. -/
def bitcoinConfig (network : String) : Config :=
  { emptyConfig with Bitcoin :=
    { emptyConfig.Bitcoin with Network := network, DataDir := "/data/bitcoin" } }

/-- A configuration with liquid disabled, the bitcoin network `network` and no liquid
option set. -/
def disabledLiquidConfig (network : String) : Config :=
  { emptyConfig with
    Bitcoin := { emptyConfig.Bitcoin with Network := network }
    Liquid := { emptyConfig.Liquid with Disabled := true } }

end clightning

/-! # Theorems -/

/-! ## The version gate (`version/service.go`) -/

namespace version

/-- C1: when the stored version is absent (`GetVersion` answers `ErrDoesNotExist`) or
differs from `v0.2`, and `HasActiveSwaps` returns `(true, nil)`, `SafeUpgrade` returns
the `ActiveSwapsError` that carries the version string `GetVersion` returned, its
message ends in that version, the only calls made are `GetVersion` and
`HasActiveSwaps` (so `SetVersion` is never called) and the state left is the one these
two reads left.  The version string read with `ErrDoesNotExist` is the empty string for
both version stores of the repository (`mockVersionStore`, `BBoltVersionStore`). -/
theorem SafeUpgrade_active_swaps_error {σ : Type} (vs : VersionStore σ)
    (sw : ActiveSwapGetter σ) (s s1 s2 : σ) (v : String) (e : Option Error)
    (hget : vs.GetVersion s = ((v, e), s1))
    (hstored : e = some ErrDoesNotExist ∨ (e = none ∧ v ≠ version))
    (hactive : sw.HasActiveSwaps s1 = ((true, none), s2)) :
    (SafeUpgrade vs sw s).err = some (Error.ActiveSwapsError v)
    ∧ (Error.ActiveSwapsError v).Error
        = "Can\x27t upgrade because of active swaps. Please downgrade peerswap to version " ++ v
    ∧ (SafeUpgrade vs sw s).calls = [Call.GetVersion, Call.HasActiveSwaps]
    ∧ (∀ x : String, Call.SetVersion x ∉ (SafeUpgrade vs sw s).calls)
    ∧ (SafeUpgrade vs sw s).state = s2
    ∧ (∀ m : MockWorld, (mockVersionStore.GetVersion m).1.2 = some ErrDoesNotExist →
        (mockVersionStore.GetVersion m).1.1 = "")
    ∧ (∀ db : bbolt.DB, (bbolt.GetVersion db).2 = some ErrDoesNotExist →
        (bbolt.GetVersion db).1 = "") := by
  have hrun : SafeUpgrade vs sw s
      = ⟨some (Error.ActiveSwapsError v), s2, [Call.GetVersion, Call.HasActiveSwaps]⟩ := by
    unfold SafeUpgrade
    rw [hget]
    rcases hstored with he | ⟨he, hv⟩
    · subst he
      simp [hactive, ErrDoesNotExist]
    · subst he
      simp [hactive, hv, ErrDoesNotExist]
  refine ⟨by rw [hrun], rfl, by rw [hrun], ?_, by rw [hrun], ?_, ?_⟩
  · intro x hx
    rw [hrun] at hx
    simp at hx
  · intro m hm
    unfold mockVersionStore at hm ⊢
    by_cases h : m.version = ""
    · simp [h]
    · simp [h] at hm
  · intro db hdb
    unfold bbolt.GetVersion at hdb ⊢
    cases h1 : (db.Begin false).1 with
    | error err => simp
    | ok tx =>
      simp only [h1] at hdb ⊢
      cases h2 : tx.Bucket bbolt.versionBucket with
      | none => simp
      | some b =>
        simp only [h2] at hdb ⊢
        cases h3 : b.Get (stringToBytes "version") with
        | none => simp
        | some jData => simp [h3] at hdb

/-- C1, at the first step of `Test_VersionService`: an empty `mockVersionStore` and a
checker that reports active swaps. -/
theorem SafeUpgrade_active_swaps_error_witness :
    (SafeUpgrade mockVersionStore MockActiveSwaps ⟨"", true⟩).err
        = some (Error.ActiveSwapsError "")
    ∧ (SafeUpgrade mockVersionStore MockActiveSwaps ⟨"", true⟩).state = ⟨"", true⟩ :=
  have h := SafeUpgrade_active_swaps_error mockVersionStore MockActiveSwaps
    ⟨"", true⟩ ⟨"", true⟩ ⟨"", true⟩ "" (some ErrDoesNotExist) rfl (Or.inl rfl) rfl
  ⟨h.1, h.2.2.2.2.1⟩

/-- C2: when `GetVersion` returns `("v0.2", nil)`, `SafeUpgrade` returns nil, the only
call it makes is that `GetVersion` (neither `HasActiveSwaps` nor `SetVersion` is
called) and the state left is the one that read left. -/
theorem SafeUpgrade_same_version_noop {σ : Type} (vs : VersionStore σ)
    (sw : ActiveSwapGetter σ) (s s1 : σ)
    (hget : vs.GetVersion s = (("v0.2", none), s1)) :
    (SafeUpgrade vs sw s).err = none
    ∧ (SafeUpgrade vs sw s).calls = [Call.GetVersion]
    ∧ Call.HasActiveSwaps ∉ (SafeUpgrade vs sw s).calls
    ∧ (∀ x : String, Call.SetVersion x ∉ (SafeUpgrade vs sw s).calls)
    ∧ (SafeUpgrade vs sw s).state = s1 := by
  have hrun : SafeUpgrade vs sw s = ⟨none, s1, [Call.GetVersion]⟩ := by
    unfold SafeUpgrade
    rw [hget]
    simp [version, ErrDoesNotExist]
  rw [hrun]
  simp

/-- C2, on a `mockVersionStore` that holds `v0.2` and a checker that would report
active swaps. -/
theorem SafeUpgrade_same_version_noop_witness :
    (SafeUpgrade mockVersionStore MockActiveSwaps ⟨"v0.2", true⟩).err = none
    ∧ (SafeUpgrade mockVersionStore MockActiveSwaps ⟨"v0.2", true⟩).calls
        = [Call.GetVersion] :=
  have h := SafeUpgrade_same_version_noop mockVersionStore MockActiveSwaps
    ⟨"v0.2", true⟩ ⟨"v0.2", true⟩ (by decide)
  ⟨h.1, h.2.1⟩

/-- C3: when the stored version is absent or differs from `v0.2`, `HasActiveSwaps`
returns `(false, nil)` and `SetVersion` succeeds, `SafeUpgrade` returns nil, having
called `SetVersion` once with `GetCurrentVersion()`, which is `v0.2`, and leaves the
state that call left; on a version store that keeps its contract (after a successful
`SetVersion v`, `GetVersion` returns `v`) `GetVersion` then returns `v0.2` and no
error. -/
theorem SafeUpgrade_no_active_swaps_sets_version {σ : Type} (vs : VersionStore σ)
    (sw : ActiveSwapGetter σ) (s s1 s2 s3 : σ) (v : String) (e : Option Error)
    (hget : vs.GetVersion s = ((v, e), s1))
    (hstored : e = some ErrDoesNotExist ∨ (e = none ∧ v ≠ version))
    (hnone : sw.HasActiveSwaps s1 = ((false, none), s2))
    (hset : vs.SetVersion version s2 = (none, s3))
    (hstore : ReadsBack vs version) :
    (SafeUpgrade vs sw s).err = none
    ∧ (SafeUpgrade vs sw s).calls
        = [Call.GetVersion, Call.HasActiveSwaps, Call.SetVersion GetCurrentVersion]
    ∧ (SafeUpgrade vs sw s).state = s3
    ∧ (vs.GetVersion (SafeUpgrade vs sw s).state).1 = (GetCurrentVersion, none)
    ∧ GetCurrentVersion = "v0.2" := by
  have hrun : SafeUpgrade vs sw s
      = ⟨none, s3, [Call.GetVersion, Call.HasActiveSwaps, Call.SetVersion version]⟩ := by
    unfold SafeUpgrade
    rw [hget]
    rcases hstored with he | ⟨he, hv⟩
    · subst he
      simp [hnone, hset, ErrDoesNotExist]
    · subst he
      simp [hnone, hset, hv, ErrDoesNotExist]
  rw [hrun]
  exact ⟨rfl, rfl, rfl, hstore s2 s3 hset, rfl⟩

/-- C3, at the second step of `Test_VersionService`: an empty `mockVersionStore` and a
checker that reports no active swaps. -/
theorem SafeUpgrade_no_active_swaps_sets_version_witness :
    (SafeUpgrade mockVersionStore MockActiveSwaps ⟨"", false⟩).err = none
    ∧ (mockVersionStore.GetVersion
        (SafeUpgrade mockVersionStore MockActiveSwaps ⟨"", false⟩).state).1
        = ("v0.2", none) :=
  have h := SafeUpgrade_no_active_swaps_sets_version mockVersionStore MockActiveSwaps
    ⟨"", false⟩ ⟨"", false⟩ ⟨"", false⟩ ⟨"v0.2", false⟩ "" (some ErrDoesNotExist)
    rfl (Or.inl rfl) rfl rfl
    (by
      intro t t2 h
      have ht : t2 = { t with version := version } := by
        simpa [mockVersionStore] using h.symm
      subst ht
      simp [mockVersionStore, version])
  ⟨h.1, h.2.2.2.1⟩

end version

/-! ## The legacy database check (`bbolt/check_unused.go`) -/

namespace bbolt

/-- What `NewBBoltSwapStore` does to the database: at most one write transaction, and
the buckets it found, followed by an empty bucket `swaps` when there was none and the
transaction went through. -/
theorem NewBBoltSwapStore_buckets (db : DB) :
    (NewBBoltSwapStore db).2.writeTxBegun ≤ db.writeTxBegun + 1
    ∧ ((NewBBoltSwapStore db).2.buckets = db.buckets
      ∨ (lookupBucket db.buckets swapBuckets = none
          ∧ (NewBBoltSwapStore db).2.buckets = db.buckets ++ [(swapBuckets, [])])) := by
  unfold NewBBoltSwapStore DB.Begin DB.Commit Tx.CreateBucketIfNotExists
  cases hw : db.writeBeginErr with
  | some e => simp
  | none =>
    cases hc : db.commitErr with
    | some e => simp
    | none =>
      cases hl : lookupBucket db.buckets swapBuckets with
      | some b => simp [hl]
      | none => simp [hl]

/-- What `NewBBoltVersionStore` does to the database: at most one write transaction,
and the buckets it found, followed by an empty bucket `version` when there was none
and the transaction went through. -/
theorem NewBBoltVersionStore_buckets (db : DB) :
    (NewBBoltVersionStore db).2.writeTxBegun ≤ db.writeTxBegun + 1
    ∧ ((NewBBoltVersionStore db).2.buckets = db.buckets
      ∨ (lookupBucket db.buckets versionBucket = none
          ∧ (NewBBoltVersionStore db).2.buckets = db.buckets ++ [(versionBucket, [])])) := by
  unfold NewBBoltVersionStore DB.Begin DB.Commit Tx.CreateBucketIfNotExists
  cases hw : db.writeBeginErr with
  | some e => simp
  | none =>
    cases hc : db.commitErr with
    | some e => simp
    | none =>
      cases hl : lookupBucket db.buckets versionBucket with
      | some b => simp [hl]
      | none => simp [hl]

/-- A bucket that is found is still found, with the same content, after buckets were
added at the end. -/
theorem lookupBucket_append_some (bs added : List (String × Bucket)) (name : String)
    (b : Bucket) (h : lookupBucket bs name = some b) :
    lookupBucket (bs ++ added) name = some b := by
  induction bs with
  | nil => simp [lookupBucket] at h
  | cons x rest ih =>
    obtain ⟨k, v⟩ := x
    simp only [List.cons_append, lookupBucket] at h ⊢
    by_cases hk : name = k
    · simpa [hk] using h
    · simp only [hk, if_false] at h ⊢
      exact ih h

/-- C4: `CheckUnused` returns `ErrExistingSwaps` exactly when `os.Stat` does not
report the legacy file `datadir/swaps` as missing, `bbolt.Open` succeeds,
`NewBBoltSwapStore` succeeds and `HasActiveSwaps` returns `(true, nil)`, whatever
`NewBBoltVersionStore` and `GetVersion` then answer; in every other case it returns
nil. -/
theorem CheckUnused_existing_swaps_iff (env : Env) (datadir : String) :
    ((CheckUnused env datadir).1 = some ErrExistingSwaps ↔
      (IsNotExist (env.Stat (filepathJoin datadir "swaps")) = false
        ∧ ∃ db db1 : DB, env.Open (filepathJoin datadir "swaps") = .ok db
            ∧ NewBBoltSwapStore db = (none, db1)
            ∧ env.HasActiveSwaps db1 = (true, none)))
    ∧ ((CheckUnused env datadir).1 ≠ some ErrExistingSwaps →
        (CheckUnused env datadir).1 = none) := by
  unfold CheckUnused
  simp only
  cases hs : IsNotExist (env.Stat (filepathJoin datadir "swaps")) with
  | true => simp [ErrExistingSwaps]
  | false =>
    cases ho : env.Open (filepathJoin datadir "swaps") with
    | error e => simp [ErrExistingSwaps]
    | ok db =>
      rcases hn : NewBBoltSwapStore db with ⟨e1, db1⟩
      cases e1 with
      | some e => simp [ErrExistingSwaps, hn]
      | none =>
        rcases ha : env.HasActiveSwaps db1 with ⟨act, e2⟩
        cases e2 with
        | some e => simp [ErrExistingSwaps, hn, ha]
        | none =>
          cases act with
          | false => simp [ErrExistingSwaps, hn, ha]
          | true =>
            rcases hv : NewBBoltVersionStore db1 with ⟨e3, db2⟩
            cases e3 with
            | some e => simp [ErrExistingSwaps, hn, ha, hv]
            | none =>
              rcases hg : GetVersion db2 with ⟨ver, e4⟩
              cases e4 with
              | some e => simp [ErrExistingSwaps, hn, ha, hv, hg]
              | none => simp [ErrExistingSwaps, hn, ha, hv, hg]

/-- What `CheckUnused` does to a legacy database it opened: at most two write
transactions, and the buckets it found, followed by empty buckets named `swaps` or
`version` that were not there. -/
theorem CheckUnused_frame (env : Env) (datadir : String) (db2 : DB)
    (h : (CheckUnused env datadir).2 = some db2) :
    ∃ (db : DB) (added : List (String × Bucket)),
      env.Open (filepathJoin datadir "swaps") = .ok db
      ∧ db2.writeTxBegun ≤ db.writeTxBegun + 2
      ∧ db2.buckets = db.buckets ++ added
      ∧ ∀ nb ∈ added, nb.2 = [] ∧ (nb.1 = swapBuckets ∨ nb.1 = versionBucket)
          ∧ lookupBucket db.buckets nb.1 = none := by
  unfold CheckUnused at h
  simp only at h
  cases hs : IsNotExist (env.Stat (filepathJoin datadir "swaps")) with
  | true => simp [hs] at h
  | false =>
    cases ho : env.Open (filepathJoin datadir "swaps") with
    | error e => simp [hs, ho] at h
    | ok db =>
      have hswap := NewBBoltSwapStore_buckets db
      -- the state after `NewBBoltSwapStore`
      have step1 : ∃ added1 : List (String × Bucket),
          (NewBBoltSwapStore db).2.buckets = db.buckets ++ added1
          ∧ ∀ nb ∈ added1, nb.2 = [] ∧ (nb.1 = swapBuckets ∨ nb.1 = versionBucket)
              ∧ lookupBucket db.buckets nb.1 = none := by
        rcases hswap.2 with h1 | ⟨hl, h1⟩
        · exact ⟨[], by simpa using h1, by simp⟩
        · exact ⟨[(swapBuckets, [])], h1, by simp [hl]⟩
      obtain ⟨added1, hb1, hadded1⟩ := step1
      have hver := NewBBoltVersionStore_buckets (NewBBoltSwapStore db).2
      -- the state after `NewBBoltVersionStore`, when it is reached
      have step2 : ∃ added2 : List (String × Bucket),
          (NewBBoltVersionStore (NewBBoltSwapStore db).2).2.buckets = db.buckets ++ added2
          ∧ ∀ nb ∈ added2, nb.2 = [] ∧ (nb.1 = swapBuckets ∨ nb.1 = versionBucket)
              ∧ lookupBucket db.buckets nb.1 = none := by
        rcases hver.2 with h2 | ⟨hl, h2⟩
        · exact ⟨added1, by rw [h2, hb1], hadded1⟩
        · refine ⟨added1 ++ [(versionBucket, [])], by rw [h2, hb1, List.append_assoc], ?_⟩
          intro nb hnb
          rcases List.mem_append.mp hnb with hm | hm
          · exact hadded1 nb hm
          · have hnb2 : nb = (versionBucket, []) := by simpa using hm
            subst hnb2
            refine ⟨rfl, Or.inr rfl, ?_⟩
            cases hcase : lookupBucket db.buckets versionBucket with
            | none => rfl
            | some b =>
              have := lookupBucket_append_some db.buckets added1 versionBucket b hcase
              rw [← hb1, hl] at this
              exact absurd this (by simp)
      obtain ⟨added2, hb2, hadded2⟩ := step2
      have hcnt1 := hswap.1
      have hcnt2 : (NewBBoltVersionStore (NewBBoltSwapStore db).2).2.writeTxBegun
          ≤ db.writeTxBegun + 2 := by
        have := hver.1
        omega
      have at1 : ∃ (d : DB) (added : List (String × Bucket)),
          Except.ok db = (Except.ok d : Except Error DB)
          ∧ (NewBBoltSwapStore db).2.writeTxBegun ≤ d.writeTxBegun + 2
          ∧ (NewBBoltSwapStore db).2.buckets = d.buckets ++ added
          ∧ ∀ nb ∈ added, nb.2 = [] ∧ (nb.1 = swapBuckets ∨ nb.1 = versionBucket)
              ∧ lookupBucket d.buckets nb.1 = none :=
        ⟨db, added1, rfl, by omega, hb1, hadded1⟩
      have at2 : ∃ (d : DB) (added : List (String × Bucket)),
          Except.ok db = (Except.ok d : Except Error DB)
          ∧ (NewBBoltVersionStore (NewBBoltSwapStore db).2).2.writeTxBegun
              ≤ d.writeTxBegun + 2
          ∧ (NewBBoltVersionStore (NewBBoltSwapStore db).2).2.buckets = d.buckets ++ added
          ∧ ∀ nb ∈ added, nb.2 = [] ∧ (nb.1 = swapBuckets ∨ nb.1 = versionBucket)
              ∧ lookupBucket d.buckets nb.1 = none :=
        ⟨db, added2, rfl, hcnt2, hb2, hadded2⟩
      rcases hn : NewBBoltSwapStore db with ⟨e1, db1⟩
      rw [hn] at at1 at2
      simp only [hs, ho, hn] at h
      cases e1 with
      | some e =>
        simp only [Bool.false_eq_true, if_false, Option.some.injEq] at h
        subst h
        exact at1
      | none =>
        rcases ha : env.HasActiveSwaps db1 with ⟨act, e2⟩
        simp only [ha] at h
        cases e2 with
        | some e =>
          simp only [Bool.false_eq_true, if_false, Option.some.injEq] at h
          subst h
          exact at1
        | none =>
          cases act with
          | false =>
            simp only [Bool.false_eq_true, if_false, Option.some.injEq] at h
            subst h
            exact at1
          | true =>
            rcases hv : NewBBoltVersionStore db1 with ⟨e3, db3⟩
            simp only [hv] at h at2
            cases e3 with
            | some e =>
              simp only [Bool.false_eq_true, if_false, Option.some.injEq] at h
              subst h
              exact at2
            | none =>
              rcases hg : GetVersion db3 with ⟨ver, e4⟩
              simp only [hg] at h
              cases e4 with
              | some e =>
                simp only [Bool.false_eq_true, if_false, Option.some.injEq] at h
                subst h
                exact at2
              | none =>
                simp only [Bool.false_eq_true, if_false, Option.some.injEq] at h
                subst h
                exact at2

/-- A bucket that is not found before buckets are added at the end is one of the
added ones, if it is found afterwards. -/
theorem lookupBucket_append_of_none (bs added : List (String × Bucket)) (name : String)
    (h : lookupBucket bs name = none) :
    lookupBucket (bs ++ added) name = lookupBucket added name := by
  induction bs with
  | nil => rfl
  | cons x rest ih =>
    obtain ⟨k, v⟩ := x
    simp only [List.cons_append, lookupBucket] at h ⊢
    by_cases hk : name = k
    · simp [hk] at h
    · simp only [hk, if_false] at h ⊢
      exact ih h

/-- A bucket that is found is in the list, under its name. -/
theorem lookupBucket_mem (bs : List (String × Bucket)) (name : String) (b : Bucket)
    (h : lookupBucket bs name = some b) : (name, b) ∈ bs := by
  induction bs with
  | nil => simp [lookupBucket] at h
  | cons x rest ih =>
    obtain ⟨k, v⟩ := x
    simp only [lookupBucket] at h
    by_cases hk : name = k
    · simp only [hk, if_true, Option.some.injEq] at h
      simp [hk, h]
    · simp only [hk, if_false] at h
      exact List.mem_cons_of_mem _ (ih h)

/-- C5, as the code has it: on a legacy database without buckets that opens and works,
`CheckUnused` begins a write transaction and creates the bucket `swaps`. -/
theorem CheckUnused_writes_counterexample :
    freshEnv.Open (filepathJoin "datadir" "swaps") = .ok freshDB
    ∧ freshDB.buckets = [] ∧ freshDB.writeTxBegun = 0
    ∧ CheckUnused freshEnv "datadir"
        = (none, some { freshDB with buckets := [("swaps", [])], writeTxBegun := 1 })
    ∧ (CheckUnused freshEnv "datadir").2 ≠ some freshDB := by
  refine ⟨rfl, rfl, rfl, ?_, ?_⟩ <;> decide

/-- C5, amended: whenever `CheckUnused` opens the legacy database it begins at most two
write transactions on it (those of `NewBBoltSwapStore` and `NewBBoltVersionStore`);
every bucket that was in the database is still there with the same keys and values,
and a bucket that was not there is either still missing or is the empty bucket `swaps`
or the empty bucket `version`.  So no key is put, changed or deleted; the only write
is the creation of these two buckets. -/
theorem CheckUnused_writes_only_empty_buckets (env : Env) (datadir : String) (db2 : DB)
    (h : (CheckUnused env datadir).2 = some db2) :
    ∃ db : DB,
      env.Open (filepathJoin datadir "swaps") = .ok db
      ∧ db2.writeTxBegun ≤ db.writeTxBegun + 2
      ∧ (∀ (name : String) (b : Bucket), lookupBucket db.buckets name = some b →
          lookupBucket db2.buckets name = some b)
      ∧ (∀ name : String, lookupBucket db.buckets name = none →
          lookupBucket db2.buckets name = none
          ∨ (lookupBucket db2.buckets name = some []
              ∧ (name = swapBuckets ∨ name = versionBucket))) := by
  obtain ⟨db, added, hopen, hcnt, hb, hadded⟩ := CheckUnused_frame env datadir db2 h
  refine ⟨db, hopen, hcnt, ?_, ?_⟩
  · intro name b hl
    rw [hb]
    exact lookupBucket_append_some db.buckets added name b hl
  · intro name hl
    rw [hb, lookupBucket_append_of_none db.buckets added name hl]
    cases hcase : lookupBucket added name with
    | none => exact Or.inl rfl
    | some b =>
      have hmem := lookupBucket_mem added name b hcase
      obtain ⟨hempty, hname, _⟩ := hadded (name, b) hmem
      simp only at hempty hname
      subst hempty
      exact Or.inr ⟨rfl, hname⟩

/-- C5 amended, on a legacy database without buckets: the only change is the empty
bucket `swaps`. -/
theorem CheckUnused_writes_only_empty_buckets_witness :
    (CheckUnused freshEnv "datadir").2
        = some { freshDB with buckets := [("swaps", [])], writeTxBegun := 1 }
    ∧ ∃ db : DB,
      freshEnv.Open (filepathJoin "datadir" "swaps") = .ok db
      ∧ 1 ≤ db.writeTxBegun + 2
      ∧ (∀ (name : String) (b : Bucket), lookupBucket db.buckets name = some b →
          lookupBucket [("swaps", [])] name = some b)
      ∧ (∀ name : String, lookupBucket db.buckets name = none →
          lookupBucket [("swaps", [])] name = none
          ∨ (lookupBucket [("swaps", [])] name = some []
              ∧ (name = swapBuckets ∨ name = versionBucket))) :=
  ⟨by decide,
    CheckUnused_writes_only_empty_buckets freshEnv "datadir"
      { freshDB with buckets := [("swaps", [])], writeTxBegun := 1 } (by decide)⟩

end bbolt

/-! ## Hexadecimal encoding -/

namespace hex

/-- A digit of `hextable` is read back by `fromHexChar`. -/
theorem fromHexChar_hextable (n : Nat) (h : n < 16) : fromHexChar (hextable n) = some n := by
  interval_cases n <;> decide

/-- Decoding the encoding of bytes gives the bytes and no error. -/
theorem Decode_Encode (bs : Bytes) (h : ∀ b ∈ bs, b < 256) :
    Decode (Encode bs) = (bs, none) := by
  induction bs with
  | nil => rfl
  | cons b rest ih =>
    have hb : b < 256 := h b (List.mem_cons_self _ _)
    have hrest := ih (fun x hx => h x (List.mem_cons_of_mem _ hx))
    have h1 : b / 16 < 16 := by omega
    have h2 : b % 16 < 16 := by omega
    simp only [Encode, Decode, fromHexChar_hextable _ h1, fromHexChar_hextable _ h2, hrest]
    have hsum : b / 16 * 16 + b % 16 = b := by omega
    rw [hsum]

/-- The functions `DecodeString` and `EncodeToString` round-trip on bytes. -/
theorem DecodeString_EncodeToString (bs : Bytes) (h : ∀ b ∈ bs, b < 256) :
    DecodeString (EncodeToString bs) = (bs, none) := by
  unfold DecodeString EncodeToString
  exact Decode_Encode bs h

end hex

/-! ## The key-value swap store (`bbolt/swap_store.go`) -/

namespace bbolt

/-- The key of a record: `h2b` of the textual form of a valid identifier is its
bytes. -/
theorem h2b_String (id : swap.SwapId) (h : id.Valid) : h2b id.String = id.bytes := by
  unfold h2b swap.SwapId.String
  rw [hex.DecodeString_EncodeToString id.bytes h.2]

/-- A pair that was written is read back. -/
theorem Get_insert_self (key value : Bytes) (b : Bucket) :
    Bucket.Get (Bucket.insert key value b) key = some value := by
  induction b with
  | nil => simp [Bucket.insert, Bucket.Get]
  | cons x rest ih =>
    obtain ⟨k, v⟩ := x
    unfold Bucket.insert
    by_cases h1 : key = k
    · simp [h1, Bucket.Get]
    · by_cases h2 : key < k
      · simp [h1, h2, Bucket.Get]
      · simp [h1, h2, Bucket.Get, ih]

/-- Writing a pair leaves the other keys as they are. -/
theorem Get_insert_other (key value other : Bytes) (b : Bucket) (h : other ≠ key) :
    Bucket.Get (Bucket.insert key value b) other = Bucket.Get b other := by
  induction b with
  | nil => simp [Bucket.insert, Bucket.Get, h]
  | cons x rest ih =>
    obtain ⟨k, v⟩ := x
    unfold Bucket.insert
    by_cases h1 : key = k
    · subst h1
      simp [Bucket.Get, h]
    · by_cases h2 : key < k
      · simp [h1, h2, Bucket.Get, h]
      · simp [h1, h2, Bucket.Get, ih]

/-- A value that is read is in the bucket under its key. -/
theorem Get_mem (b : Bucket) (key value : Bytes) (h : Bucket.Get b key = some value) :
    (key, value) ∈ b := by
  induction b with
  | nil => simp [Bucket.Get] at h
  | cons x rest ih =>
    obtain ⟨k, v⟩ := x
    simp only [Bucket.Get] at h
    by_cases h1 : key = k
    · simp only [h1, if_true, Option.some.injEq] at h
      simp [h1, h]
    · simp only [h1, if_false] at h
      exact List.mem_cons_of_mem _ (ih h)

/-- Writing a key twice is writing it once with the second value. -/
theorem insert_insert (key v1 v2 : Bytes) (b : Bucket) :
    Bucket.insert key v2 (Bucket.insert key v1 b) = Bucket.insert key v2 b := by
  induction b with
  | nil => simp [Bucket.insert]
  | cons x rest ih =>
    obtain ⟨k, v⟩ := x
    by_cases h1 : key = k
    · simp [Bucket.insert, h1]
    · by_cases h2 : key < k
      · simp [Bucket.insert, h1, h2]
      · simp [Bucket.insert, h1, h2, ih]

/-- The pairs of a bucket after a write: the pair written and pairs that were there. -/
theorem mem_insert (key value : Bytes) (b : Bucket) (kv : Bytes × Bytes)
    (h : kv ∈ Bucket.insert key value b) : kv = (key, value) ∨ kv ∈ b := by
  induction b with
  | nil => simpa [Bucket.insert] using h
  | cons x rest ih =>
    obtain ⟨k, v⟩ := x
    unfold Bucket.insert at h
    by_cases h1 : key = k
    · simp only [h1, if_true, List.mem_cons] at h
      rcases h with h | h
      · exact Or.inl (by rw [h, h1])
      · exact Or.inr (List.mem_cons_of_mem _ h)
    · by_cases h2 : key < k
      · simp only [h1, h2, if_true, if_false, List.mem_cons] at h
        rcases h with h | h | h
        · exact Or.inl h
        · exact Or.inr (by rw [h]; exact List.mem_cons_self _ _)
        · exact Or.inr (List.mem_cons_of_mem _ h)
      · simp only [h1, h2, if_false, List.mem_cons] at h
        rcases h with h | h
        · exact Or.inr (by rw [h]; exact List.mem_cons_self _ _)
        · rcases ih h with h | h
          · exact Or.inl h
          · exact Or.inr (List.mem_cons_of_mem _ h)

/-- A write keeps the keys of a bucket in order. -/
theorem SortedKeys_insert (key value : Bytes) (b : Bucket) (h : SortedKeys b) :
    SortedKeys (Bucket.insert key value b) := by
  unfold SortedKeys at h ⊢
  induction b with
  | nil => simp [Bucket.insert]
  | cons x rest ih =>
    obtain ⟨k, v⟩ := x
    rw [List.pairwise_cons] at h
    obtain ⟨hhead, htail⟩ := h
    unfold Bucket.insert
    by_cases h1 : key = k
    · simp only [h1, if_true]
      exact List.pairwise_cons.mpr ⟨hhead, htail⟩
    · by_cases h2 : key < k
      · simp only [h1, h2, if_true, if_false]
        refine List.pairwise_cons.mpr ⟨?_, List.pairwise_cons.mpr ⟨hhead, htail⟩⟩
        intro y hy
        rcases List.mem_cons.mp hy with hy | hy
        · rw [hy]; exact h2
        · exact lt_trans h2 (hhead y hy)
      · simp only [h1, h2, if_false]
        have hlt : k < key := by
          rcases lt_trichotomy key k with h | h | h
          · exact absurd h h2
          · exact absurd h h1
          · exact h
        refine List.pairwise_cons.mpr ⟨?_, ih htail⟩
        intro y hy
        rcases mem_insert key value rest y hy with hy | hy
        · rw [hy]; exact hlt
        · exact hhead y hy

/-- In a bucket with its keys in order, a key that was written occurs once. -/
theorem filter_insert (key value : Bytes) (b : Bucket) (h : SortedKeys b) :
    (Bucket.insert key value b).filter (fun kv => decide (kv.1 = key)) = [(key, value)] := by
  unfold SortedKeys at h
  induction b with
  | nil => simp [Bucket.insert]
  | cons x rest ih =>
    obtain ⟨k, v⟩ := x
    rw [List.pairwise_cons] at h
    obtain ⟨hhead, htail⟩ := h
    have hrest : ∀ (bound : Bytes), (∀ y ∈ rest, bound < y.1) → key ≤ bound →
        rest.filter (fun kv => decide (kv.1 = key)) = [] := by
      intro bound hb hle
      apply List.filter_eq_nil_iff.mpr
      intro y hy
      have : key < y.1 := lt_of_le_of_lt hle (hb y hy)
      simp [ne_of_gt this]
    unfold Bucket.insert
    by_cases h1 : key = k
    · subst h1
      simp only [if_true]
      rw [List.filter_cons]
      simp [hrest key hhead (le_refl _)]
    · by_cases h2 : key < k
      · simp only [h1, h2, if_true, if_false]
        rw [List.filter_cons, List.filter_cons]
        have hk : ¬ k = key := fun h => h1 h.symm
        simp [hk, hrest k hhead (le_of_lt h2)]
      · simp only [h1, h2, if_false]
        rw [List.filter_cons]
        have hk : ¬ k = key := fun h => h1 h.symm
        simp only [hk, decide_False, Bool.false_eq_true, if_false]
        exact ih htail

/-- The bucket that was replaced is the one found afterwards. -/
theorem lookupBucket_setBucket (bs : List (String × Bucket)) (name : String)
    (b b2 : Bucket) (h : lookupBucket bs name = some b) :
    lookupBucket (setBucket name b2 bs) name = some b2 := by
  induction bs with
  | nil => simp [lookupBucket] at h
  | cons x rest ih =>
    obtain ⟨n, old⟩ := x
    simp only [lookupBucket] at h
    by_cases h1 : name = n
    · simp [setBucket, lookupBucket, h1]
    · simp only [h1, if_false] at h
      simp [setBucket, lookupBucket, h1, ih h]

/-- The method `getById` on a store that is constructed and can be read. -/
theorem getById_eq (c : Codec swap.SwapStateMachine) (db : DB) (b : Bucket) (s : String)
    (hread : db.readBeginErr = none)
    (hb : lookupBucket db.buckets swapBuckets = some b) :
    getById c db s
      = match b.Get (h2b s) with
        | none => .error swap.ErrDoesNotExist
        | some jData => c.Unmarshal jData := by
  unfold getById DB.Begin Tx.Bucket
  simp only [hread, hb, Bool.false_eq_true, if_false]
  cases b.Get (h2b s) with
  | none => rfl
  | some jData =>
    simp only
    cases c.Unmarshal jData <;> rfl

/-- The method `UpdateData` on a working store, for a record that serialises, when the
value already stored under its key (if any) reads back: it succeeds after one write
transaction that puts the serialised record under the bytes of the identifier. -/
theorem UpdateData_eq (c : Codec swap.SwapStateMachine) (db : DB) (b : Bucket)
    (r : swap.SwapStateMachine) (jData : Bytes)
    (hdb : db.Healthy)
    (hb : lookupBucket db.buckets swapBuckets = some b)
    (hdec : ∀ v : Bytes, b.Get r.SwapId.bytes = some v →
      ∃ old : swap.SwapStateMachine, c.Unmarshal v = .ok old)
    (hid : r.SwapId.Valid)
    (hm : c.Marshal r = .ok jData) (hlen : jData.length ≤ MaxValueSize) :
    UpdateData c db r
      = (none, { db with
          buckets := setBucket swapBuckets (Bucket.insert r.SwapId.bytes jData b) db.buckets
          writeTxBegun := db.writeTxBegun + 1 }) := by
  obtain ⟨hread, hwrite, hcommit⟩ := hdb
  have hkey := h2b_String r.SwapId hid
  have hget := getById_eq c db b r.SwapId.String hread hb
  rw [hkey] at hget
  have hklen : r.SwapId.bytes.length = 32 := hid.1
  have hput : Bucket.Put b r.SwapId.bytes jData
      = .ok (Bucket.insert r.SwapId.bytes jData b) := by
    unfold Bucket.Put
    have h1 : ¬ r.SwapId.bytes.length = 0 := by omega
    have h2 : ¬ r.SwapId.bytes.length > MaxKeySize := by
      unfold MaxKeySize; omega
    have h3 : ¬ jData.length > MaxValueSize := by omega
    simp only [h1, h2, h3, if_false]
  cases hcase : b.Get r.SwapId.bytes with
  | none =>
    rw [hcase] at hget
    have hex : idExists c db r.SwapId.String = (false, none) := by
      unfold idExists
      rw [hget]
      simp
    unfold UpdateData update create
    simp only [hex, if_true]
    unfold DB.Begin DB.Commit Tx.Bucket Tx.setBucket
    simp only [hwrite, hcommit, hb, hm, hkey, hput, if_true]
  | some v =>
    rw [hcase] at hget
    obtain ⟨old, hold⟩ := hdec v hcase
    simp only [hold] at hget
    have hex : idExists c db r.SwapId.String = (true, none) := by
      unfold idExists
      rw [hget]
    unfold UpdateData update
    simp only [hex]
    unfold DB.Begin DB.Commit Tx.Bucket Tx.setBucket
    simp only [hwrite, hcommit, hb, hm, hkey, hput, if_true]
    simp [swap.ErrDoesNotExist]

/-- The invariant `StoreInv` holds on a store constructed on a working database whose
bucket `swaps` is missing or empty. -/
theorem StoreInv_new (c : Codec swap.SwapStateMachine) (db : DB) (hdb : db.Healthy)
    (hempty : lookupBucket db.buckets swapBuckets = none
      ∨ lookupBucket db.buckets swapBuckets = some []) :
    StoreInv c (NewBBoltSwapStore db).2 := by
  obtain ⟨hread, hwrite, hcommit⟩ := hdb
  have hrun : (NewBBoltSwapStore db).2.Healthy
      ∧ lookupBucket (NewBBoltSwapStore db).2.buckets swapBuckets = some [] := by
    unfold NewBBoltSwapStore DB.Begin DB.Commit Tx.CreateBucketIfNotExists DB.Healthy
    simp only [hwrite, hcommit, if_true]
    rcases hempty with h | h
    · simp only [h]
      refine ⟨⟨hread, trivial, trivial⟩, ?_⟩
      rw [lookupBucket_append_of_none _ _ _ h]
      simp [lookupBucket]
    · simp only [h]
      exact ⟨⟨hread, trivial, trivial⟩, trivial⟩
  refine ⟨hrun.1, [], hrun.2, ?_, ?_⟩
  · exact List.Pairwise.nil
  · intro kv hkv
    simp at hkv

/-- The method `UpdateData` keeps the invariant `StoreInv`. -/
theorem StoreInv_UpdateData (c : Codec swap.SwapStateMachine) (db : DB)
    (r : swap.SwapStateMachine) (hdb : StoreInv c db) (hid : r.SwapId.Valid)
    (hr : Storable c r) : StoreInv c (UpdateData c db r).2 := by
  obtain ⟨hhealthy, b, hb, hsorted, hvals⟩ := hdb
  obtain ⟨jData, hm, hlen, hback⟩ := hr
  have hdec : ∀ v : Bytes, b.Get r.SwapId.bytes = some v →
      ∃ old : swap.SwapStateMachine, c.Unmarshal v = .ok old := by
    intro v hv
    obtain ⟨old, hold, _, _⟩ := hvals _ (Get_mem b _ v hv)
    exact ⟨old, hold⟩
  rw [UpdateData_eq c db b r jData hhealthy hb hdec hid hm hlen]
  refine ⟨hhealthy, Bucket.insert r.SwapId.bytes jData b, ?_, ?_, ?_⟩
  · exact lookupBucket_setBucket db.buckets swapBuckets b _ hb
  · exact SortedKeys_insert _ _ b hsorted
  · intro kv hkv
    rcases mem_insert _ _ b kv hkv with h | h
    · exact ⟨r, by rw [h]; exact hback, hid, by rw [h]⟩
    · exact hvals kv h

/-- Every store content reachable by `UpdateData` calls satisfies `StoreInv`. -/
theorem StoreInv_of_Reachable (c : Codec swap.SwapStateMachine) (db : DB)
    (h : Reachable c db) : StoreInv c db := by
  induction h with
  | new db hdb hempty => exact StoreInv_new c db hdb hempty
  | write db r _ hid hr ih => exact StoreInv_UpdateData c db r ih hid hr

/-- The walk of `ListAll` and of `ListAllByPeer` over a bucket: the second collects
the records of the first whose peer is `peer`, and both stop at the same value that
does not read back. -/
theorem ForEach_filter (c : Codec swap.SwapStateMachine) (peer : String) (b : Bucket)
    (acc : List swap.SwapStateMachine) :
    Bucket.ForEach (fun _ v swaps =>
        match c.Unmarshal v with
        | .error err => .error err
        | .ok s => if s.Data.PeerNodeId = peer then .ok (swaps ++ [s]) else .ok swaps) b
        (acc.filter (fun s => decide (s.Data.PeerNodeId = peer)))
      = (Bucket.ForEach (fun _ v swaps =>
        match c.Unmarshal v with
        | .error err => .error err
        | .ok s => .ok (swaps ++ [s])) b acc).map
          (fun all => all.filter (fun s => decide (s.Data.PeerNodeId = peer))) := by
  induction b generalizing acc with
  | nil => rfl
  | cons x rest ih =>
    obtain ⟨k, v⟩ := x
    simp only [Bucket.ForEach]
    cases hu : c.Unmarshal v with
    | error err => rfl
    | ok s =>
      simp only
      have := ih (acc ++ [s])
      by_cases hp : s.Data.PeerNodeId = peer
      · simp only [hp, if_true]
        simp only [List.filter_append, List.filter_cons, hp, decide_True, if_true,
          List.filter_nil] at this
        exact this
      · simp only [hp, if_false]
        simp only [List.filter_append, List.filter_cons, hp, decide_False,
          Bool.false_eq_true, if_false, List.filter_nil, List.append_nil] at this
        exact this

/-- The walk of `ListAll` over a bucket whose values all read back: the records the
values read back as, in the order of the bucket. -/
theorem ForEach_ListAll (c : Codec swap.SwapStateMachine) (r0 : swap.SwapStateMachine)
    (b : Bucket) (acc : List swap.SwapStateMachine)
    (h : ∀ kv ∈ b, ∃ r : swap.SwapStateMachine, c.Unmarshal kv.2 = .ok r) :
    Bucket.ForEach (fun _ v swaps =>
        match c.Unmarshal v with
        | .error err => .error err
        | .ok s => .ok (swaps ++ [s])) b acc
      = .ok (acc ++ b.map (fun kv => decodeOr c r0 kv.2)) := by
  induction b generalizing acc with
  | nil => simp [Bucket.ForEach]
  | cons x rest ih =>
    obtain ⟨k, v⟩ := x
    obtain ⟨r, hr⟩ := h (k, v) (List.mem_cons_self _ _)
    simp only at hr
    simp only [Bucket.ForEach, hr, List.map_cons, decodeOr]
    rw [ih (acc ++ [r]) (fun kv hkv => h kv (List.mem_cons_of_mem _ hkv))]
    simp [decodeOr]

/-- Replacing a bucket twice is replacing it once with the second content. -/
theorem setBucket_setBucket (bs : List (String × Bucket)) (name : String) (b1 b2 : Bucket) :
    setBucket name b2 (setBucket name b1 bs) = setBucket name b2 bs := by
  induction bs with
  | nil => rfl
  | cons x rest ih =>
    obtain ⟨n, old⟩ := x
    by_cases h1 : name = n
    · simp [setBucket, h1]
    · simp [setBucket, h1, ih]

/-- The method `GetData` on a working store whose bucket holds `jData` under the bytes
of a valid identifier. -/
theorem GetData_of_Get (c : Codec swap.SwapStateMachine) (db : DB) (b : Bucket)
    (id : swap.SwapId) (jData : Bytes) (r : swap.SwapStateMachine)
    (hread : db.readBeginErr = none)
    (hb : lookupBucket db.buckets swapBuckets = some b) (hid : id.Valid)
    (hget : b.Get id.bytes = some jData) (hback : c.Unmarshal jData = .ok r) :
    GetData c db id.String = .ok r := by
  unfold GetData
  rw [getById_eq c db b id.String hread hb, h2b_String id hid, hget]
  simp only [hback]

/-- The method `ListAll` on a store that satisfies `StoreInv`, with bucket `b`: the
records the values of `b` read back as, and among them those with the identifier `id`
are the ones stored under the bytes of `id`. -/
theorem ListAll_of_StoreInv (c : Codec swap.SwapStateMachine) (db : DB) (b : Bucket)
    (r0 : swap.SwapStateMachine) (id : swap.SwapId)
    (hread : db.readBeginErr = none)
    (hb : lookupBucket db.buckets swapBuckets = some b)
    (hvals : ∀ kv ∈ b, ∃ r : swap.SwapStateMachine,
        c.Unmarshal kv.2 = .ok r ∧ r.SwapId.Valid ∧ kv.1 = r.SwapId.bytes) :
    ListAll c db = .ok (b.map (fun kv => decodeOr c r0 kv.2))
    ∧ (b.map (fun kv => decodeOr c r0 kv.2)).filter (fun s => decide (s.SwapId = id))
        = (b.filter (fun kv => decide (kv.1 = id.bytes))).map
            (fun kv => decodeOr c r0 kv.2) := by
  constructor
  · unfold ListAll DB.Begin Tx.Bucket
    simp only [hread, hb, Bool.false_eq_true, if_false]
    rw [ForEach_ListAll c r0 b [] (fun kv hkv => by
      obtain ⟨r, hr, _, _⟩ := hvals kv hkv
      exact ⟨r, hr⟩)]
    simp
  · rw [List.filter_map]
    congr 1
    apply List.filter_congr
    intro kv hkv
    obtain ⟨r, hr, _, hk⟩ := hvals kv hkv
    have hd : decodeOr c r0 kv.2 = r := by simp [decodeOr, hr]
    simp only [Function.comp, hd, hk]
    cases hrid : r.SwapId with
    | mk rb =>
      cases hid : id with
      | mk ib => simp

/-- Writing a storable record and reading its identifier back, on a store that
satisfies `StoreInv`. -/
theorem UpdateData_then_GetData (c : Codec swap.SwapStateMachine) (db : DB)
    (r : swap.SwapStateMachine) (hdb : StoreInv c db) (hid : r.SwapId.Valid)
    (hr : Storable c r) :
    (UpdateData c db r).1 = none
    ∧ GetData c (UpdateData c db r).2 r.SwapId.String = .ok r := by
  obtain ⟨hhealthy, b, hb, hsorted, hvals⟩ := hdb
  obtain ⟨jData, hm, hlen, hback⟩ := hr
  have hdec : ∀ v : Bytes, b.Get r.SwapId.bytes = some v →
      ∃ old : swap.SwapStateMachine, c.Unmarshal v = .ok old := by
    intro v hv
    obtain ⟨old, hold, _, _⟩ := hvals _ (Get_mem b _ v hv)
    exact ⟨old, hold⟩
  rw [UpdateData_eq c db b r jData hhealthy hb hdec hid hm hlen]
  refine ⟨rfl, ?_⟩
  exact GetData_of_Get c _ (Bucket.insert r.SwapId.bytes jData b) r.SwapId jData r
    hhealthy.1 (lookupBucket_setBucket db.buckets swapBuckets b _ hb) hid
    (Get_insert_self _ _ b) hback

/-- C6: on every store content that `NewBBoltSwapStore` and `UpdateData` produce
(`StoreInv`), for every record `r` with a valid identifier whose serialisation
round-trips (`Storable`), `UpdateData(r)` succeeds and a following
`GetData(r.SwapId.String())` returns the record `r` itself, equal in every field. -/
theorem UpdateData_GetData_roundtrip (c : Codec swap.SwapStateMachine) (db : DB)
    (r : swap.SwapStateMachine) (hdb : StoreInv c db) (hid : r.SwapId.Valid)
    (hr : Storable c r) :
    (UpdateData c db r).1 = none
    ∧ GetData c (UpdateData c db r).2 r.SwapId.String = .ok r := by
  have h := UpdateData_then_GetData c db r hdb hid hr
  exact ⟨h.1, h.2⟩

/-- The example records are storable under the example codec, and the store
constructed on a fresh database satisfies `StoreInv`. -/
theorem example_facts :
    StoreInv exampleCodec freshStore
    ∧ swap.exampleSwap.SwapId.Valid
    ∧ Storable exampleCodec swap.exampleSwap
    ∧ Storable exampleCodec swap.exampleSwapNext
    ∧ swap.exampleSwapNext.SwapId = swap.exampleSwap.SwapId := by
  refine ⟨⟨by decide, [], rfl, List.Pairwise.nil, by simp⟩, by decide, ?_, ?_, rfl⟩
  · exact ⟨_, rfl, by decide, rfl⟩
  · exact ⟨_, rfl, by decide, rfl⟩

/-- C6, on the store constructed on a fresh database and the example record. -/
theorem UpdateData_GetData_roundtrip_witness :
    (UpdateData exampleCodec freshStore swap.exampleSwap).1 = none
    ∧ GetData exampleCodec (UpdateData exampleCodec freshStore swap.exampleSwap).2
        swap.exampleSwap.SwapId.String = .ok swap.exampleSwap :=
  UpdateData_GetData_roundtrip exampleCodec freshStore swap.exampleSwap
    example_facts.1 example_facts.2.1 example_facts.2.2.1

/-- C8: on every store content that `NewBBoltSwapStore` and `UpdateData` produce, for
two storable records `r1` and `r2` with the same valid identifier (equal or not), after
`UpdateData(r1)` then `UpdateData(r2)` both calls have succeeded, `GetData` of the
identifier returns `r2`, the records of `ListAll` with that identifier are exactly the
one record `r2`, and when `r2` is `r1` the buckets of the database are those left by
the first call. -/
theorem UpdateData_twice (c : Codec swap.SwapStateMachine) (db : DB)
    (r1 r2 : swap.SwapStateMachine) (hdb : StoreInv c db) (hid : r1.SwapId.Valid)
    (hsame : r2.SwapId = r1.SwapId) (h1 : Storable c r1) (h2 : Storable c r2) :
    (UpdateData c db r1).1 = none
    ∧ (UpdateData c (UpdateData c db r1).2 r2).1 = none
    ∧ GetData c (UpdateData c (UpdateData c db r1).2 r2).2 r1.SwapId.String = .ok r2
    ∧ (∃ all : List swap.SwapStateMachine,
        ListAll c (UpdateData c (UpdateData c db r1).2 r2).2 = .ok all
        ∧ all.filter (fun s => decide (s.SwapId = r1.SwapId)) = [r2])
    ∧ (r2 = r1 → (UpdateData c (UpdateData c db r1).2 r2).2.buckets
        = (UpdateData c db r1).2.buckets) := by
  have hid2 : r2.SwapId.Valid := by rw [hsame]; exact hid
  have hinv1 := StoreInv_UpdateData c db r1 hdb hid h1
  have hinv2 := StoreInv_UpdateData c (UpdateData c db r1).2 r2 hinv1 hid2 h2
  have hround := UpdateData_then_GetData c (UpdateData c db r1).2 r2 hinv1 hid2 h2
  rw [hsame] at hround
  refine ⟨(UpdateData_then_GetData c db r1 hdb hid h1).1, hround.1, hround.2, ?_, ?_⟩
  · -- the bucket after the two calls
    obtain ⟨hh1, b1, hb1, hsorted1, hvals1⟩ := hinv1
    obtain ⟨j2, hm2, hlen2, hback2⟩ := h2
    have hdec : ∀ v : Bytes, b1.Get r2.SwapId.bytes = some v →
        ∃ old : swap.SwapStateMachine, c.Unmarshal v = .ok old := by
      intro v hv
      obtain ⟨old, hold, _, _⟩ := hvals1 _ (Get_mem b1 _ v hv)
      exact ⟨old, hold⟩
    have heq := UpdateData_eq c (UpdateData c db r1).2 b1 r2 j2 hh1 hb1 hdec hid2 hm2 hlen2
    obtain ⟨hh2, b2, hb2, _, hvals2⟩ := hinv2
    have hb2eq : b2 = Bucket.insert r2.SwapId.bytes j2 b1 := by
      have hlook := lookupBucket_setBucket (UpdateData c db r1).2.buckets swapBuckets b1
        (Bucket.insert r2.SwapId.bytes j2 b1) hb1
      rw [heq] at hb2
      simp only at hb2
      rw [hlook] at hb2
      exact (Option.some.inj hb2).symm
    obtain ⟨hall, hfilter⟩ := ListAll_of_StoreInv c _ b2 r2 r1.SwapId hh2.1 hb2 hvals2
    refine ⟨_, hall, ?_⟩
    rw [hfilter, hb2eq, hsame, filter_insert _ _ b1 hsorted1]
    simp [decodeOr, hback2]
  · intro hr
    subst hr
    obtain ⟨hh, b, hb, _, hvals⟩ := hdb
    obtain ⟨j, hm, hlen, hback⟩ := h1
    have hdec : ∀ v : Bytes, b.Get r2.SwapId.bytes = some v →
        ∃ old : swap.SwapStateMachine, c.Unmarshal v = .ok old := by
      intro v hv
      obtain ⟨old, hold, _, _⟩ := hvals _ (Get_mem b _ v hv)
      exact ⟨old, hold⟩
    have heq1 := UpdateData_eq c db b r2 j hh hb hdec hid hm hlen
    have hb1 := lookupBucket_setBucket db.buckets swapBuckets b
      (Bucket.insert r2.SwapId.bytes j b) hb
    obtain ⟨hh1, _, _, _, _⟩ := hinv1
    rw [heq1] at hh1 ⊢
    have hdec1 : ∀ v : Bytes,
        (Bucket.insert r2.SwapId.bytes j b).Get r2.SwapId.bytes = some v →
        ∃ old : swap.SwapStateMachine, c.Unmarshal v = .ok old := by
      intro v hv
      rw [Get_insert_self] at hv
      exact ⟨r2, by rw [← Option.some.inj hv]; exact hback⟩
    rw [UpdateData_eq c _ (Bucket.insert r2.SwapId.bytes j b) r2 j hh1 hb1 hdec1 hid hm hlen]
    simp only
    rw [insert_insert, setBucket_setBucket]

/-- C8, on the store constructed on a fresh database: the example record is written
and then written again one state later. -/
theorem UpdateData_twice_witness :
    (UpdateData exampleCodec (UpdateData exampleCodec freshStore swap.exampleSwap).2
        swap.exampleSwapNext).1 = none
    ∧ GetData exampleCodec
        (UpdateData exampleCodec (UpdateData exampleCodec freshStore swap.exampleSwap).2
          swap.exampleSwapNext).2 swap.exampleSwap.SwapId.String
        = .ok swap.exampleSwapNext :=
  have h := UpdateData_twice exampleCodec freshStore swap.exampleSwap swap.exampleSwapNext
    example_facts.1 example_facts.2.1 example_facts.2.2.2.2 example_facts.2.2.1
    example_facts.2.2.2.1
  ⟨h.2.1, h.2.2.1⟩

/-- C10: `ListAllByPeer(p)` is `ListAll()` filtered on `Data.PeerNodeId = p`, with the
order kept, on every database (when `ListAll` fails, `ListAllByPeer` fails with the
same error); and on every store content reachable by `UpdateData` calls both
succeed. -/
theorem ListAllByPeer_eq_filter (c : Codec swap.SwapStateMachine) (db : DB)
    (peer : String) :
    ListAllByPeer c db peer
      = (ListAll c db).map
          (fun all => all.filter (fun s => decide (s.Data.PeerNodeId = peer)))
    ∧ (Reachable c db →
        ∃ all : List swap.SwapStateMachine, ListAll c db = .ok all
          ∧ ListAllByPeer c db peer
              = .ok (all.filter (fun s => decide (s.Data.PeerNodeId = peer)))) := by
  have hfirst : ListAllByPeer c db peer
      = (ListAll c db).map
          (fun all => all.filter (fun s => decide (s.Data.PeerNodeId = peer))) := by
    unfold ListAllByPeer ListAll
    cases (db.Begin false).1 with
    | error err => rfl
    | ok tx =>
      simp only
      cases tx.Bucket swapBuckets with
      | none => rfl
      | some b =>
        simp only
        exact ForEach_filter c peer b []
  refine ⟨hfirst, ?_⟩
  intro hreach
  obtain ⟨hh, b, hb, _, hvals⟩ := StoreInv_of_Reachable c db hreach
  obtain ⟨hall, _⟩ := ListAll_of_StoreInv c db b
    swap.exampleSwap swap.exampleSwap.SwapId hh.1 hb hvals
  refine ⟨_, hall, ?_⟩
  rw [hfirst, hall]
  rfl

/-- C10, on the store that holds the example record: its peer lists it, another peer
lists nothing. -/
theorem ListAllByPeer_eq_filter_witness :
    ListAllByPeer exampleCodec (UpdateData exampleCodec (NewBBoltSwapStore freshDB).2
        swap.exampleSwap).2 "02ab" = .ok [swap.exampleSwap]
    ∧ ListAllByPeer exampleCodec (UpdateData exampleCodec (NewBBoltSwapStore freshDB).2
        swap.exampleSwap).2 "03cd" = .ok []
    ∧ ∃ all : List swap.SwapStateMachine,
        ListAll exampleCodec (UpdateData exampleCodec (NewBBoltSwapStore freshDB).2
          swap.exampleSwap).2 = .ok all
        ∧ ListAllByPeer exampleCodec (UpdateData exampleCodec (NewBBoltSwapStore freshDB).2
            swap.exampleSwap).2 "02ab"
          = .ok (all.filter (fun s => decide (s.Data.PeerNodeId = "02ab"))) :=
  ⟨rfl, rfl,
    (ListAllByPeer_eq_filter exampleCodec
      (UpdateData exampleCodec (NewBBoltSwapStore freshDB).2 swap.exampleSwap).2 "02ab").2
      (Reachable.write _ _
        (Reachable.new freshDB (by decide) (Or.inl rfl))
        example_facts.2.1 example_facts.2.2.1)⟩

end bbolt

/-! ## The relational swap store (`sqlite/swap_store.go`) -/

namespace sqlite

/-- The method `UpdateData` leaves the committed tables as they are, on each of its
return paths. -/
theorem UpdateData_committed (db : DB) (s : swap.SwapStateMachine) :
    (UpdateData db s).2.committed = db.committed := by
  unfold UpdateData
  repeat (first | rfl | split)

/-- The method `GetData` reads the committed tables only. -/
theorem GetData_congr (db1 db2 : DB) (id : String) (h : db1.committed = db2.committed) :
    GetData db1 id = GetData db2 id := by
  unfold GetData queryRow
  rw [h]

/-- C7, as the code has it: `UpdateData` begins a transaction and returns without
`tx.Commit()`, so the committed tables never change and a later `GetData` reads what it
read before; on an empty database `UpdateData` of the example record returns nil,
leaves its transaction open, and `GetData` of that identifier returns
`ErrDataNotAvailable`. -/
theorem UpdateData_not_committed :
    (∀ (db : DB) (s : swap.SwapStateMachine) (id : String),
        GetData (UpdateData db s).2 id = GetData db id)
    ∧ (UpdateData emptyDB swap.exampleSwap).1 = none
    ∧ (UpdateData emptyDB swap.exampleSwap).2.committed.swaps = []
    ∧ (UpdateData emptyDB swap.exampleSwap).2.openTxs.length = 1
    ∧ GetData (UpdateData emptyDB swap.exampleSwap).2 swap.exampleSwap.SwapId.String
        = .error swap.ErrDataNotAvailable := by
  refine ⟨?_, by decide, by decide, by decide, rfl⟩
  intro db s id
  exact GetData_congr _ _ id (UpdateData_committed db s)

end sqlite

/-! ## Both backends -/

/-- C9: for an identifier that is valid hexadecimal and under which no record is
stored (no key in the bucket `swaps`, no committed row in the table `swaps`),
`GetData` of the key-value store (constructed and readable) and `GetData` of the
relational store both return a nil record with `swap.ErrDataNotAvailable`, which is
neither `swap.ErrDoesNotExist` nor `sql.ErrNoRows`. -/
theorem GetData_unknown_id (c : Codec swap.SwapStateMachine) (db : bbolt.DB)
    (b : bbolt.Bucket) (sdb : sqlite.DB) (id : String)
    (hid : (hex.DecodeString id).2 = none)
    (hread : db.readBeginErr = none)
    (hb : bbolt.lookupBucket db.buckets bbolt.swapBuckets = some b)
    (habsent : b.Get (hex.DecodeString id).1 = none)
    (hnorow : ∀ row ∈ sdb.committed.swaps, row.swap_id ≠ (hex.DecodeString id).1) :
    bbolt.GetData c db id = .error swap.ErrDataNotAvailable
    ∧ sqlite.GetData sdb id = .error swap.ErrDataNotAvailable
    ∧ swap.ErrDataNotAvailable ≠ swap.ErrDoesNotExist
    ∧ swap.ErrDataNotAvailable ≠ Error.sqlErrNoRows := by
  refine ⟨?_, ?_, by decide, by decide⟩
  · unfold bbolt.GetData
    rw [bbolt.getById_eq c db b id hread hb]
    unfold bbolt.h2b
    rw [habsent]
    simp
  · unfold sqlite.GetData
    rcases hdec : hex.DecodeString id with ⟨swapid, err⟩
    rw [hdec] at hid hnorow
    simp only at hid hnorow
    subst hid
    have hq : sqlite.queryRow sdb swapid = none := by
      unfold sqlite.queryRow
      apply List.find?_eq_none.mpr
      intro row hrow
      simpa using hnorow row hrow
    simp [hq, sqlite.Scan]

/-- C9, on the store constructed on a fresh database and on an empty relational
database, for the identifier of the example record. -/
theorem GetData_unknown_id_witness :
    bbolt.GetData bbolt.exampleCodec bbolt.freshStore swap.exampleSwap.SwapId.String
        = .error swap.ErrDataNotAvailable
    ∧ sqlite.GetData sqlite.emptyDB swap.exampleSwap.SwapId.String
        = .error swap.ErrDataNotAvailable :=
  have h := GetData_unknown_id bbolt.exampleCodec bbolt.freshStore [] sqlite.emptyDB
    swap.exampleSwap.SwapId.String (by decide) rfl rfl rfl (by simp [sqlite.emptyDB])
  ⟨h.1, h.2.1⟩

/-- C11, as the code has it: `h2b` drops the error of `hex.DecodeString`, so `GetData`
of the key-value store looks a malformed identifier up under the bytes decoded before
the error.  With the example record stored, the identifier of the record followed by
one more digit (odd length) returns that record and no error; on an empty store the
identifier `zz` is reported as not available.  `GetData` of the relational store
returns the decode error for every malformed identifier. -/
theorem GetData_malformed_id :
    (hex.DecodeString (swap.exampleSwap.SwapId.String ++ "0")).2 = some Error.hexErrLength
    ∧ bbolt.GetData bbolt.exampleCodec
        (bbolt.UpdateData bbolt.exampleCodec bbolt.freshStore swap.exampleSwap).2
        (swap.exampleSwap.SwapId.String ++ "0") = .ok swap.exampleSwap
    ∧ (hex.DecodeString "zz").2 = some (Error.hexInvalidByteError (Char.ofNat 122))
    ∧ bbolt.GetData bbolt.exampleCodec bbolt.freshStore "zz"
        = .error swap.ErrDataNotAvailable
    ∧ (∀ (sdb : sqlite.DB) (id : String),
        (hex.DecodeString id).2 = none
        ∨ ∃ err : Error, (hex.DecodeString id).2 = some err
            ∧ sqlite.GetData sdb id
              = .error (Error.wrapf ("failed to decode swap id \x27" ++ id ++ "\x27: ") err)) := by
  refine ⟨by decide, rfl, by decide, rfl, ?_⟩
  intro sdb id
  unfold sqlite.GetData
  rcases hdec : hex.DecodeString id with ⟨data, err⟩
  cases err with
  | none => exact Or.inl rfl
  | some e => exact Or.inr ⟨e, rfl, rfl⟩

namespace sqlite

/-- C12, as the code has it: `SqliteSwapStore.UpdateData` returns on every path after
`BeginTx` without `tx.Commit()` and without `tx.Rollback()`, so on a database without
open transaction it leaves one transaction open and the committed tables unchanged,
when it succeeds (the example record) as when a hex field fails to decode (peer node
id `zz`); `SqlitePollStore.Update` returns the decode error of the peer id `zz` with
its transaction open, and the next `Update` then fails to begin. -/
theorem transactions_left_open :
    (∀ (t : Tables) (s : swap.SwapStateMachine),
        (UpdateData { committed := t, openTxs := [] } s).2.openTxs.length = 1
        ∧ (UpdateData { committed := t, openTxs := [] } s).2.committed = t)
    ∧ (UpdateData emptyDB swap.exampleSwap).1 = none
    ∧ (UpdateData emptyDB
          { swap.exampleSwap with Data := { swap.exampleSwap.Data with PeerNodeId := "zz" } }).1
        = some (Error.wrapf "failed to decode peer node id \x27zz\x27: "
            (Error.hexInvalidByteError (Char.ofNat 122)))
    ∧ (SqlitePollStore.Update emptyDB "zz" poll.exampleInfo).1
        = some (Error.wrapf "failed to decode peer id: "
            (Error.hexInvalidByteError (Char.ofNat 122)))
    ∧ (SqlitePollStore.Update emptyDB "zz" poll.exampleInfo).2.openTxs.length = 1
    ∧ (SqlitePollStore.Update (SqlitePollStore.Update emptyDB "zz" poll.exampleInfo).2
          "02ab" poll.exampleInfo).1
        = some (Error.engine "database is locked") := by
  refine ⟨?_, by decide, by decide, by decide, by decide, by decide⟩
  intro t s
  unfold UpdateData DB.BeginTx
  simp only
  constructor <;> repeat (first | rfl | split)

end sqlite

namespace bbolt

/-- Writing a storable record leaves what `GetData` returns for every other valid
identifier as it was. -/
theorem GetData_UpdateData_other (c : Codec swap.SwapStateMachine) (db : DB)
    (r : swap.SwapStateMachine) (id : swap.SwapId) (hdb : StoreInv c db)
    (hrid : r.SwapId.Valid) (hr : Storable c r) (hid : id.Valid) (hne : id ≠ r.SwapId) :
    GetData c (UpdateData c db r).2 id.String = GetData c db id.String := by
  obtain ⟨hhealthy, b, hb, _, hvals⟩ := hdb
  obtain ⟨jData, hm, hlen, _⟩ := hr
  have hdec : ∀ v : Bytes, b.Get r.SwapId.bytes = some v →
      ∃ old : swap.SwapStateMachine, c.Unmarshal v = .ok old := by
    intro v hv
    obtain ⟨old, hold, _, _⟩ := hvals _ (Get_mem b _ v hv)
    exact ⟨old, hold⟩
  rw [UpdateData_eq c db b r jData hhealthy hb hdec hrid hm hlen]
  have hb2 := lookupBucket_setBucket db.buckets swapBuckets b
    (Bucket.insert r.SwapId.bytes jData b) hb
  have hbytes : id.bytes ≠ r.SwapId.bytes := by
    intro h
    apply hne
    cases id with
    | mk ib =>
      cases hrs : r.SwapId with
      | mk rb =>
        rw [hrs] at h
        simp only at h
        rw [h]
  unfold GetData
  simp only
  rw [getById_eq c
      { db with
        buckets := setBucket swapBuckets (Bucket.insert r.SwapId.bytes jData b) db.buckets
        writeTxBegun := db.writeTxBegun + 1 }
      (Bucket.insert r.SwapId.bytes jData b) id.String hhealthy.1 hb2,
    getById_eq c db b id.String hhealthy.1 hb,
    h2b_String id hid, Get_insert_other _ _ _ b hbytes]

/-- A record that `GetData` returns is still returned, or replaced by a later record
of the same identifier, after any sequence of calls of the store. -/
theorem GetData_run (c : Codec swap.SwapStateMachine) (ops : List Op) (db : DB)
    (id : swap.SwapId) (hdb : StoreInv c db) (hid : id.Valid)
    (hops : ∀ s : swap.SwapStateMachine, Op.UpdateData s ∈ ops →
      s.SwapId.Valid ∧ Storable c s)
    (hstored : ∃ x : swap.SwapStateMachine, GetData c db id.String = .ok x) :
    ∃ y : swap.SwapStateMachine, GetData c (run c db ops) id.String = .ok y := by
  induction ops generalizing db with
  | nil => exact hstored
  | cons op rest ih =>
    have hrest : ∀ s : swap.SwapStateMachine, Op.UpdateData s ∈ rest →
        s.SwapId.Valid ∧ Storable c s :=
      fun s hs => hops s (List.mem_cons_of_mem _ hs)
    unfold run
    rw [List.foldl_cons]
    cases op with
    | UpdateData s =>
      obtain ⟨hsid, hs⟩ := hops s (List.mem_cons_self _ _)
      apply ih (applyOp c db (Op.UpdateData s)) (StoreInv_UpdateData c db s hdb hsid hs) hrest
      by_cases hsame : id = s.SwapId
      · refine ⟨s, ?_⟩
        rw [hsame]
        exact (UpdateData_then_GetData c db s hdb hsid hs).2
      · obtain ⟨x, hx⟩ := hstored
        refine ⟨x, ?_⟩
        unfold applyOp
        rw [GetData_UpdateData_other c db s id hdb hsid hs hid hsame]
        exact hx
    | GetData i => exact ih db hdb hrest hstored
    | ListAll => exact ih db hdb hrest hstored
    | ListAllByPeer peer => exact ih db hdb hrest hstored

/-- C13: on a store content that `NewBBoltSwapStore` and `UpdateData` produce, for
every sequence of `UpdateData` (of storable records), `GetData`, `ListAll` and
`ListAllByPeer` calls, a valid identifier for which `GetData` returns a record before
the sequence has `GetData` return a record after it; and `UpdateData(r)` leaves what
`GetData` returns for every valid identifier other than `r.SwapId` unchanged. -/
theorem stored_id_stays_retrievable (c : Codec swap.SwapStateMachine) (db : DB)
    (ops : List Op) (id : swap.SwapId) (hdb : StoreInv c db) (hid : id.Valid)
    (hops : ∀ s : swap.SwapStateMachine, Op.UpdateData s ∈ ops →
      s.SwapId.Valid ∧ Storable c s) :
    ((∃ x : swap.SwapStateMachine, GetData c db id.String = .ok x) →
      ∃ y : swap.SwapStateMachine, GetData c (run c db ops) id.String = .ok y)
    ∧ (∀ r : swap.SwapStateMachine, r.SwapId.Valid → Storable c r → id ≠ r.SwapId →
        GetData c (UpdateData c db r).2 id.String = GetData c db id.String) :=
  ⟨GetData_run c ops db id hdb hid hops,
    fun r hrid hr hne => GetData_UpdateData_other c db r id hdb hrid hr hid hne⟩

end bbolt

/-! ## Strings as keys -/

/-- The conversion `string([]byte(s))` gives `s` back. -/
theorem bytesToString_stringToBytes (s : String) : bytesToString (stringToBytes s) = s := by
  cases s with
  | mk data =>
  unfold bytesToString stringToBytes
  rw [List.map_map]
  have h : (Char.ofNat ∘ Char.toNat) = id := by
    funext ch
    simp
  rw [h, List.map_id]
  rfl

/-- Different strings are different keys. -/
theorem stringToBytes_ne (p q : String) (h : q ≠ p) : stringToBytes q ≠ stringToBytes p := by
  intro heq
  apply h
  rw [← bytesToString_stringToBytes q, ← bytesToString_stringToBytes p, heq]

/-! ## The key-value requested-swap store (`bbolt/requested_swap_store.go`) -/

namespace bbolt

/-- A successful `Put` is the write of the pair. -/
theorem Put_ok (b b2 : Bucket) (key value : Bytes) (h : Bucket.Put b key value = .ok b2) :
    b2 = Bucket.insert key value b := by
  unfold Bucket.Put at h
  split at h
  · exact absurd h (by simp)
  · split at h
    · exact absurd h (by simp)
    · split at h
      · exact absurd h (by simp)
      · exact (Except.ok.inj h).symm

/-- The method `Get` of the requested-swap store on a readable database with the
bucket `b`. -/
theorem RequestedSwaps_Get_eq (c : Codec (List swap.RequestedSwap)) (db : DB) (b : Bucket)
    (id : String) (hread : db.readBeginErr = none)
    (hb : lookupBucket db.buckets requestedSwapsBucket = some b) :
    BBoltRequestedSwapsStore.Get c db id
      = match b.Get (stringToBytes id) with
        | none => jsonUnmarshal c []
        | some k => jsonUnmarshal c k := by
  unfold BBoltRequestedSwapsStore.Get DB.View DB.Begin Tx.Bucket
  simp only [hread, hb, Bool.false_eq_true, if_false]

/-- A successful `Add` on a database with the bucket `b`, for a peer whose current list
is `L`: the serialisation of `L` followed by the entry is put under the key of the
peer. -/
theorem RequestedSwaps_Add_ok (c : Codec (List swap.RequestedSwap)) (db : DB) (b : Bucket)
    (p : String) (e : swap.RequestedSwap) (L : List swap.RequestedSwap)
    (hb : lookupBucket db.buckets requestedSwapsBucket = some b)
    (hL : (b.Get (stringToBytes p) = none ∧ L = [])
      ∨ ∃ k : Bytes, b.Get (stringToBytes p) = some k ∧ jsonUnmarshal c k = .ok L)
    (hok : (BBoltRequestedSwapsStore.Add c db p e).1 = none) :
    ∃ buf : Bytes, c.Marshal (L ++ [e]) = .ok buf
      ∧ (BBoltRequestedSwapsStore.Add c db p e).2
        = { db with
            buckets := setBucket requestedSwapsBucket
              (Bucket.insert (stringToBytes p) buf b) db.buckets
            writeTxBegun := db.writeTxBegun + 1 } := by
  unfold BBoltRequestedSwapsStore.Add DB.Update DB.Begin at hok ⊢
  simp only [if_true] at hok ⊢
  cases hw : db.writeBeginErr with
  | some err => simp [hw] at hok
  | none =>
    simp only [hw, Tx.Bucket, hb] at hok ⊢
    have happ : (match b.Get (stringToBytes p) with
        | none => (Except.ok [e] : Except Error (List swap.RequestedSwap))
        | some k =>
          match jsonUnmarshal c k with
          | .error err => .error err
          | .ok reqswaps => .ok (reqswaps ++ [e])) = .ok (L ++ [e]) := by
      rcases hL with ⟨hnone, hl⟩ | ⟨k, hk, hu⟩
      · simp [hnone, hl]
      · simp [hk, hu]
    simp only [happ] at hok ⊢
    cases hm : c.Marshal (L ++ [e]) with
    | error err => simp [hm] at hok
    | ok buf =>
      simp only [hm] at hok ⊢
      cases hp : Bucket.Put b (stringToBytes p) buf with
      | error err => simp [hp] at hok
      | ok b2 =>
        simp only [hp] at hok ⊢
        have hb2 := Put_ok b b2 _ _ hp
        subst hb2
        unfold DB.Commit Tx.setBucket at hok ⊢
        cases hc : db.commitErr with
        | some err => simp [hc] at hok
        | none => exact ⟨buf, rfl, by simp [hc]⟩

/-- C14: on a readable database with the bucket `requested-swaps`, for a peer `p`
whose current list is `L` (the empty list when `p` has no key, the list its value
decodes to otherwise) and an entry `e` whose list serialises to something that decodes
back: after `Add(p, e)` succeeds, `Get(p)` returns `L` followed by `e`, and `Get` of
every other peer returns what it returned before. -/
theorem Add_appends (c : Codec (List swap.RequestedSwap)) (db : DB) (b : Bucket)
    (p : String) (e : swap.RequestedSwap) (L : List swap.RequestedSwap)
    (hread : db.readBeginErr = none)
    (hb : lookupBucket db.buckets requestedSwapsBucket = some b)
    (hL : (b.Get (stringToBytes p) = none ∧ L = [])
      ∨ ∃ k : Bytes, b.Get (stringToBytes p) = some k ∧ jsonUnmarshal c k = .ok L)
    (hround : ∀ buf : Bytes, c.Marshal (L ++ [e]) = .ok buf →
      jsonUnmarshal c buf = .ok (L ++ [e]))
    (hok : (BBoltRequestedSwapsStore.Add c db p e).1 = none) :
    BBoltRequestedSwapsStore.Get c (BBoltRequestedSwapsStore.Add c db p e).2 p
        = .ok (L ++ [e])
    ∧ ∀ q : String, q ≠ p →
        BBoltRequestedSwapsStore.Get c (BBoltRequestedSwapsStore.Add c db p e).2 q
          = BBoltRequestedSwapsStore.Get c db q := by
  obtain ⟨buf, hm, hdb⟩ := RequestedSwaps_Add_ok c db b p e L hb hL hok
  have hb2 := lookupBucket_setBucket db.buckets requestedSwapsBucket b
    (Bucket.insert (stringToBytes p) buf b) hb
  rw [hdb]
  have hget2 : ∀ q : String,
      BBoltRequestedSwapsStore.Get c
        { db with
          buckets := setBucket requestedSwapsBucket
            (Bucket.insert (stringToBytes p) buf b) db.buckets
          writeTxBegun := db.writeTxBegun + 1 } q
      = match (Bucket.insert (stringToBytes p) buf b).Get (stringToBytes q) with
        | none => jsonUnmarshal c []
        | some k => jsonUnmarshal c k :=
    fun q => RequestedSwaps_Get_eq c _ _ q hread hb2
  constructor
  · rw [hget2 p, Get_insert_self]
    exact hround buf hm
  · intro q hq
    rw [hget2 q, RequestedSwaps_Get_eq c db b q hread hb,
      Get_insert_other _ _ _ b (stringToBytes_ne p q hq)]

end bbolt

namespace bbolt

/-- C14, on the requested-swap store that holds one request of the peer `02ab`: a
second request is added. -/
theorem Add_appends_witness :
    BBoltRequestedSwapsStore.Get exampleListCodec
        (BBoltRequestedSwapsStore.Add exampleListCodec
          (BBoltRequestedSwapsStore.Add exampleListCodec freshRequestedStore "02ab"
            swap.exampleRequest).2 "02ab" swap.exampleRejected).2 "02ab"
      = .ok ([swap.exampleRequest] ++ [swap.exampleRejected]) :=
  (Add_appends exampleListCodec
    (BBoltRequestedSwapsStore.Add exampleListCodec freshRequestedStore "02ab"
      swap.exampleRequest).2
    [(stringToBytes "02ab", [91, 100000, 93])] "02ab" swap.exampleRejected
    [swap.exampleRequest] rfl rfl (Or.inr ⟨[91, 100000, 93], rfl, rfl⟩)
    (by
      intro buf h
      have hbuf : buf = [91, 100000, 2500, 93] := (Except.ok.inj h).symm
      subst hbuf
      rfl)
    rfl).1

/-- C13, on the store that holds the example record: it is listed, written again one
state later, read and listed by peer; its identifier is still retrievable. -/
theorem stored_id_stays_retrievable_witness :
    ∃ y : swap.SwapStateMachine,
      GetData exampleCodec
        (run exampleCodec (UpdateData exampleCodec freshStore swap.exampleSwap).2
          [Op.ListAll, Op.UpdateData swap.exampleSwapNext, Op.GetData "zz",
            Op.ListAllByPeer "02ab"])
        swap.exampleSwap.SwapId.String = .ok y :=
  (stored_id_stays_retrievable exampleCodec
    (UpdateData exampleCodec freshStore swap.exampleSwap).2
    [Op.ListAll, Op.UpdateData swap.exampleSwapNext, Op.GetData "zz", Op.ListAllByPeer "02ab"]
    swap.exampleSwap.SwapId
    (StoreInv_UpdateData exampleCodec freshStore swap.exampleSwap example_facts.1
      example_facts.2.1 example_facts.2.2.1)
    example_facts.2.1
    (by
      intro s hs
      simp only [List.mem_cons, Op.UpdateData.injEq, List.mem_singleton, reduceCtorEq,
        false_or, or_false, List.not_mem_nil] at hs
      subst hs
      exact ⟨example_facts.2.1, example_facts.2.2.2.1⟩)).1
    ⟨swap.exampleSwap, rfl⟩

end bbolt

/-! ## The relational requested-swap store (`sqlite/requested_swap_store.go`) -/

namespace sqlite

/-- C15, as the code has it: `Add` binds `int(reqswap.Type)` to the column
`amount_sat` and `int64(reqswap.AmountSat)` to the column `type`, so `Get` reads the
type back as the amount and the amount as the type.  After `Add("02ab", e)` on any
committed tables, `Get("02ab")` returns what it returned before followed by `e` with
the two exchanged; for the request of 100000 sat of type 1 on an empty database it
returns one entry of 1 sat of type 100000, which is not the entry added. -/
theorem Add_swaps_amount_and_type :
    (∀ (t : Tables) (e : swap.RequestedSwap),
        (SqliteRequestedSwapStore.Add { committed := t, openTxs := [] } "02ab" e).1 = none
        ∧ SqliteRequestedSwapStore.Get
            (SqliteRequestedSwapStore.Add { committed := t, openTxs := [] } "02ab" e).2 "02ab"
          = (SqliteRequestedSwapStore.Get { committed := t, openTxs := [] } "02ab").map
              (fun l => l ++
                [{ Asset := e.Asset
                   AmountSat := toUint64 e.SwapType
                   SwapType := toInt64 e.AmountSat
                   RejectionReason := e.RejectionReason }]))
    ∧ SqliteRequestedSwapStore.Get
        (SqliteRequestedSwapStore.Add emptyDB "02ab" swap.exampleRequest).2 "02ab"
      = .ok [{ Asset := "btc", AmountSat := 1, SwapType := 100000, RejectionReason := "" }]
    ∧ swap.exampleRequest
        ∉ [({ Asset := "btc", AmountSat := 1, SwapType := 100000, RejectionReason := "" } :
            swap.RequestedSwap)] := by
  refine ⟨?_, rfl, by decide⟩
  intro t e
  have hdec : hex.DecodeString "02ab" = ([2, 171], none) := by decide
  unfold SqliteRequestedSwapStore.Add SqliteRequestedSwapStore.Get DB.Exec
  simp only [hdec, List.filter_append, List.map_append, Except.map]
  refine ⟨trivial, ?_⟩
  simp [toRequestedSwap]

end sqlite

/-- C16, as the code has it: `Get` of the key-value requested-swap store hands the nil
value of a missing key to `json.Unmarshal`, which rejects it, so for every peer without
entry (here every peer, on the store constructed on a fresh database) `Get` returns an
error and not the empty list; `Get` of the relational store returns the empty list and
no error. -/
theorem Get_unknown_peer :
    (∀ (c : Codec (List swap.RequestedSwap)) (p : String),
        bbolt.BBoltRequestedSwapsStore.Get c bbolt.freshRequestedStore p
          = .error (Error.errorf "unexpected end of JSON input"))
    ∧ (bbolt.NewBBoltRequestedSwapsStore bbolt.freshDB).2 = bbolt.freshRequestedStore
    ∧ sqlite.SqliteRequestedSwapStore.Get sqlite.emptyDB "02ab" = .ok [] := by
  refine ⟨?_, by decide, rfl⟩
  intro c p
  rfl

/-! ## Go maps -/

namespace gomap

/-- The value that was set is the value of the key. -/
theorem get_set_self {V : Type} (m : GoMap V) (key : String) (value : V) :
    get (set key value m) key = some value := by
  induction m with
  | nil => simp [set, get]
  | cons x rest ih =>
    obtain ⟨k, v⟩ := x
    by_cases h : key = k
    · simp [set, get, h]
    · simp [set, get, h, ih]

/-- Setting a key leaves the other keys as they are. -/
theorem get_set_other {V : Type} (m : GoMap V) (key other : String) (value : V)
    (h : other ≠ key) : get (set key value m) other = get m other := by
  induction m with
  | nil => simp [set, get, h]
  | cons x rest ih =>
    obtain ⟨k, v⟩ := x
    by_cases h1 : key = k
    · subst h1
      simp [set, get, h]
    · by_cases h2 : other = k
      · simp [set, get, h1, h2]
      · simp [set, get, h1, h2, ih]

end gomap

namespace hex

/-- Bytes with the same encoding are the same. -/
theorem EncodeToString_inj (a b : Bytes) (ha : ∀ x ∈ a, x < 256) (hb : ∀ x ∈ b, x < 256)
    (h : EncodeToString a = EncodeToString b) : a = b := by
  have h1 := DecodeString_EncodeToString a ha
  have h2 := DecodeString_EncodeToString b hb
  rw [h, h2] at h1
  exact (Prod.mk.inj h1).1.symm

/-- The encoding of bytes is empty only for no bytes. -/
theorem EncodeToString_ne_empty (a : Bytes) (ha : a ≠ []) : EncodeToString a ≠ "" := by
  cases a with
  | nil => exact absurd rfl ha
  | cons x rest =>
    intro h
    unfold EncodeToString Encode at h
    have := congrArg String.data h
    simp at this

end hex

namespace sqlite

/-- The order `requestedLe` as the order of the keys of the `ORDER BY` clause. -/
theorem requestedLe_iff (a b : RequestedSwapRow) :
    requestedLe a b ↔
      toLex (a.peer_node_id, toLex (stringToBytes a.asset, toLex (a.type, a.amount_sat)))
        ≤ toLex (b.peer_node_id, toLex (stringToBytes b.asset, toLex (b.type, b.amount_sat))) := by
  unfold requestedLe
  simp only [Prod.Lex.le_iff]

/-- Rows in the order `requestedLe` are in the order of their peers. -/
theorem requestedLe_peer (a b : RequestedSwapRow) (h : requestedLe a b) :
    a.peer_node_id ≤ b.peer_node_id := by
  rcases h with h | ⟨h, _⟩
  · exact le_of_lt h
  · exact le_of_eq h

/-- The rows `GetAll` scans: the committed rows, in the order of their peers. -/
theorem sorted_rows (t : List RequestedSwapRow) :
    (List.insertionSort requestedLe t).Perm t
    ∧ (List.insertionSort requestedLe t).Pairwise
        (fun a b => a.peer_node_id ≤ b.peer_node_id) := by
  haveI : IsTotal RequestedSwapRow requestedLe := ⟨fun a b => by
    rw [requestedLe_iff, requestedLe_iff]
    exact le_total _ _⟩
  haveI : IsTrans RequestedSwapRow requestedLe := ⟨fun a b c => by
    rw [requestedLe_iff, requestedLe_iff, requestedLe_iff]
    exact le_trans⟩
  refine ⟨List.perm_insertionSort requestedLe t, ?_⟩
  have hs := List.sorted_insertionSort requestedLe t
  exact List.Pairwise.imp (fun {a b} h => requestedLe_peer a b h) hs

/-- The loop of `GetAll` over rows in the order of their peers, seen from a peer with
at least one byte: when the rows hold none of its rows its key is left as it was,
otherwise its key holds its rows in their order, after the list that was there when the
row scanned last before was one of its rows. -/
theorem GetAll_fold (peer : Bytes) (hne : peer ≠ []) (hpeer : ∀ x ∈ peer, x < 256)
    (rows : List RequestedSwapRow)
    (hrows : ∀ row ∈ rows, ∀ x ∈ row.peer_node_id, x < 256)
    (hsorted : rows.Pairwise (fun a b => a.peer_node_id ≤ b.peer_node_id))
    (m : gomap.GoMap (List swap.RequestedSwap)) (last : String)
    (hlast : last = hex.EncodeToString peer → ∀ row ∈ rows, peer ≤ row.peer_node_id) :
    gomap.get (rows.foldl SqliteRequestedSwapStore.GetAllStep (m, last)).1
        (hex.EncodeToString peer)
      = if rows.filter (fun row => decide (row.peer_node_id = peer)) = [] then
          gomap.get m (hex.EncodeToString peer)
        else
          some ((if last = hex.EncodeToString peer then
              (gomap.get m (hex.EncodeToString peer)).getD [] else [])
            ++ (rows.filter (fun row => decide (row.peer_node_id = peer))).map
                toRequestedSwap) := by
  induction rows generalizing m last with
  | nil => simp
  | cons row rest ih =>
    rw [List.pairwise_cons] at hsorted
    obtain ⟨hhead, htail⟩ := hsorted
    have hrest : ∀ r ∈ rest, ∀ x ∈ r.peer_node_id, x < 256 :=
      fun r hr => hrows r (List.mem_cons_of_mem _ hr)
    have hK : hex.EncodeToString peer ≠ "" := hex.EncodeToString_ne_empty peer hne
    rw [List.foldl_cons]
    by_cases hrow : row.peer_node_id = peer
    · -- a row of the peer
      have hfilter : (row :: rest).filter (fun r => decide (r.peer_node_id = peer))
          = row :: rest.filter (fun r => decide (r.peer_node_id = peer)) := by
        simp [List.filter_cons, hrow]
      have hnext : ∀ r ∈ rest, peer ≤ r.peer_node_id := by
        intro r hr
        rw [← hrow]
        exact hhead r hr
      rw [hfilter]
      by_cases hl : last = hex.EncodeToString peer
      · have hstep : SqliteRequestedSwapStore.GetAllStep (m, last) row
            = (gomap.set (hex.EncodeToString peer)
                ((gomap.get m (hex.EncodeToString peer)).getD [] ++ [toRequestedSwap row]) m,
              hex.EncodeToString peer) := by
          unfold SqliteRequestedSwapStore.GetAllStep
          simp only [hrow]
          rw [if_pos ⟨by rw [hl]; exact hK, hl.symm⟩]
        rw [hstep, ih hrest htail _ _ (fun _ => hnext), gomap.get_set_self]
        by_cases hf : rest.filter (fun r => decide (r.peer_node_id = peer)) = []
        · simp [hf, hl]
        · simp [hf, hl]
      · have hstep : SqliteRequestedSwapStore.GetAllStep (m, last) row
            = (gomap.set (hex.EncodeToString peer) [toRequestedSwap row] m,
              hex.EncodeToString peer) := by
          unfold SqliteRequestedSwapStore.GetAllStep
          simp only [hrow]
          rw [if_neg (fun h => hl h.2.symm)]
        rw [hstep, ih hrest htail _ _ (fun _ => hnext), gomap.get_set_self]
        by_cases hf : rest.filter (fun r => decide (r.peer_node_id = peer)) = []
        · simp [hf, hl]
        · simp [hf, hl]
    · -- a row of another peer
      have hcur : hex.EncodeToString row.peer_node_id ≠ hex.EncodeToString peer := by
        intro h
        exact hrow (hex.EncodeToString_inj _ _ (hrows row (List.mem_cons_self _ _)) hpeer h)
      have hfilter : (row :: rest).filter (fun r => decide (r.peer_node_id = peer))
          = rest.filter (fun r => decide (r.peer_node_id = peer)) := by
        simp [List.filter_cons, hrow]
      have hstep : ∃ m2 : gomap.GoMap (List swap.RequestedSwap),
          SqliteRequestedSwapStore.GetAllStep (m, last) row
            = (m2, hex.EncodeToString row.peer_node_id)
          ∧ gomap.get m2 (hex.EncodeToString peer) = gomap.get m (hex.EncodeToString peer) := by
        unfold SqliteRequestedSwapStore.GetAllStep
        simp only
        split
        · exact ⟨_, rfl, gomap.get_set_other _ _ _ _ (fun h => hcur h.symm)⟩
        · exact ⟨_, rfl, gomap.get_set_other _ _ _ _ (fun h => hcur h.symm)⟩
      obtain ⟨m2, hm2, hget2⟩ := hstep
      rw [hm2, ih hrest htail m2 _ (fun h => absurd h hcur), hfilter, hget2]
      by_cases hf : rest.filter (fun r => decide (r.peer_node_id = peer)) = []
      · simp [hf]
      · simp only [hf, if_false, hcur]
        by_cases hl : last = hex.EncodeToString peer
        · -- the rows of the peer would come after a row of a greater peer
          exfalso
          obtain ⟨r, hr⟩ := List.exists_mem_of_ne_nil _ hf
          rw [List.mem_filter] at hr
          have hreq : r.peer_node_id = peer := by simpa using hr.2
          have h1 : peer ≤ row.peer_node_id := hlast hl row (List.mem_cons_self _ _)
          have h2 : row.peer_node_id ≤ peer := by
            rw [← hreq]
            exact hhead r hr.1
          exact hrow (le_antisymm h2 h1)
        · simp [hl]

/-- C17, as the code has it: the keys of `GetAll` are the lower-case encodings of the
stored bytes, while `Get` decodes any spelling.  After `Add("02AB", e)` on an empty
database the peer id `02AB` has one entry in `Get`, and `GetAll` has no key `02AB`; its
only key is `02ab`. -/
theorem GetAll_key_counterexample :
    SqliteRequestedSwapStore.Get
        (SqliteRequestedSwapStore.Add emptyDB "02AB" swap.exampleRequest).2 "02AB"
      = .ok [{ Asset := "btc", AmountSat := 1, SwapType := 100000, RejectionReason := "" }]
    ∧ SqliteRequestedSwapStore.GetAll
        (SqliteRequestedSwapStore.Add emptyDB "02AB" swap.exampleRequest).2
      = .ok [("02ab",
          [{ Asset := "btc", AmountSat := 1, SwapType := 100000, RejectionReason := "" }])]
    ∧ @gomap.get (List swap.RequestedSwap)
        [("02ab",
          [{ Asset := "btc", AmountSat := 1, SwapType := 100000, RejectionReason := "" }])]
        "02AB" = none :=
  ⟨rfl, rfl, by decide⟩

/-- C17, amended: for every content of the table `requested_swaps` and every peer of
at least one byte, `GetAll()` succeeds and `Get` of the lower-case encoding `p` of the
peer succeeds; when `Get(p)` is not empty, `GetAll()[p]` holds the same entries with
the same multiplicities, and when `Get(p)` is empty `GetAll()` has no key `p`. -/
theorem GetAll_matches_Get (db : DB) (peer : Bytes) (hne : peer ≠ [])
    (hpeer : ∀ x ∈ peer, x < 256)
    (hrows : ∀ row ∈ db.committed.requested_swaps, ∀ x ∈ row.peer_node_id, x < 256) :
    ∃ (m : gomap.GoMap (List swap.RequestedSwap)) (l : List swap.RequestedSwap),
      SqliteRequestedSwapStore.GetAll db = .ok m
      ∧ SqliteRequestedSwapStore.Get db (hex.EncodeToString peer) = .ok l
      ∧ (l = [] → gomap.get m (hex.EncodeToString peer) = none)
      ∧ (l ≠ [] → ∃ g : List swap.RequestedSwap,
          gomap.get m (hex.EncodeToString peer) = some g ∧ g.Perm l) := by
  obtain ⟨hperm, hsorted⟩ := sorted_rows db.committed.requested_swaps
  have hvalid : ∀ row ∈ List.insertionSort requestedLe db.committed.requested_swaps,
      ∀ x ∈ row.peer_node_id, x < 256 :=
    fun row hrow => hrows row (hperm.mem_iff.mp hrow)
  have hfold := GetAll_fold peer hne hpeer _ hvalid hsorted [] ""
    (fun h => absurd h.symm (hex.EncodeToString_ne_empty peer hne))
  have hpermf : ((List.insertionSort requestedLe db.committed.requested_swaps).filter
        (fun row => decide (row.peer_node_id = peer))).Perm
      (db.committed.requested_swaps.filter (fun row => decide (row.peer_node_id = peer))) :=
    hperm.filter _
  refine ⟨_, (db.committed.requested_swaps.filter
      (fun row => decide (row.peer_node_id = peer))).map toRequestedSwap, rfl, ?_, ?_, ?_⟩
  · unfold SqliteRequestedSwapStore.Get
    rw [hex.DecodeString_EncodeToString peer hpeer]
  · intro hl
    have hnil : db.committed.requested_swaps.filter
        (fun row => decide (row.peer_node_id = peer)) = [] := List.map_eq_nil_iff.mp hl
    rw [hnil] at hpermf
    rw [hfold, hpermf.eq_nil]
    simp [gomap.get]
  · intro hl
    have hnonnil : (List.insertionSort requestedLe db.committed.requested_swaps).filter
        (fun row => decide (row.peer_node_id = peer)) ≠ [] := by
      intro h
      rw [h] at hpermf
      apply hl
      rw [hpermf.symm.eq_nil]
      rfl
    refine ⟨_, ?_, hpermf.map toRequestedSwap⟩
    rw [hfold]
    simp [hnonnil, hex.EncodeToString_ne_empty peer hne, Ne.symm]

/-- C17 amended, on the database with two requests of the peer `02ab` and one of the
peer `03cd`. -/
theorem GetAll_matches_Get_witness :
    ∃ (m : gomap.GoMap (List swap.RequestedSwap)) (l : List swap.RequestedSwap),
      SqliteRequestedSwapStore.GetAll
          (SqliteRequestedSwapStore.Add
            (SqliteRequestedSwapStore.Add
              (SqliteRequestedSwapStore.Add emptyDB "02ab" swap.exampleRejected).2
              "03cd" swap.exampleRequest).2
            "02ab" swap.exampleRequest).2 = .ok m
      ∧ SqliteRequestedSwapStore.Get
          (SqliteRequestedSwapStore.Add
            (SqliteRequestedSwapStore.Add
              (SqliteRequestedSwapStore.Add emptyDB "02ab" swap.exampleRejected).2
              "03cd" swap.exampleRequest).2
            "02ab" swap.exampleRequest).2 (hex.EncodeToString [2, 171]) = .ok l
      ∧ (l = [] → gomap.get m (hex.EncodeToString [2, 171]) = none)
      ∧ (l ≠ [] → ∃ g : List swap.RequestedSwap,
          gomap.get m (hex.EncodeToString [2, 171]) = some g ∧ g.Perm l) :=
  GetAll_matches_Get _ [2, 171] (by decide) (by decide) (by decide)

end sqlite

/-! ## The key-value poll store (`bbolt/poll_store.go`) -/

namespace bbolt

/-- A key below every key of a bucket is not in it. -/
theorem Get_none_of_lt (key : Bytes) (b : Bucket) (h : ∀ y ∈ b, key < y.1) :
    Bucket.Get b key = none := by
  induction b with
  | nil => rfl
  | cons x rest ih =>
    obtain ⟨k, v⟩ := x
    have hk : key ≠ k := ne_of_lt (h (k, v) (List.mem_cons_self _ _))
    simp only [Bucket.Get, hk, if_false]
    exact ih (fun y hy => h y (List.mem_cons_of_mem _ hy))

/-- The walk of `GetAll` of the poll store over a bucket whose keys are peer ids in
order and whose values read back: the map it builds holds, under every peer id, the
record the value of its key reads back as, and is the map it started from elsewhere. -/
theorem Poll_ForEach (c : Codec poll.PollInfo) (d : poll.PollInfo) (b : Bucket)
    (acc : gomap.GoMap poll.PollInfo) (hsorted : SortedKeys b)
    (hvals : ∀ kv ∈ b, (∃ p : String, kv.1 = stringToBytes p)
      ∧ ∃ info : poll.PollInfo, jsonUnmarshal c kv.2 = .ok info) :
    ∃ m : gomap.GoMap poll.PollInfo,
      Bucket.ForEach (fun k v pollinfos =>
        match jsonUnmarshal c v with
        | .error err => .error err
        | .ok info => .ok (gomap.set (bytesToString k) info pollinfos)) b acc = .ok m
      ∧ ∀ q : String, gomap.get m q
          = match Bucket.Get b (stringToBytes q) with
            | some v => some (unmarshalOr c d v)
            | none => gomap.get acc q := by
  induction b generalizing acc with
  | nil => exact ⟨acc, rfl, fun q => rfl⟩
  | cons x rest ih =>
    obtain ⟨k, v⟩ := x
    unfold SortedKeys at hsorted
    rw [List.pairwise_cons] at hsorted
    obtain ⟨hhead, htail⟩ := hsorted
    obtain ⟨⟨pk, hpk⟩, info, hinfo⟩ := hvals (k, v) (List.mem_cons_self _ _)
    simp only at hpk hinfo
    obtain ⟨m, hm, hget⟩ := ih (gomap.set (bytesToString k) info acc) htail
      (fun kv hkv => hvals kv (List.mem_cons_of_mem _ hkv))
    refine ⟨m, by simp only [Bucket.ForEach, hinfo]; exact hm, ?_⟩
    intro q
    rw [hget q]
    simp only [Bucket.Get]
    by_cases hq : q = pk
    · subst hq
      have hnone : Bucket.Get rest (stringToBytes q) = none := by
        rw [← hpk]
        exact Get_none_of_lt k rest hhead
      simp only [hnone, hpk, if_true]
      rw [bytesToString_stringToBytes, gomap.get_set_self]
      simp [unmarshalOr, hinfo]
    · have hkey : stringToBytes q ≠ k := by
        rw [hpk]
        exact stringToBytes_ne pk q hq
      simp only [hkey, if_false]
      cases Bucket.Get rest (stringToBytes q) with
      | some v2 => rfl
      | none =>
        simp only
        rw [hpk, bytesToString_stringToBytes, gomap.get_set_other _ _ _ _ hq]

/-- The method `GetAll` of the poll store on a database that satisfies `PollInv`, with
bucket `b`. -/
theorem Poll_GetAll_eq (c : Codec poll.PollInfo) (d : poll.PollInfo) (db : DB) (b : Bucket)
    (hread : db.readBeginErr = none)
    (hb : lookupBucket db.buckets POLL_BUCKET = some b) (hsorted : SortedKeys b)
    (hvals : ∀ kv ∈ b, (∃ p : String, kv.1 = stringToBytes p)
      ∧ ∃ info : poll.PollInfo, jsonUnmarshal c kv.2 = .ok info) :
    ∃ m : gomap.GoMap poll.PollInfo, BBoltPollStore.GetAll c db = .ok m
      ∧ ∀ q : String, gomap.get m q
          = (Bucket.Get b (stringToBytes q)).map (unmarshalOr c d) := by
  obtain ⟨m, hm, hget⟩ := Poll_ForEach c d b [] hsorted hvals
  refine ⟨m, ?_, ?_⟩
  · unfold BBoltPollStore.GetAll DB.View DB.Begin Tx.Bucket
    simp only [hread, hb, Bool.false_eq_true, if_false]
    exact hm
  · intro q
    rw [hget q]
    cases Bucket.Get b (stringToBytes q) with
    | some v => rfl
    | none => rfl

/-- A successful `Update` of the poll store on a database with the bucket `b`: the
serialised record is put under the key of the peer. -/
theorem Poll_Update_ok (c : Codec poll.PollInfo) (db : DB) (b : Bucket) (p : String)
    (info : poll.PollInfo)
    (hb : lookupBucket db.buckets POLL_BUCKET = some b)
    (hok : (BBoltPollStore.Update c db p info).1 = none) :
    ∃ infoBytes : Bytes, c.Marshal info = .ok infoBytes
      ∧ (BBoltPollStore.Update c db p info).2
        = { db with
            buckets := setBucket POLL_BUCKET
              (Bucket.insert (stringToBytes p) infoBytes b) db.buckets
            writeTxBegun := db.writeTxBegun + 1 } := by
  unfold BBoltPollStore.Update DB.Update DB.Begin at hok ⊢
  simp only [if_true] at hok ⊢
  cases hw : db.writeBeginErr with
  | some err => simp [hw] at hok
  | none =>
    simp only [hw] at hok ⊢
    cases hm : c.Marshal info with
    | error err => simp [hm] at hok
    | ok infoBytes =>
      simp only [hm, Tx.Bucket, hb] at hok ⊢
      cases hp : Bucket.Put b (stringToBytes p) infoBytes with
      | error err => simp [hp] at hok
      | ok b2 =>
        simp only [hp] at hok ⊢
        have hb2 := Put_ok b b2 _ _ hp
        subst hb2
        unfold DB.Commit Tx.setBucket at hok ⊢
        cases hc : db.commitErr with
        | some err => simp [hc] at hok
        | none => exact ⟨infoBytes, rfl, by simp [hc]⟩

/-- C18: on a database that `NewBBoltPollStore` and `Update` produce (`PollInv`), for
a peer id `p` and a record `info` whose serialisation reads back: after
`Update(p, info)` succeeds, `GetAll()` succeeds as it did before, maps `p` to `info`,
and maps every other peer id to what it was mapped to before, which is nothing for a
peer id that was not in the map. -/
theorem Update_overwrites (c : Codec poll.PollInfo) (db : DB) (p : String)
    (info : poll.PollInfo) (hinv : PollInv c db)
    (hround : ∀ infoBytes : Bytes, c.Marshal info = .ok infoBytes →
      jsonUnmarshal c infoBytes = .ok info)
    (hok : (BBoltPollStore.Update c db p info).1 = none) :
    ∃ m m2 : gomap.GoMap poll.PollInfo,
      BBoltPollStore.GetAll c db = .ok m
      ∧ BBoltPollStore.GetAll c (BBoltPollStore.Update c db p info).2 = .ok m2
      ∧ gomap.get m2 p = some info
      ∧ ∀ q : String, q ≠ p → gomap.get m2 q = gomap.get m q := by
  obtain ⟨hhealthy, b, hb, hsorted, hvals⟩ := hinv
  obtain ⟨infoBytes, hm, hdb⟩ := Poll_Update_ok c db b p info hb hok
  obtain ⟨m, hall, hget⟩ := Poll_GetAll_eq c info db b hhealthy.1 hb hsorted hvals
  have hback := hround infoBytes hm
  have hvals2 : ∀ kv ∈ Bucket.insert (stringToBytes p) infoBytes b,
      (∃ q : String, kv.1 = stringToBytes q)
      ∧ ∃ i : poll.PollInfo, jsonUnmarshal c kv.2 = .ok i := by
    intro kv hkv
    rcases mem_insert _ _ b kv hkv with h | h
    · rw [h]
      exact ⟨⟨p, rfl⟩, info, hback⟩
    · exact hvals kv h
  obtain ⟨m2, hall2, hget2⟩ := Poll_GetAll_eq c info
    { db with
      buckets := setBucket POLL_BUCKET (Bucket.insert (stringToBytes p) infoBytes b) db.buckets
      writeTxBegun := db.writeTxBegun + 1 }
    (Bucket.insert (stringToBytes p) infoBytes b) hhealthy.1
    (lookupBucket_setBucket db.buckets POLL_BUCKET b _ hb)
    (SortedKeys_insert _ _ b hsorted) hvals2
  rw [hdb]
  refine ⟨m, m2, hall, hall2, ?_, ?_⟩
  · rw [hget2 p, Get_insert_self]
    simp [unmarshalOr, hback]
  · intro q hq
    rw [hget2 q, hget q, Get_insert_other _ _ _ b (stringToBytes_ne p q hq)]

/-- C18, on the poll store constructed on a fresh database. -/
theorem Update_overwrites_witness :
    ∃ m m2 : gomap.GoMap poll.PollInfo,
      BBoltPollStore.GetAll examplePollCodec freshPollStore = .ok m
      ∧ BBoltPollStore.GetAll examplePollCodec
          (BBoltPollStore.Update examplePollCodec freshPollStore "02ab" poll.exampleInfo).2
        = .ok m2
      ∧ gomap.get m2 "02ab" = some poll.exampleInfo
      ∧ ∀ q : String, q ≠ "02ab" → gomap.get m2 q = gomap.get m q :=
  Update_overwrites examplePollCodec freshPollStore "02ab" poll.exampleInfo
    ⟨by decide, [], rfl, List.Pairwise.nil, by simp⟩
    (by
      intro infoBytes h
      have hbytes : infoBytes = [123, 2, 1700000000, 125] := (Except.ok.inj h).symm
      subst hbytes
      rfl)
    rfl

/-- A pair of a bucket with its keys in order is the pair `Get` finds. -/
theorem Get_of_mem_sorted (b : Bucket) (hsorted : SortedKeys b) (key value : Bytes)
    (h : (key, value) ∈ b) : Bucket.Get b key = some value := by
  unfold SortedKeys at hsorted
  induction b with
  | nil => simp at h
  | cons x rest ih =>
    obtain ⟨k, v⟩ := x
    rw [List.pairwise_cons] at hsorted
    obtain ⟨hhead, htail⟩ := hsorted
    rcases List.mem_cons.mp h with h | h
    · have hk : key = k := (Prod.mk.inj h).1
      have hv : value = v := (Prod.mk.inj h).2
      simp [Bucket.Get, hk, hv]
    · have hk : key ≠ k := ne_of_gt (hhead (key, value) h)
      simp only [Bucket.Get, hk, if_false]
      exact ih htail h

/-- Reading a bucket from which the pairs of some keys were taken out. -/
theorem Get_filter_keys (keep : Bytes → Bool) (b : Bucket) (key : Bytes) :
    Bucket.Get (b.filter (fun kv => keep kv.1)) key
      = if keep key = true then Bucket.Get b key else none := by
  induction b with
  | nil => simp [Bucket.Get]
  | cons x rest ih =>
    obtain ⟨k, v⟩ := x
    rw [List.filter_cons]
    by_cases hk : keep k = true
    · simp only [hk, if_true, Bucket.Get]
      by_cases h1 : key = k
      · simp [h1, hk]
      · simp only [h1, if_false]
        exact ih
    · simp only [hk, Bool.false_eq_true, if_false, Bucket.Get]
      by_cases h1 : key = k
      · subst h1
        simp only [if_true]
        rw [ih]
        simp [hk]
      · simp only [h1, if_false]
        exact ih

/-- The walk of `RemoveUnseen` over a bucket whose values read back: the bucket of the
transaction loses the pairs of the expired keys and nothing else. -/
theorem ForEach_delete (c : Codec poll.PollInfo) (d : poll.PollInfo) (now : time.Time)
    (olderThan : time.Duration) (b acc : Bucket)
    (hvals : ∀ kv ∈ b, ∃ info : poll.PollInfo, jsonUnmarshal c kv.2 = .ok info) :
    Bucket.ForEach (fun k v bucket =>
        match jsonUnmarshal c v with
        | .error err => .error err
        | .ok info =>
          if time.Sub now info.LastSeen > olderThan then .ok (Bucket.Delete bucket k)
          else .ok bucket) b acc
      = .ok (acc.filter (fun kv => decide (kv.1 ∉ expiredKeys c d now olderThan b))) := by
  induction b generalizing acc with
  | nil => simp [Bucket.ForEach, expiredKeys]
  | cons x rest ih =>
    obtain ⟨k, v⟩ := x
    obtain ⟨info, hinfo⟩ := hvals (k, v) (List.mem_cons_self _ _)
    simp only at hinfo
    have hdec : unmarshalOr c d v = info := by simp [unmarshalOr, hinfo]
    have hrest := fun a => ih a (fun kv hkv => hvals kv (List.mem_cons_of_mem _ hkv))
    simp only [Bucket.ForEach, hinfo]
    by_cases hexp : time.Sub now info.LastSeen > olderThan
    · have hkeys : expiredKeys c d now olderThan ((k, v) :: rest)
          = k :: expiredKeys c d now olderThan rest := by
        unfold expiredKeys
        rw [List.filter_cons]
        simp only [hdec, hexp, decide_True, if_true, List.map_cons]
      simp only [hexp, if_true]
      rw [hrest, Bucket.Delete, List.filter_filter, hkeys]
      congr 1
      apply List.filter_congr
      intro kv _
      by_cases h1 : kv.1 = k <;>
        by_cases h2 : kv.1 ∈ expiredKeys c d now olderThan rest <;>
        simp [h1, h2]
    · have hkeys : expiredKeys c d now olderThan ((k, v) :: rest)
          = expiredKeys c d now olderThan rest := by
        unfold expiredKeys
        rw [List.filter_cons]
        simp only [hdec, hexp, decide_False, Bool.false_eq_true, if_false]
      simp only [hexp, if_false]
      rw [hrest, hkeys]

/-- In a bucket with its keys in order, the expired keys are the keys whose value
reads back as a record last seen more than `olderThan` before `now`. -/
theorem mem_expiredKeys_iff (c : Codec poll.PollInfo) (d : poll.PollInfo) (now : time.Time)
    (olderThan : time.Duration) (b : Bucket) (hsorted : SortedKeys b) (key : Bytes) :
    key ∈ expiredKeys c d now olderThan b
      ↔ ∃ v : Bytes, Bucket.Get b key = some v
          ∧ time.Sub now (unmarshalOr c d v).LastSeen > olderThan := by
  unfold expiredKeys
  constructor
  · intro h
    obtain ⟨kv, hkv, hfst⟩ := List.mem_map.mp h
    rw [List.mem_filter] at hkv
    obtain ⟨k, v⟩ := kv
    simp only at hfst
    subst hfst
    exact ⟨v, Get_of_mem_sorted b hsorted k v hkv.1, by simpa using hkv.2⟩
  · rintro ⟨v, hget, hexp⟩
    apply List.mem_map.mpr
    refine ⟨(key, v), ?_, rfl⟩
    rw [List.mem_filter]
    exact ⟨Get_mem b key v hget, by simpa using hexp⟩

/-- The method `RemoveUnseen` on a database that satisfies `PollInv`, with bucket `b`:
it succeeds after one write transaction that takes the expired keys out of `b`. -/
theorem RemoveUnseen_eq (c : Codec poll.PollInfo) (d : poll.PollInfo) (db : DB) (b : Bucket)
    (now : time.Time) (olderThan : time.Duration) (hdb : db.Healthy)
    (hb : lookupBucket db.buckets POLL_BUCKET = some b)
    (hvals : ∀ kv ∈ b, ∃ info : poll.PollInfo, jsonUnmarshal c kv.2 = .ok info) :
    BBoltPollStore.RemoveUnseen c db now olderThan
      = (none, { db with
          buckets := setBucket POLL_BUCKET
            (b.filter (fun kv => decide (kv.1 ∉ expiredKeys c d now olderThan b))) db.buckets
          writeTxBegun := db.writeTxBegun + 1 }) := by
  obtain ⟨_, hwrite, hcommit⟩ := hdb
  unfold BBoltPollStore.RemoveUnseen DB.Update DB.Begin DB.Commit Tx.Bucket Tx.setBucket
  simp only [hwrite, hcommit, hb, if_true, ForEach_delete c d now olderThan b b hvals]

/-- The poll store after `RemoveUnseen`: `GetAll` succeeds before and after, and maps a
peer id afterwards to what it was mapped to before unless that record was last seen
more than `olderThan` before `now`, in which case the peer id is gone. -/
theorem Poll_RemoveUnseen (c : Codec poll.PollInfo) (db : DB) (now : time.Time)
    (olderThan : time.Duration) (hinv : PollInv c db) :
    (BBoltPollStore.RemoveUnseen c db now olderThan).1 = none
    ∧ ∃ m m2 : gomap.GoMap poll.PollInfo,
        BBoltPollStore.GetAll c db = .ok m
        ∧ BBoltPollStore.GetAll c (BBoltPollStore.RemoveUnseen c db now olderThan).2 = .ok m2
        ∧ ∀ q : String, gomap.get m2 q
            = (gomap.get m q).filter
                (fun info => decide (¬ time.Sub now info.LastSeen > olderThan)) := by
  obtain ⟨hhealthy, b, hb, hsorted, hvals⟩ := hinv
  have hdecodes : ∀ kv ∈ b, ∃ info : poll.PollInfo, jsonUnmarshal c kv.2 = .ok info :=
    fun kv hkv => (hvals kv hkv).2
  rw [RemoveUnseen_eq c poll.exampleInfo db b now olderThan hhealthy hb hdecodes]
  refine ⟨rfl, ?_⟩
  obtain ⟨m, hall, hget⟩ := Poll_GetAll_eq c poll.exampleInfo db b hhealthy.1 hb hsorted hvals
  have hsorted2 : SortedKeys (b.filter (fun kv =>
      decide (kv.1 ∉ expiredKeys c poll.exampleInfo now olderThan b))) :=
    List.Pairwise.filter _ hsorted
  obtain ⟨m2, hall2, hget2⟩ := Poll_GetAll_eq c poll.exampleInfo
    { db with
      buckets := setBucket POLL_BUCKET
        (b.filter (fun kv =>
          decide (kv.1 ∉ expiredKeys c poll.exampleInfo now olderThan b))) db.buckets
      writeTxBegun := db.writeTxBegun + 1 }
    _ hhealthy.1 (lookupBucket_setBucket db.buckets POLL_BUCKET b _ hb) hsorted2
    (fun kv hkv => hvals kv (List.mem_filter.mp hkv).1)
  refine ⟨m, m2, hall, hall2, ?_⟩
  intro q
  rw [hget2 q, hget q,
    Get_filter_keys (fun k => decide (k ∉ expiredKeys c poll.exampleInfo now olderThan b))]
  have hiff := mem_expiredKeys_iff c poll.exampleInfo now olderThan b hsorted (stringToBytes q)
  cases hcase : Bucket.Get b (stringToBytes q) with
  | none => simp
  | some v =>
    rw [hcase] at hiff
    by_cases hexp : time.Sub now (unmarshalOr c poll.exampleInfo v).LastSeen > olderThan
    · have hmem : stringToBytes q ∈ expiredKeys c poll.exampleInfo now olderThan b :=
        hiff.mpr ⟨v, rfl, hexp⟩
      simp [hmem, Option.filter, hexp]
    · have hmem : stringToBytes q ∉ expiredKeys c poll.exampleInfo now olderThan b := by
        intro h
        obtain ⟨v2, hv2, hexp2⟩ := hiff.mp h
        rw [← Option.some.inj hv2] at hexp2
        exact hexp hexp2
      simp [hmem, Option.filter, hexp]

end bbolt

/-! ## The in-memory poll store of the tests (`poll/service_test.go`) -/

namespace gomap

/-- A value that is read is in the map under its key. -/
theorem get_mem {V : Type} (m : GoMap V) (key : String) (value : V)
    (h : get m key = some value) : (key, value) ∈ m := by
  induction m with
  | nil => simp [get] at h
  | cons x rest ih =>
    obtain ⟨k, v⟩ := x
    simp only [get] at h
    by_cases h1 : key = k
    · simp only [h1, if_true, Option.some.injEq] at h
      simp [h1, h]
    · simp only [h1, if_false] at h
      exact List.mem_cons_of_mem _ (ih h)

/-- A pair of a map, which has one pair for each key, is the pair `get` finds. -/
theorem get_of_mem_nodup {V : Type} (m : GoMap V) (hnodup : (m.map Prod.fst).Nodup)
    (key : String) (value : V) (h : (key, value) ∈ m) : get m key = some value := by
  induction m with
  | nil => simp at h
  | cons x rest ih =>
    obtain ⟨k, v⟩ := x
    rw [List.map_cons, List.nodup_cons] at hnodup
    obtain ⟨hk, hrest⟩ := hnodup
    rcases List.mem_cons.mp h with h | h
    · have h1 : key = k := (Prod.mk.inj h).1
      have h2 : value = v := (Prod.mk.inj h).2
      simp [get, h1, h2]
    · have hne : key ≠ k := by
        intro heq
        apply hk
        rw [← heq]
        exact List.mem_map.mpr ⟨(key, value), h, rfl⟩
      simp only [get, hne, if_false]
      exact ih hrest h

/-- Reading a map from which the pairs of some keys were taken out. -/
theorem get_filter_keys {V : Type} (keep : String → Bool) (m : GoMap V) (key : String) :
    get (m.filter (fun kv => keep kv.1)) key
      = if keep key = true then get m key else none := by
  induction m with
  | nil => simp [get]
  | cons x rest ih =>
    obtain ⟨k, v⟩ := x
    rw [List.filter_cons]
    by_cases hk : keep k = true
    · simp only [hk, if_true, get]
      by_cases h1 : key = k
      · simp [h1, hk]
      · simp only [h1, if_false]
        exact ih
    · simp only [hk, Bool.false_eq_true, if_false, get]
      by_cases h1 : key = k
      · subst h1
        simp only [if_true]
        rw [ih]
        simp [hk]
      · simp only [h1, if_false]
        exact ih

end gomap

namespace poll

/-- The loop of `PollStoreMock.RemoveUnseen` over the pairs `l`: the map loses the
pairs whose key is the key of an expired pair of `l` and nothing else. -/
theorem Mock_fold_delete (now : time.Time) (olderThan : time.Duration)
    (l acc : gomap.GoMap PollInfo) :
    l.foldl (fun m kv =>
        if time.Sub now kv.2.LastSeen > olderThan then gomap.delete kv.1 m else m) acc
      = acc.filter (fun kv => decide (kv.1 ∉
          (l.filter (fun x => decide (time.Sub now x.2.LastSeen > olderThan))).map Prod.fst)) := by
  induction l generalizing acc with
  | nil => simp
  | cons x rest ih =>
    obtain ⟨k, v⟩ := x
    rw [List.foldl_cons, ih, List.filter_cons]
    by_cases hexp : time.Sub now v.LastSeen > olderThan
    · simp only [hexp, if_true, decide_True, List.map_cons]
      rw [gomap.delete, List.filter_filter]
      apply List.filter_congr
      intro kv _
      by_cases h1 : kv.1 = k <;>
        by_cases h2 : kv.1 ∈ (rest.filter
          (fun x => decide (time.Sub now x.2.LastSeen > olderThan))).map Prod.fst <;>
        simp [h1, h2]
    · simp only [hexp, if_false, decide_False, Bool.false_eq_true]

/-- The in-memory store after `RemoveUnseen`: a peer id is mapped to what it was
mapped to before unless that record was last seen more than `olderThan` before `now`,
in which case the peer id is gone. -/
theorem Mock_RemoveUnseen (infos : gomap.GoMap PollInfo) (now : time.Time)
    (olderThan : time.Duration) (hnodup : (infos.map Prod.fst).Nodup) (q : String) :
    gomap.get (PollStoreMock.RemoveUnseen infos now olderThan) q
      = (gomap.get infos q).filter
          (fun info => decide (¬ time.Sub now info.LastSeen > olderThan)) := by
  unfold PollStoreMock.RemoveUnseen
  rw [Mock_fold_delete,
    gomap.get_filter_keys (fun k => decide (k ∉
      (infos.filter (fun x => decide (time.Sub now x.2.LastSeen > olderThan))).map Prod.fst))]
  cases hcase : gomap.get infos q with
  | none => simp
  | some v =>
    have hmemv := gomap.get_mem infos q v hcase
    by_cases hexp : time.Sub now v.LastSeen > olderThan
    · have hmem : q ∈ (infos.filter
          (fun x => decide (time.Sub now x.2.LastSeen > olderThan))).map Prod.fst :=
        List.mem_map.mpr ⟨(q, v), List.mem_filter.mpr ⟨hmemv, by simpa using hexp⟩, rfl⟩
      simp [hmem, Option.filter, hexp]
    · have hmem : q ∉ (infos.filter
          (fun x => decide (time.Sub now x.2.LastSeen > olderThan))).map Prod.fst := by
        intro h
        obtain ⟨kv, hkv, hfst⟩ := List.mem_map.mp h
        rw [List.mem_filter] at hkv
        obtain ⟨k2, v2⟩ := kv
        simp only at hfst
        subst hfst
        have hv2 := gomap.get_of_mem_nodup infos hnodup k2 v2 hkv.1
        rw [hcase] at hv2
        have hv : v = v2 := Option.some.inj hv2
        subst hv
        exact hexp (by simpa using hkv.2)
      simp [hmem, Option.filter, hexp]

end poll

/-- The method `Time.Sub` on instants whose difference fits a `Duration`. -/
theorem time.Sub_of_fits (t u : time.Time)
    (hmin : time.minDuration ≤ t - u) (hmax : t - u ≤ time.maxDuration) :
    time.Sub t u = t - u := by
  unfold time.Sub
  rw [if_pos ⟨hmin, hmax⟩]

/-- C20, as the code has it: `Time.Sub` does not go beyond `maxDuration`.  In the
in-memory store with the entries `peer`, last seen at `0`, and `peer1`, last seen at
`0 + d`, for the window `d = maxDuration` and `e = 1` (so `0 < e ≤ d`), the call at
`0 + d + e` finds `now.Sub(LastSeen) = d` for `peer`, which is not above `d`, and leaves
both entries.  In the key-value store of the examples, for the same window and a call
`2 ^ 63` nanoseconds after `02ab` was last seen, `now - LastSeen` is above `d` and the
entry `02ab` stays. -/
theorem RemoveUnseen_saturation_counterexample :
    (0 : time.Duration) < 1 ∧ (1 : time.Duration) ≤ time.maxDuration
    ∧ time.Sub (time.Add (time.Add 0 time.maxDuration) 1) 0 = time.maxDuration
    ∧ poll.PollStoreMock.GetAll
        (poll.PollStoreMock.RemoveUnseen
          (poll.PollStoreMock.Update
            (poll.PollStoreMock.Update [] "peer" { poll.exampleInfo with LastSeen := 0 })
            "peer1" { poll.exampleInfoLater with LastSeen := time.Add 0 time.maxDuration })
          (time.Add (time.Add 0 time.maxDuration) 1) time.maxDuration)
      = [("peer", { poll.exampleInfo with LastSeen := 0 }),
         ("peer1", { poll.exampleInfoLater with LastSeen := time.Add 0 time.maxDuration })]
    ∧ (10923372036854775808 : Int) - poll.exampleInfo.LastSeen > time.maxDuration
    ∧ bbolt.BBoltPollStore.GetAll bbolt.examplePollCodec
        (bbolt.BBoltPollStore.RemoveUnseen bbolt.examplePollCodec bbolt.examplePollStore
          10923372036854775808 time.maxDuration).2
      = .ok [("02ab", poll.exampleInfo), ("03cd", poll.exampleInfoLater)] := by
  refine ⟨by decide, by decide, by decide, by decide, by decide, rfl⟩

/-- C20: at the call time `now` and for the retention window `d`, `RemoveUnseen(d)` of
the key-value poll store (on a database that `NewBBoltPollStore` and `Update` produce)
succeeds, and of the in-memory store of the tests (a map with one pair for each key)
likewise: afterwards a peer id is mapped to what it was mapped to before, unless
`now.Sub(LastSeen) > d` held for that record, in which case the peer id is gone, where
`now.Sub(LastSeen)` is the difference kept within `minDuration` and `maxDuration`; so in
the in-memory store with the entries `peer`, last seen at `t0`, and `peer1`, last seen
at `t0 + d`, a call at `t0 + d + e` with `0 < e ≤ d` and `d + e ≤ maxDuration` leaves
exactly the entry `peer1`. -/
theorem RemoveUnseen_removes_expired (c : Codec poll.PollInfo) (db : bbolt.DB)
    (now : time.Time) (d : time.Duration) (hinv : bbolt.PollInv c db) :
    ((bbolt.BBoltPollStore.RemoveUnseen c db now d).1 = none
      ∧ ∃ m m2 : gomap.GoMap poll.PollInfo,
          bbolt.BBoltPollStore.GetAll c db = .ok m
          ∧ bbolt.BBoltPollStore.GetAll c (bbolt.BBoltPollStore.RemoveUnseen c db now d).2
              = .ok m2
          ∧ ∀ q : String, gomap.get m2 q
              = (gomap.get m q).filter
                  (fun info => decide (¬ time.Sub now info.LastSeen > d)))
    ∧ (∀ (infos : gomap.GoMap poll.PollInfo), (infos.map Prod.fst).Nodup →
        ∀ q : String, gomap.get (poll.PollStoreMock.RemoveUnseen infos now d) q
          = (gomap.get infos q).filter
              (fun info => decide (¬ time.Sub now info.LastSeen > d)))
    ∧ (∀ (t0 : time.Time) (e : time.Duration) (i0 i1 : poll.PollInfo),
        0 < e → e ≤ d → d + e ≤ time.maxDuration →
        i0.LastSeen = t0 → i1.LastSeen = time.Add t0 d →
        poll.PollStoreMock.GetAll
            (poll.PollStoreMock.RemoveUnseen
              (poll.PollStoreMock.Update (poll.PollStoreMock.Update [] "peer" i0) "peer1" i1)
              (time.Add (time.Add t0 d) e) d)
          = [("peer1", i1)]) := by
  refine ⟨bbolt.Poll_RemoveUnseen c db now d hinv,
    fun infos hnodup q => poll.Mock_RemoveUnseen infos now d hnodup q, ?_⟩
  intro t0 e i0 i1 he hed hfit h0 h1
  have hstore : poll.PollStoreMock.Update (poll.PollStoreMock.Update [] "peer" i0) "peer1" i1
      = [("peer", i0), ("peer1", i1)] := by
    simp [poll.PollStoreMock.Update, gomap.set]
  have he0 : (0 : Int) < e := he
  have hed0 : (e : Int) ≤ d := hed
  have hfit0 : (d : Int) + e ≤ 9223372036854775807 := hfit
  have hsub0 : time.Sub (time.Add (time.Add t0 d) e) i0.LastSeen = d + e := by
    rw [h0, time.Sub_of_fits]
    · show ((t0 : Int) + d + e) - t0 = d + e
      ring
    · show (-9223372036854775808 : Int) ≤ ((t0 : Int) + d + e) - t0
      linarith
    · show ((t0 : Int) + d + e) - t0 ≤ 9223372036854775807
      linarith
  have hsub1 : time.Sub (time.Add (time.Add t0 d) e) i1.LastSeen = e := by
    rw [h1, time.Sub_of_fits]
    · show ((t0 : Int) + d + e) - (t0 + d) = e
      ring
    · show (-9223372036854775808 : Int) ≤ ((t0 : Int) + d + e) - (t0 + d)
      linarith
    · show ((t0 : Int) + d + e) - (t0 + d) ≤ 9223372036854775807
      linarith
  have hexp0 : time.Sub (time.Add (time.Add t0 d) e) i0.LastSeen > d := by
    rw [hsub0]
    show (d : Int) + e > d
    linarith
  have hexp1 : ¬ time.Sub (time.Add (time.Add t0 d) e) i1.LastSeen > d := by
    rw [hsub1]
    intro h
    have h2 : (e : Int) > d := h
    linarith
  rw [hstore]
  unfold poll.PollStoreMock.GetAll poll.PollStoreMock.RemoveUnseen
  simp [hexp0, hexp1, gomap.delete]

/-! ## The relational poll store (`sqlite/poll_store.go`) -/

namespace sqlite

/-- C19, as the code has it: `GetAll` puts the copy `*lastInfo` into the map at the
first row of a peer and appends the assets of the further rows to `lastInfo` only, and
it scans the `NULL` asset of a peer without assets into a `string`.  After a successful
`Update("02ab", info)` on an empty database: with the two assets `btc` and `lbtc`,
`GetAll()` maps `02ab` to a record with the one asset `btc`; with no asset, `GetAll()`
fails; with the one asset `btc`, `GetAll()` maps `02ab` to the record that was
stored. -/
theorem GetAll_loses_assets :
    (SqlitePollStore.Update emptyDB "02ab" poll.exampleInfo).1 = none
    ∧ poll.exampleInfo.Assets = ["btc", "lbtc"]
    ∧ SqlitePollStore.GetAll (SqlitePollStore.Update emptyDB "02ab" poll.exampleInfo).2
      = .ok [("02ab", { poll.exampleInfo with Assets := ["btc"] })]
    ∧ (SqlitePollStore.Update emptyDB "02ab" { poll.exampleInfo with Assets := [] }).1 = none
    ∧ SqlitePollStore.GetAll
        (SqlitePollStore.Update emptyDB "02ab" { poll.exampleInfo with Assets := [] }).2
      = .error (Error.wrapf "failed to scan row: "
          (Error.engine ("sql: Scan error on column index 4, name \x22asset\x22: " ++
            "converting NULL to string is unsupported")))
    ∧ SqlitePollStore.GetAll
        (SqlitePollStore.Update emptyDB "02ab" poll.exampleInfoLater).2
      = .ok [("02ab", poll.exampleInfoLater)] := by
  refine ⟨by decide, rfl, rfl, by decide, rfl, rfl⟩

end sqlite

/-- The example poll store is one that `NewBBoltPollStore` and `Update` produce. -/
theorem bbolt.examplePollStore_PollInv :
    bbolt.PollInv bbolt.examplePollCodec bbolt.examplePollStore :=
  ⟨by decide, _, rfl, by unfold bbolt.SortedKeys; decide, by
    intro kv hkv
    simp only [List.mem_cons, List.mem_singleton, List.not_mem_nil, or_false] at hkv
    rcases hkv with h | h
    · rw [h]
      exact ⟨⟨"02ab", rfl⟩, poll.exampleInfo, rfl⟩
    · rw [h]
      exact ⟨⟨"03cd", rfl⟩, poll.exampleInfoLater, rfl⟩⟩

/-- C20, on the poll store that holds a record last seen at second 1700000000 and one
last seen ten seconds later: fifteen seconds after the first, with a window of ten
seconds, the first is removed and the second stays; and the same in the in-memory
store. -/
theorem RemoveUnseen_removes_expired_witness :
    (bbolt.BBoltPollStore.RemoveUnseen bbolt.examplePollCodec bbolt.examplePollStore
        1700000015000000000 10000000000).1 = none
    ∧ bbolt.BBoltPollStore.GetAll bbolt.examplePollCodec
        (bbolt.BBoltPollStore.RemoveUnseen bbolt.examplePollCodec bbolt.examplePollStore
          1700000015000000000 10000000000).2
      = .ok [("03cd", poll.exampleInfoLater)]
    ∧ poll.PollStoreMock.GetAll
        (poll.PollStoreMock.RemoveUnseen
          (poll.PollStoreMock.Update (poll.PollStoreMock.Update [] "peer" poll.exampleInfo)
            "peer1" poll.exampleInfoLater)
          (time.Add (time.Add 1700000000000000000 10000000000) 5000000000) 10000000000)
      = [("peer1", poll.exampleInfoLater)] :=
  ⟨(RemoveUnseen_removes_expired bbolt.examplePollCodec bbolt.examplePollStore
      1700000015000000000 10000000000 bbolt.examplePollStore_PollInv).1.1,
    rfl,
    (RemoveUnseen_removes_expired bbolt.examplePollCodec bbolt.examplePollStore
      1700000015000000000 10000000000 bbolt.examplePollStore_PollInv).2.2
      1700000000000000000 5000000000 poll.exampleInfo poll.exampleInfoLater
      (by decide) (by decide) (by decide) rfl rfl⟩

/-! ## The version gate: calls and errors (`version/service.go`) -/

namespace version

theorem SafeUpgrade_calls {σ : Type} (vs : VersionStore σ) (sw : ActiveSwapGetter σ) (s : σ) :
    (SafeUpgrade vs sw s).calls = [Call.GetVersion]
    ∨ ((SafeUpgrade vs sw s).calls = [Call.GetVersion, Call.HasActiveSwaps]
        ∧ (SafeUpgrade vs sw s).state = (sw.HasActiveSwaps (vs.GetVersion s).2).2
        ∧ (sw.HasActiveSwaps (vs.GetVersion s).2).1 ≠ (false, none))
    ∨ ((SafeUpgrade vs sw s).calls
          = [Call.GetVersion, Call.HasActiveSwaps, Call.SetVersion version]
        ∧ (sw.HasActiveSwaps (vs.GetVersion s).2).1 = (false, none)) := by
  rcases hg : vs.GetVersion s with ⟨⟨v, e⟩, s1⟩
  rcases hh : sw.HasActiveSwaps s1 with ⟨⟨a, e2⟩, s2⟩
  rcases hs : vs.SetVersion version s2 with ⟨e3, s3⟩
  simp only [SafeUpgrade, hg, hh, hs]
  split_ifs with h1 h2 h3 h4 h5
  · exact Or.inl rfl
  · exact Or.inl rfl
  · refine Or.inr (Or.inl ⟨rfl, rfl, ?_⟩)
    intro h
    exact h3 (congrArg Prod.snd h)
  · refine Or.inr (Or.inl ⟨rfl, rfl, ?_⟩)
    intro h
    have := congrArg Prod.fst h
    simp only at this
    rw [this] at h4
    exact Bool.noConfusion h4
  · have he2 : e2 = none := not_not.mp h3
    have ha2 : a = false := by simpa using h4
    subst he2 ha2
    exact Or.inr (Or.inr ⟨rfl, rfl⟩)
  · have he2 : e2 = none := not_not.mp h3
    have ha2 : a = false := by simpa using h4
    subst he2 ha2
    exact Or.inr (Or.inr ⟨rfl, rfl⟩)

/-- C26: in every run of `SafeUpgrade` the calls made are `GetVersion` alone, or
`GetVersion` and `HasActiveSwaps`, or these two followed by one `SetVersion("v0.2")`;
so `SetVersion` is called at most once, only with `"v0.2"`, and only after
`HasActiveSwaps` was called and returned `(false, nil)`; and when `HasActiveSwaps` is
called and returns anything else, no `SetVersion` call is made and the state left is
the one `HasActiveSwaps` left. -/
theorem SafeUpgrade_SetVersion_guarded {σ : Type} (vs : VersionStore σ)
    (sw : ActiveSwapGetter σ) (s : σ) :
    ((SafeUpgrade vs sw s).calls.filter Call.isSetVersion).length ≤ 1
    ∧ (∀ v, Call.SetVersion v ∈ (SafeUpgrade vs sw s).calls →
        v = "v0.2"
        ∧ (SafeUpgrade vs sw s).calls
            = [Call.GetVersion, Call.HasActiveSwaps, Call.SetVersion "v0.2"]
        ∧ (sw.HasActiveSwaps (vs.GetVersion s).2).1 = (false, none))
    ∧ (Call.HasActiveSwaps ∈ (SafeUpgrade vs sw s).calls →
        (sw.HasActiveSwaps (vs.GetVersion s).2).1 ≠ (false, none) →
        (∀ v, Call.SetVersion v ∉ (SafeUpgrade vs sw s).calls)
        ∧ (SafeUpgrade vs sw s).state = (sw.HasActiveSwaps (vs.GetVersion s).2).2) := by
  rcases SafeUpgrade_calls vs sw s with h | ⟨h, hst, hne⟩ | ⟨h, hf⟩
  · rw [h]
    refine ⟨by decide, ?_, ?_⟩
    · intro v hv
      simp at hv
    · intro hv
      simp at hv
  · rw [h]
    refine ⟨by decide, ?_, ?_⟩
    · intro v hv
      simp at hv
    · intro _ _
      refine ⟨?_, hst⟩
      intro v hv
      simp at hv
  · rw [h]
    refine ⟨by decide, ?_, ?_⟩
    · intro v hv
      simp at hv
      subst hv
      exact ⟨rfl, rfl, hf⟩
    · intro _ hne
      exact absurd hf hne

theorem SafeUpgrade_SetVersion_guarded_witness :
    Call.SetVersion "v0.2" ∈ (SafeUpgrade mockVersionStore MockActiveSwaps ⟨"v0.1", false⟩).calls
    ∧ (MockActiveSwaps.HasActiveSwaps (mockVersionStore.GetVersion ⟨"v0.1", false⟩).2).1
        = (false, none)
    ∧ (∀ v, Call.SetVersion v ∉
        (SafeUpgrade mockVersionStore MockActiveSwaps ⟨"v0.1", true⟩).calls) :=
  ⟨by decide,
    ((SafeUpgrade_SetVersion_guarded mockVersionStore MockActiveSwaps ⟨"v0.1", false⟩).2.1
      "v0.2" (by decide)).2.2,
    ((SafeUpgrade_SetVersion_guarded mockVersionStore MockActiveSwaps ⟨"v0.1", true⟩).2.2
      (by decide) (by decide)).1⟩

/-- C27: `SafeUpgrade` hands the errors of its collaborators on unchanged.  An error of
`GetVersion` other than `ErrDoesNotExist` is returned after that one call; when
`HasActiveSwaps` is called and fails, its error is returned and `SetVersion` is not
called; when `SetVersion` is called and fails, its error is returned; and `nil` is
returned only when `GetVersion` answered `"v0.2"` without error or `SetVersion("v0.2")`
was called and succeeded. -/
theorem SafeUpgrade_propagates_errors {σ : Type} (vs : VersionStore σ)
    (sw : ActiveSwapGetter σ) (s : σ) :
    (∀ e, (vs.GetVersion s).1.2 = some e → e ≠ ErrDoesNotExist →
        (SafeUpgrade vs sw s).err = some e ∧ (SafeUpgrade vs sw s).calls = [Call.GetVersion])
    ∧ (∀ e, Call.HasActiveSwaps ∈ (SafeUpgrade vs sw s).calls →
        (sw.HasActiveSwaps (vs.GetVersion s).2).1.2 = some e →
        (SafeUpgrade vs sw s).err = some e
        ∧ (SafeUpgrade vs sw s).calls = [Call.GetVersion, Call.HasActiveSwaps])
    ∧ (∀ e, Call.SetVersion version ∈ (SafeUpgrade vs sw s).calls →
        (vs.SetVersion version (sw.HasActiveSwaps (vs.GetVersion s).2).2).1 = some e →
        (SafeUpgrade vs sw s).err = some e)
    ∧ ((SafeUpgrade vs sw s).err = none →
        (vs.GetVersion s).1 = ("v0.2", none)
        ∨ (Call.SetVersion "v0.2" ∈ (SafeUpgrade vs sw s).calls
            ∧ (vs.SetVersion "v0.2" (sw.HasActiveSwaps (vs.GetVersion s).2).2).1 = none)) := by
  rcases hg : vs.GetVersion s with ⟨⟨v, e⟩, s1⟩
  rcases hh : sw.HasActiveSwaps s1 with ⟨⟨a, e2⟩, s2⟩
  rcases hs : vs.SetVersion version s2 with ⟨e3, s3⟩
  have hs2 : vs.SetVersion "v0.2" s2 = (e3, s3) := hs
  simp only [SafeUpgrade, hg, hh, hs, hs2]
  split_ifs with h1 h2 h3 h4 h5
  · refine ⟨?_, ?_, ?_, ?_⟩
    · intro e0 he0 _
      exact ⟨he0, rfl⟩
    · intro e0 hc
      simp at hc
    · intro e0 hc
      simp at hc
    · intro h0
      exact absurd h0 h1.2
  · have he : e = none := by
      by_contra hne
      exact h1 ⟨h2.1, hne⟩
    subst he
    refine ⟨?_, ?_, ?_, ?_⟩
    · intro e0 he0
      simp at he0
    · intro e0 hc
      simp at hc
    · intro e0 hc
      simp at hc
    · intro _
      left
      rw [h2.2]
      rfl
  · have he : e = some ErrDoesNotExist ∨ e = none := by
      by_contra hne
      push_neg at hne
      exact h1 hne
    refine ⟨?_, ?_, ?_, ?_⟩
    · intro e0 he0 hne0
      rcases he with he | he
      · rw [he] at he0
        exact absurd (Option.some.inj he0).symm hne0
      · rw [he] at he0
        simp at he0
    · intro e0 _ he0
      exact ⟨he0, rfl⟩
    · intro e0 hc
      simp at hc
    · intro h0
      exact absurd h0 h3
  · have he : e = some ErrDoesNotExist ∨ e = none := by
      by_contra hne
      push_neg at hne
      exact h1 hne
    have he2 : e2 = none := not_not.mp h3
    subst he2
    refine ⟨?_, ?_, ?_, ?_⟩
    · intro e0 he0 hne0
      rcases he with he | he
      · rw [he] at he0
        exact absurd (Option.some.inj he0).symm hne0
      · rw [he] at he0
        simp at he0
    · intro e0 _ he0
      simp at he0
    · intro e0 hc
      simp at hc
    · intro h0
      simp at h0
  · have he : e = some ErrDoesNotExist ∨ e = none := by
      by_contra hne
      push_neg at hne
      exact h1 hne
    have he2 : e2 = none := not_not.mp h3
    subst he2
    refine ⟨?_, ?_, ?_, ?_⟩
    · intro e0 he0 hne0
      rcases he with he | he
      · rw [he] at he0
        exact absurd (Option.some.inj he0).symm hne0
      · rw [he] at he0
        simp at he0
    · intro e0 _ he0
      simp at he0
    · intro e0 _ he0
      exact he0
    · intro h0
      exact absurd h0 h5
  · have he : e = some ErrDoesNotExist ∨ e = none := by
      by_contra hne
      push_neg at hne
      exact h1 hne
    have he2 : e2 = none := not_not.mp h3
    have he3 : e3 = none := not_not.mp h5
    subst he2 he3
    refine ⟨?_, ?_, ?_, ?_⟩
    · intro e0 he0 hne0
      rcases he with he | he
      · rw [he] at he0
        exact absurd (Option.some.inj he0).symm hne0
      · rw [he] at he0
        simp at he0
    · intro e0 _ he0
      simp at he0
    · intro e0 _ he0
      simp at he0
    · intro _
      right
      exact ⟨by simp [version], rfl⟩

theorem SafeUpgrade_of_stored {σ : Type} (vs : VersionStore σ) (stored : σ → Option String)
    (hlaw : Lawful vs stored) (sw : ActiveSwapGetter σ) (s : σ)
    (hs : stored s = some version) :
    (SafeUpgrade vs sw s).err = none ∧ (SafeUpgrade vs sw s).calls = [Call.GetVersion]
    ∧ stored (SafeUpgrade vs sw s).state = some version := by
  have h := hlaw.get_stored s version hs
  rcases hg : vs.GetVersion s with ⟨⟨v, e⟩, s1⟩
  rw [hg] at h
  have hv : v = version := congrArg Prod.fst h.1
  have he : e = none := congrArg Prod.snd h.1
  subst hv he
  have h2 : stored s1 = some version := h.2
  simp only [SafeUpgrade, hg]
  simp [ErrDoesNotExist, h2]

theorem stored_of_SafeUpgrade {σ : Type} (vs : VersionStore σ) (stored : σ → Option String)
    (hlaw : Lawful vs stored) (sw : ActiveSwapGetter σ) (s : σ)
    (hok : (SafeUpgrade vs sw s).err = none) :
    stored (SafeUpgrade vs sw s).state = some version := by
  rcases hg : vs.GetVersion s with ⟨⟨v, e⟩, s1⟩
  rcases hh : sw.HasActiveSwaps s1 with ⟨⟨a, e2⟩, s2⟩
  rcases hs : vs.SetVersion version s2 with ⟨e3, s3⟩
  simp only [SafeUpgrade, hg, hh, hs] at hok ⊢
  split_ifs at hok ⊢ with h1 h2 h3 h4 h5
  · exact absurd hok h1.2
  · have he : e = none := by
      by_contra hne
      exact h1 ⟨h2.1, hne⟩
    subst he
    have := hlaw.get_ok s v s1 hg
    rw [h2.2] at this
    exact this
  · exact absurd hok h3
  · exact absurd hok h5
  · exact hlaw.set_ok s2 s3 (by rw [hs, not_not.mp h5])

theorem SafeUpgradeAgain_of_stored {σ : Type} (vs : VersionStore σ)
    (stored : σ → Option String) (hlaw : Lawful vs stored)
    (sws : List (ActiveSwapGetter σ)) :
    ∀ s, stored s = some version → ∀ out ∈ SafeUpgradeAgain vs sws s,
      out.err = none ∧ out.calls = [Call.GetVersion] ∧ stored out.state = some version := by
  induction sws with
  | nil =>
    intro s _ out hout
    simp [SafeUpgradeAgain] at hout
  | cons sw rest ih =>
    intro s hs out hout
    have h := SafeUpgrade_of_stored vs stored hlaw sw s hs
    simp only [SafeUpgradeAgain, List.mem_cons] at hout
    rcases hout with hout | hout
    · subst hout
      exact h
    · exact ih _ h.2.2 out hout

theorem mockVersionStore_Lawful : Lawful mockVersionStore mockStored := by
  refine ⟨?_, ?_, ?_⟩
  · intro s v hs
    unfold mockStored at hs
    by_cases h : s.version = ""
    · simp [h] at hs
    · simp only [h, if_false, Option.some.injEq] at hs
      subst hs
      simp [mockVersionStore, mockStored, h]
  · intro s v s1 h
    by_cases hv : s.version = ""
    · simp [mockVersionStore, hv] at h
    · simp only [mockVersionStore, hv, if_false, Prod.mk.injEq, and_true] at h
      rcases h with ⟨h1, h2⟩
      subst h2 h1
      simp [mockStored, hv]
  · intro s s1 h
    simp only [mockVersionStore, Prod.mk.injEq, true_and] at h
    subst h
    simp [mockStored, version]

/-- C28: on a version store that keeps what it is given (`GetVersion` answers with the
stored version and leaves it stored, a successful `SetVersion` stores the version), as
`mockVersionStore` is, after one call of `SafeUpgrade` that returned `nil` the stored
version is `"v0.2"`, and every further call, whatever active-swap checker it is given,
returns `nil`, makes the single call `GetVersion` (so the checker is not called) and
leaves the stored version `"v0.2"`. -/
theorem SafeUpgrade_idempotent {σ : Type} (vs : VersionStore σ) (stored : σ → Option String)
    (sw : ActiveSwapGetter σ) (s : σ) (sws : List (ActiveSwapGetter σ))
    (hlaw : Lawful vs stored) (hok : (SafeUpgrade vs sw s).err = none) :
    stored (SafeUpgrade vs sw s).state = some "v0.2"
    ∧ ∀ out ∈ SafeUpgradeAgain vs sws (SafeUpgrade vs sw s).state,
        out.err = none ∧ out.calls = [Call.GetVersion] ∧ stored out.state = some "v0.2" :=
  ⟨stored_of_SafeUpgrade vs stored hlaw sw s hok,
    SafeUpgradeAgain_of_stored vs stored hlaw sws _
      (stored_of_SafeUpgrade vs stored hlaw sw s hok)⟩

theorem SafeUpgrade_idempotent_witness :
    (SafeUpgrade mockVersionStore MockActiveSwaps ⟨"", false⟩).err = none
    ∧ (SafeUpgradeAgain mockVersionStore [alwaysActive, MockActiveSwaps]
        (SafeUpgrade mockVersionStore MockActiveSwaps ⟨"", false⟩).state).length = 2
    ∧ ∀ out ∈ SafeUpgradeAgain mockVersionStore [alwaysActive, MockActiveSwaps]
        (SafeUpgrade mockVersionStore MockActiveSwaps ⟨"", false⟩).state,
        out.err = none ∧ out.calls = [Call.GetVersion]
        ∧ mockStored out.state = some "v0.2" :=
  ⟨rfl, rfl,
    (SafeUpgrade_idempotent mockVersionStore mockStored MockActiveSwaps ⟨"", false⟩
      [alwaysActive, MockActiveSwaps] mockVersionStore_Lawful rfl).2⟩

end version

theorem SafeUpgrade_propagates_errors_witness :
    (bbolt.BBoltVersionStore.GetVersion bbolt.closedDB).1.2
        = some (Error.engine "database not open")
    ∧ (version.SafeUpgrade bbolt.BBoltVersionStore version.alwaysActive bbolt.closedDB).err
        = some (Error.engine "database not open")
    ∧ (version.SafeUpgrade bbolt.BBoltVersionStore version.alwaysActive bbolt.closedDB).calls
        = [version.Call.GetVersion] :=
  ⟨rfl, (version.SafeUpgrade_propagates_errors bbolt.BBoltVersionStore version.alwaysActive
    bbolt.closedDB).1 (Error.engine "database not open") rfl (by decide)⟩

/-! ## The key-value version store (`bbolt/version_store.go`) -/

namespace bbolt

/-- A successful `SetVersion` leaves the version bucket with the bytes of the version
under the key `version`. -/
theorem SetVersion_ok (db : DB) (v : String) (hok : (SetVersion db v).1 = none) :
    ∃ b : Bucket, lookupBucket db.buckets versionBucket = some b
      ∧ (SetVersion db v).2.readBeginErr = db.readBeginErr
      ∧ (SetVersion db v).2.buckets
          = setBucket versionBucket
              (Bucket.insert (stringToBytes "version") (stringToBytes v) b) db.buckets := by
  unfold SetVersion DB.Begin at hok ⊢
  simp only [if_true] at hok ⊢
  cases hw : db.writeBeginErr with
  | some e => simp [hw] at hok
  | none =>
    simp only [hw] at hok ⊢
    unfold Tx.Bucket at hok ⊢
    cases hb : lookupBucket db.buckets versionBucket with
    | none => simp [hb] at hok
    | some b =>
      simp only [hb] at hok ⊢
      cases hp : Bucket.Put b (stringToBytes "version") (stringToBytes v) with
      | error e => simp [hp] at hok
      | ok b2 =>
        have hb2 := Put_ok b b2 _ _ hp
        subst hb2
        simp only [hp] at hok ⊢
        unfold DB.Commit Tx.setBucket at hok ⊢
        cases hc : db.commitErr with
        | some e => simp [hc] at hok
        | none => exact ⟨_, rfl, rfl, rfl⟩

/-- C22: on a readable database whose version bucket holds nothing under the key
`version` (what `NewBBoltVersionStore` leaves when no version was ever set),
`GetVersion` returns the empty string with `version.ErrDoesNotExist`; and for every
string `v` and every content of a readable database, when `SetVersion(v)` returns nil a
following `GetVersion` returns `v` and no error. -/
theorem GetVersion_after_SetVersion (db : DB) (v : String) (hread : db.readBeginErr = none) :
    (∀ b : Bucket, lookupBucket db.buckets versionBucket = some b →
        b.Get (stringToBytes "version") = none →
        GetVersion db = ("", some version.ErrDoesNotExist))
    ∧ ((SetVersion db v).1 = none → GetVersion (SetVersion db v).2 = (v, none)) := by
  constructor
  · intro b hb hget
    unfold GetVersion DB.Begin Tx.Bucket
    simp [hread, hb, hget]
  · intro hok
    obtain ⟨b, hb, hr, hbs⟩ := SetVersion_ok db v hok
    unfold GetVersion DB.Begin Tx.Bucket
    simp only [Bool.false_eq_true, if_false, hr, hread, hbs,
      lookupBucket_setBucket db.buckets versionBucket b _ hb, Get_insert_self,
      bytesToString_stringToBytes]

/-- C22, as in `Test_VersionStore`: a new store has no version, and the version
`v0.2.0-beta` reads back after it was set. -/
theorem GetVersion_after_SetVersion_witness :
    GetVersion (NewBBoltVersionStore freshDB).2 = ("", some version.ErrDoesNotExist)
    ∧ (SetVersion (NewBBoltVersionStore freshDB).2 "v0.2.0-beta").1 = none
    ∧ GetVersion (SetVersion (NewBBoltVersionStore freshDB).2 "v0.2.0-beta").2
        = ("v0.2.0-beta", none) :=
  ⟨(GetVersion_after_SetVersion (NewBBoltVersionStore freshDB).2 "v0.2.0-beta" rfl).1 []
      rfl rfl,
    by decide,
    (GetVersion_after_SetVersion (NewBBoltVersionStore freshDB).2 "v0.2.0-beta" rfl).2
      (by decide)⟩

/-! ### `UpdateData` as update-or-create (`bbolt/swap_store.go`) -/

/-- The methods `update` and `create` on a working store, for a record that serialises,
when the value already stored under its key (if any) reads back. -/
theorem update_create_eq (c : Codec swap.SwapStateMachine) (db : DB) (b : Bucket)
    (r : swap.SwapStateMachine) (jData : Bytes)
    (hdb : db.Healthy)
    (hb : lookupBucket db.buckets swapBuckets = some b)
    (hdec : ∀ v : Bytes, b.Get r.SwapId.bytes = some v →
      ∃ old : swap.SwapStateMachine, c.Unmarshal v = .ok old)
    (hid : r.SwapId.Valid)
    (hm : c.Marshal r = .ok jData) (hlen : jData.length ≤ MaxValueSize) :
    (b.Get r.SwapId.bytes = none →
        idExists c db r.SwapId.String = (false, none)
        ∧ update c db r = (some swap.ErrDoesNotExist, db)
        ∧ create c db r
            = (none, { db with
                buckets := setBucket swapBuckets (Bucket.insert r.SwapId.bytes jData b)
                  db.buckets
                writeTxBegun := db.writeTxBegun + 1 }))
    ∧ (∀ v : Bytes, b.Get r.SwapId.bytes = some v →
        idExists c db r.SwapId.String = (true, none)
        ∧ update c db r
            = (none, { db with
                buckets := setBucket swapBuckets (Bucket.insert r.SwapId.bytes jData b)
                  db.buckets
                writeTxBegun := db.writeTxBegun + 1 })) := by
  obtain ⟨hread, hwrite, hcommit⟩ := hdb
  have hkey := h2b_String r.SwapId hid
  have hget := getById_eq c db b r.SwapId.String hread hb
  rw [hkey] at hget
  have hklen : r.SwapId.bytes.length = 32 := hid.1
  have hput : Bucket.Put b r.SwapId.bytes jData
      = .ok (Bucket.insert r.SwapId.bytes jData b) := by
    unfold Bucket.Put
    have h1 : ¬ r.SwapId.bytes.length = 0 := by omega
    have h2 : ¬ r.SwapId.bytes.length > MaxKeySize := by
      unfold MaxKeySize; omega
    have h3 : ¬ jData.length > MaxValueSize := by omega
    simp only [h1, h2, h3, if_false]
  constructor
  · intro hcase
    rw [hcase] at hget
    have hex : idExists c db r.SwapId.String = (false, none) := by
      unfold idExists
      rw [hget]
      simp
    refine ⟨hex, ?_, ?_⟩
    · unfold update
      simp only [hex]
    · unfold create
      simp only [hex]
      unfold DB.Begin DB.Commit Tx.Bucket Tx.setBucket
      simp only [hwrite, hcommit, hb, hm, hkey, hput, if_true]
  · intro v hcase
    rw [hcase] at hget
    obtain ⟨old, hold⟩ := hdec v hcase
    simp only [hold] at hget
    have hex : idExists c db r.SwapId.String = (true, none) := by
      unfold idExists
      rw [hget]
    refine ⟨hex, ?_⟩
    unfold update
    simp only [hex]
    unfold DB.Begin DB.Commit Tx.Bucket Tx.setBucket
    simp only [hwrite, hcommit, hb, hm, hkey, hput, if_true]

/-- C29: on a working store (transactions begin and commit, the bucket `swaps` exists),
for a record with a valid identifier that serialises, when the value already stored
under its key (if any) reads back, `UpdateData` returns nil, so neither
`ErrAlreadyExists` nor `swap.ErrDoesNotExist`.  When the identifier is absent, `update`
reports `swap.ErrDoesNotExist` and leaves the database as it was, `create` then finds
the identifier absent and writes the record, and `UpdateData` is that run of `create`;
when the identifier is present, `update` writes the record and does not report
`swap.ErrDoesNotExist`, so `create` is not called and `UpdateData` is that run of
`update`. -/
theorem UpdateData_update_or_create (c : Codec swap.SwapStateMachine) (db : DB) (b : Bucket)
    (r : swap.SwapStateMachine) (jData : Bytes)
    (hdb : db.Healthy)
    (hb : lookupBucket db.buckets swapBuckets = some b)
    (hdec : ∀ v : Bytes, b.Get r.SwapId.bytes = some v →
      ∃ old : swap.SwapStateMachine, c.Unmarshal v = .ok old)
    (hid : r.SwapId.Valid)
    (hm : c.Marshal r = .ok jData) (hlen : jData.length ≤ MaxValueSize) :
    (UpdateData c db r).1 = none
    ∧ (UpdateData c db r).1 ≠ some Error.ErrAlreadyExists
    ∧ (UpdateData c db r).1 ≠ some swap.ErrDoesNotExist
    ∧ (UpdateData c db r).2.buckets
        = setBucket swapBuckets (Bucket.insert r.SwapId.bytes jData b) db.buckets
    ∧ (b.Get r.SwapId.bytes = none →
        update c db r = (some swap.ErrDoesNotExist, db)
        ∧ idExists c db r.SwapId.String = (false, none)
        ∧ (create c db r).1 = none
        ∧ UpdateData c db r = create c db r)
    ∧ (∀ v : Bytes, b.Get r.SwapId.bytes = some v →
        (update c db r).1 = none
        ∧ (update c db r).1 ≠ some swap.ErrDoesNotExist
        ∧ UpdateData c db r = update c db r) := by
  have h := update_create_eq c db b r jData hdb hb hdec hid hm hlen
  have hu := UpdateData_eq c db b r jData hdb hb hdec hid hm hlen
  refine ⟨by rw [hu], by rw [hu]; simp, by rw [hu]; simp, by rw [hu], ?_, ?_⟩
  · intro hcase
    obtain ⟨hex, hupd, hcr⟩ := h.1 hcase
    exact ⟨hupd, hex, by rw [hcr], by rw [hu, hcr]⟩
  · intro v hcase
    obtain ⟨_, hupd⟩ := h.2 v hcase
    exact ⟨by rw [hupd], by rw [hupd]; simp, by rw [hu, hupd]⟩

/-- C29, on the store constructed on a fresh database: the example record is created,
and on the store that holds it the record of the same identifier is updated. -/
theorem UpdateData_update_or_create_witness :
    (update exampleCodec freshStore swap.exampleSwap
        = (some swap.ErrDoesNotExist, freshStore)
      ∧ (create exampleCodec freshStore swap.exampleSwap).1 = none
      ∧ UpdateData exampleCodec freshStore swap.exampleSwap
          = create exampleCodec freshStore swap.exampleSwap)
    ∧ (update exampleCodec (UpdateData exampleCodec freshStore swap.exampleSwap).2
          swap.exampleSwapNext).1 = none
    ∧ UpdateData exampleCodec (UpdateData exampleCodec freshStore swap.exampleSwap).2
          swap.exampleSwapNext
        = update exampleCodec (UpdateData exampleCodec freshStore swap.exampleSwap).2
          swap.exampleSwapNext :=
  have h := (UpdateData_update_or_create exampleCodec freshStore [] swap.exampleSwap
    (swap.exampleSwap.SwapId.bytes ++ stringToBytes swap.exampleSwap.Current)
    (by decide) rfl (by intro v hv; exact absurd hv (by simp [Bucket.Get]))
    (by decide) rfl (by decide)).2.2.2.2.1 rfl
  ⟨⟨h.1, h.2.2.1, h.2.2.2⟩, by decide, by decide⟩

end bbolt

/-! ## Removing unseen peers from the relational poll store (`sqlite/poll_store.go`) -/

namespace sqlite

/-- The method `RemoveUnseen` deletes no row of `poll_info`, whatever the engine answers
to its statements. -/
theorem RemoveUnseen_poll_info (dl : Dialect) (db : DB) (now : time.Time)
    (olderThan : time.Duration) :
    (SqlitePollStore.RemoveUnseen dl db now olderThan).2.committed.poll_info
      = db.committed.poll_info := by
  unfold SqlitePollStore.RemoveUnseen DB.BeginTx
  rcases dl with ⟨a, m⟩
  rcases db with ⟨t, txs⟩
  cases txs <;> cases a <;> cases m <;> rfl

/-- C21, as the code has it: the second statement of `RemoveUnseen`, `DELETE FROM
poll_info WHERE last_seen < ?`, is given no argument, so no row of `poll_info` is ever
deleted, whatever the engine answers to the two statements.  On the store that holds a
record for `02ab` last seen at second 1700000000 and one for `03cd` last seen ten
seconds later, fifteen seconds after the first and with a window of ten seconds: the
row of `02ab` is still in `poll_info` after `RemoveUnseen`, and a following `GetAll`
does not return the newer entry alone (it still returns `02ab`, or fails on the row of
`02ab` without assets). -/
theorem RemoveUnseen_deletes_no_entry :
    (∀ (dl : Dialect) (db : DB) (now : time.Time) (olderThan : time.Duration),
      (SqlitePollStore.RemoveUnseen dl db now olderThan).2.committed.poll_info
        = db.committed.poll_info)
    ∧ SqlitePollStore.GetAll examplePollDB
        = .ok [("02ab", oldInfo), ("03cd", poll.exampleInfoLater)]
    ∧ time.Sub 1700000015000000000 oldInfo.LastSeen > 10000000000
    ∧ (∀ dl : Dialect,
        { peer_node_id := [2, 171], protocol_version := 2, peer_allowed := false,
          last_seen := 1700000000 }
          ∈ (SqlitePollStore.RemoveUnseen dl examplePollDB 1700000015000000000
              10000000000).2.committed.poll_info
        ∧ SqlitePollStore.GetAll (SqlitePollStore.RemoveUnseen dl examplePollDB
              1700000015000000000 10000000000).2
            ≠ .ok [("03cd", poll.exampleInfoLater)]
        ∧ ((dl.aliasErr = none ∧ dl.missingArgErr = none) ∨
            (SqlitePollStore.RemoveUnseen dl examplePollDB 1700000015000000000
              10000000000).1 ≠ none)) := by
  refine ⟨RemoveUnseen_poll_info, rfl, by decide, ?_⟩
  intro dl
  have hall : SqlitePollStore.GetAll examplePollDB
      = .ok [("02ab", oldInfo), ("03cd", poll.exampleInfoLater)] := rfl
  have hne : SqlitePollStore.GetAll examplePollDB ≠ .ok [("03cd", poll.exampleInfoLater)] := by
    rw [hall]
    intro h
    exact absurd (congrArg List.length (Except.ok.inj h)) (by decide)
  have hmem : (⟨[2, 171], 2, false, 1700000000⟩ : PollInfoRow)
      ∈ examplePollDB.committed.poll_info := by
    decide
  rcases dl with ⟨a, m⟩
  cases a with
  | some e =>
    have hr : SqlitePollStore.RemoveUnseen ⟨some e, m⟩ examplePollDB 1700000015000000000
        10000000000 = (some e, examplePollDB) := rfl
    rw [hr]
    exact ⟨hmem, hne, Or.inr (by simp)⟩
  | none =>
    cases m with
    | some e =>
      have hr : SqlitePollStore.RemoveUnseen ⟨none, some e⟩ examplePollDB 1700000015000000000
          10000000000 = (some e, examplePollDB) := rfl
      rw [hr]
      exact ⟨hmem, hne, Or.inr (by simp)⟩
    | none =>
      refine ⟨by decide, ?_, Or.inl ⟨rfl, rfl⟩⟩
      intro h
      have h2 : (Except.error (Error.wrapf "failed to scan row: "
          (Error.engine ("sql: Scan error on column index 4, name \x22asset\x22: " ++
            "converting NULL to string is unsupported")))
          : Except Error (gomap.GoMap poll.PollInfo))
          = .ok [("03cd", poll.exampleInfoLater)] := h
      exact Except.noConfusion h2

end sqlite

/-! ## The gossip service (`poll/service.go`, modelled from the spec) -/

namespace poll

/-- The method `Poll` for a peer whose message serialises: one message is sent, to that
peer, and the poll store is left as it was. -/
theorem Poll_eq (s : Service) (st : ServiceState) (peer : String) (buf : Bytes)
    (hm : s.json.Marshal
      { Version := s.version, Assets := s.assets, PeerAllowed := s.IsPeerAllowed peer }
      = .ok buf) :
    s.Poll st peer
      = { st with sent := st.sent ++
            [{ peerId := peer, message := buf, messageType := s.MESSAGETYPE_POLL }] } := by
  unfold Service.Poll MessengerMock.SendMessage
  simp only [hm]

/-- C23: when the two message types have distinct tags, the payload decodes and the
local capability message for the peer P serialises, then for every P and every content
of the poll store and of the peer directory (which the handler is not given):
`MessageHandler` on a poll-request message from P returns nil, writes the entry of P in
the poll store (the entries of the other peers are as before) and sends one message,
addressed to P, after those sent before; on a plain poll message from P it returns nil,
writes the same one entry and sends nothing. -/
theorem MessageHandler_handshake (s : Service) (st : ServiceState) (now : time.Time)
    (P : String) (payload buf : Bytes) (msg : PollMessage)
    (htags : s.MessageTypeToHexString s.MESSAGETYPE_POLL
      ≠ s.MessageTypeToHexString s.MESSAGETYPE_REQUEST_POLL)
    (hdec : jsonUnmarshal s.json payload = .ok msg)
    (hm : s.json.Marshal
      { Version := s.version, Assets := s.assets, PeerAllowed := s.IsPeerAllowed P }
      = .ok buf) :
    s.MessageHandler st now P (s.MessageTypeToHexString s.MESSAGETYPE_REQUEST_POLL) payload
        = (none,
            { infos := gomap.set P
                { ProtocolVersion := msg.Version, Assets := msg.Assets,
                  PeerAllowed := msg.PeerAllowed, LastSeen := now } st.infos
              sent := st.sent ++
                [{ peerId := P, message := buf, messageType := s.MESSAGETYPE_POLL }] })
    ∧ s.MessageHandler st now P (s.MessageTypeToHexString s.MESSAGETYPE_POLL) payload
        = (none,
            { infos := gomap.set P
                { ProtocolVersion := msg.Version, Assets := msg.Assets,
                  PeerAllowed := msg.PeerAllowed, LastSeen := now } st.infos
              sent := st.sent })
    ∧ gomap.get (gomap.set P
          { ProtocolVersion := msg.Version, Assets := msg.Assets,
            PeerAllowed := msg.PeerAllowed, LastSeen := now } st.infos) P
        = some { ProtocolVersion := msg.Version, Assets := msg.Assets,
                 PeerAllowed := msg.PeerAllowed, LastSeen := now }
    ∧ ∀ Q : String, Q ≠ P →
        gomap.get (gomap.set P
          { ProtocolVersion := msg.Version, Assets := msg.Assets,
            PeerAllowed := msg.PeerAllowed, LastSeen := now } st.infos) Q
        = gomap.get st.infos Q := by
  refine ⟨?_, ?_, gomap.get_set_self _ _ _, fun Q hQ => gomap.get_set_other _ _ _ _ hQ⟩
  · unfold Service.MessageHandler
    simp only [htags.symm, if_false, if_true, hdec]
    rw [Poll_eq s _ P buf hm]
    rfl
  · unfold Service.MessageHandler
    simp only [if_true, hdec]
    rfl

/-- C23, as in `TestRecievePollAndPollRequest`, each on empty collaborators: the poll
request of `request-peer`, which no peer directory lists, leaves one entry and one
message, sent to `request-peer`; the poll message of `peer` leaves one entry and nothing
sent. -/
theorem MessageHandler_handshake_witness :
    exampleService.MessageHandler ⟨[], []⟩ 1700000000000000000 "request-peer" "request"
        [123, 0, 0, 125]
      = (none,
          ⟨[("request-peer", ⟨0, [], false, 1700000000000000000⟩)],
            [⟨"request-peer",
              exampleMessageBytes ⟨0, ["asset1", "asset2", "asset3"], false⟩, 1⟩]⟩)
    ∧ exampleService.MessageHandler ⟨[], []⟩ 1700000000000000000 "peer" "poll"
        [123, 0, 0, 125]
      = (none, ⟨[("peer", ⟨0, [], false, 1700000000000000000⟩)], []⟩) :=
  ⟨(MessageHandler_handshake exampleService ⟨[], []⟩ 1700000000000000000 "request-peer"
      [123, 0, 0, 125] _ ⟨0, [], false⟩ (by decide) rfl rfl).1,
    (MessageHandler_handshake exampleService ⟨[], []⟩ 1700000000000000000 "peer"
      [123, 0, 0, 125] _ ⟨0, [], false⟩ (by decide) rfl rfl).2.1⟩

/-- C24: for every peer id, when the capability message of the service for the peer
serialises and its serialisation reads back, `Poll(peer)` sends one message, to that
peer, after those sent before, leaves the poll store as it was, and the payload decodes
to a `PollMessage` whose `Assets` are the configured assets of the service and whose
`PeerAllowed` is `policy.IsPeerAllowed(peer)`. -/
theorem Poll_sends_capabilities (s : Service) (st : ServiceState) (peer : String)
    (buf : Bytes)
    (hm : s.json.Marshal
      { Version := s.version, Assets := s.assets, PeerAllowed := s.IsPeerAllowed peer }
      = .ok buf)
    (hback : s.json.Unmarshal buf
      = .ok { Version := s.version, Assets := s.assets, PeerAllowed := s.IsPeerAllowed peer }) :
    (s.Poll st peer).sent
        = st.sent ++ [{ peerId := peer, message := buf, messageType := s.MESSAGETYPE_POLL }]
    ∧ (s.Poll st peer).infos = st.infos
    ∧ ∃ msg : PollMessage, s.json.Unmarshal buf = .ok msg
        ∧ msg.Assets = s.assets ∧ msg.PeerAllowed = s.IsPeerAllowed peer := by
  rw [Poll_eq s st peer buf hm]
  exact ⟨rfl, rfl, _, hback, rfl, rfl⟩

/-- C24, as in `TestSendMessage`: the polls of `peer1` and `peer2` send one message to
each, with the three assets, allowed for `peer1` and refused for `peer2`. -/
theorem Poll_sends_capabilities_witness :
    ((exampleService.Poll (exampleService.Poll ⟨[], []⟩ "peer1") "peer2").sent.map
        (fun m => (m.peerId, exampleMessageCodec.Unmarshal m.message)))
      = [("peer1", .ok ⟨0, ["asset1", "asset2", "asset3"], true⟩),
         ("peer2", .ok ⟨0, ["asset1", "asset2", "asset3"], false⟩)] :=
  have h1 := Poll_sends_capabilities exampleService ⟨[], []⟩ "peer1" _ rfl rfl
  have h2 := Poll_sends_capabilities exampleService (exampleService.Poll ⟨[], []⟩ "peer1")
    "peer2" _ rfl rfl
  by rw [h2.1, h1.1]; rfl

end poll

/-! ## The fallbacks of the configuration (`clightning/config.go`) -/

namespace clightning

/-- The processor `ElementsFallback` does not read `Liquid.Disabled`: its result on a
configuration with the flag set to `b` is its result on the configuration, with the flag
set to `b`. -/
theorem ElementsFallback_Disabled (home : Except Error String) (c : Config) (b : Bool) :
    ElementsFallback home { c with Liquid := { c.Liquid with Disabled := b } }
      = (ElementsFallback home c).map
          (fun r => { r with Liquid := { r.Liquid with Disabled := b } }) := by
  rcases c with ⟨ld, pd, dp, pp, bt, ⟨u, pw, pf, h, port, w, n, dd, dis⟩⟩
  obtain ⟨r, hr⟩ : ∃ r, liquidNetDir bt.Network = r := ⟨_, rfl⟩
  cases home <;> cases r <;> by_cases h1 : dd = "" <;> by_cases h2 : n = "" <;>
    by_cases h3 : h = "" <;> by_cases h4 : port = 0 <;>
    by_cases h5 : pw = "" ∧ u = "" ∧ pf = "" <;>
    simp [ElementsFallback, h1, h2, h3, h4, h5, hr, Except.map]

/-- What `ElementsFallback` leaves as it was when it succeeds: the options outside
`Liquid`, the rpc user, password and wallet, the flag `Disabled`, and every option of
`Liquid` that was set. -/
theorem ElementsFallback_keeps (home : Except Error String) (c r : Config)
    (hok : ElementsFallback home c = .ok r) :
    r.LightningDir = c.LightningDir ∧ r.PeerswapDir = c.PeerswapDir ∧ r.DbPath = c.DbPath
    ∧ r.PolicyPath = c.PolicyPath ∧ r.Bitcoin = c.Bitcoin
    ∧ r.Liquid.RpcUser = c.Liquid.RpcUser ∧ r.Liquid.RpcPassword = c.Liquid.RpcPassword
    ∧ r.Liquid.RpcWallet = c.Liquid.RpcWallet ∧ r.Liquid.Disabled = c.Liquid.Disabled
    ∧ (c.Liquid.DataDir ≠ "" → r.Liquid.DataDir = c.Liquid.DataDir)
    ∧ (c.Liquid.Network ≠ "" → r.Liquid.Network = c.Liquid.Network)
    ∧ (c.Liquid.RpcHost ≠ "" → r.Liquid.RpcHost = c.Liquid.RpcHost)
    ∧ (c.Liquid.RpcPort ≠ 0 → r.Liquid.RpcPort = c.Liquid.RpcPort)
    ∧ (c.Liquid.RpcPasswordFile ≠ "" → r.Liquid.RpcPasswordFile = c.Liquid.RpcPasswordFile) := by
  rcases c with ⟨ld, pd, dp, pp, bt, ⟨u, pw, pf, h, port, w, n, dd, dis⟩⟩
  obtain ⟨x, hx⟩ : ∃ x, liquidNetDir bt.Network = x := ⟨_, rfl⟩
  cases home <;> cases x <;> by_cases h1 : dd = "" <;> by_cases h2 : n = "" <;>
    by_cases h3 : h = "" <;> by_cases h4 : port = 0 <;>
    by_cases h5 : pw = "" ∧ u = "" ∧ pf = "" <;>
    simp [ElementsFallback, h1, h2, h3, h4, h5, hx] at hok <;>
    subst hok <;> simp [h1, h2, h3, h4] <;> tauto

/-- The processor `BitcoinFallback` on a configuration with a data directory and no rpc
user, password or password file: it fails when `bitcoinNetDir` fails, with that error,
and otherwise sets the password file to the cookie under the network directory and an
unset port to the default of the network. -/
theorem BitcoinFallback_of_netdir (home : Except Error String) (c : Config)
    (hdir : c.Bitcoin.DataDir ≠ "")
    (hcreds : c.Bitcoin.RpcPassword = "" ∧ c.Bitcoin.RpcUser = ""
      ∧ c.Bitcoin.RpcPasswordFile = "") :
    (∀ err, bitcoinNetDir c.Bitcoin.Network = .error err →
        BitcoinFallback home c = .error err)
    ∧ (∀ netdir, bitcoinNetDir c.Bitcoin.Network = .ok netdir →
        ∃ r, BitcoinFallback home c = .ok r
          ∧ r.Bitcoin.RpcPasswordFile
              = filepath.Join [c.Bitcoin.DataDir, netdir, defaultCookieFile]
          ∧ r.Bitcoin.RpcPort
              = (if c.Bitcoin.RpcPort = 0 then defaultBitcoinRpcPort c.Bitcoin.Network
                  else c.Bitcoin.RpcPort)) := by
  rcases c with ⟨ld, pd, dp, pp, ⟨u, pw, pf, h, port, n, dd⟩, lq⟩
  obtain ⟨x, hx⟩ : ∃ x, bitcoinNetDir n = x := ⟨_, rfl⟩
  obtain ⟨h5, h6, h7⟩ := hcreds
  simp only at hdir h5 h6 h7 hx
  constructor
  · intro err herr
    by_cases h3 : h = "" <;> by_cases h4 : port = 0 <;>
      simp [BitcoinFallback, hdir, h3, h4, h5, h6, h7, herr]
  · intro netdir hnet
    by_cases h3 : h = "" <;> by_cases h4 : port = 0 <;>
      simp [BitcoinFallback, hdir, h3, h4, h5, h6, h7, hnet]

/-- C25, as the code has it: `ElementsFallback` never reads `Liquid.Disabled`, though its
comment says it sets the defaults if liquid is enabled: its result on a configuration
with the flag set is its result on the configuration with the flag cleared, with the
flag set again.  With liquid disabled, no liquid option set and the home directory
`/home/user`: for the bitcoin network `testnet` it returns the error of `liquidNetDir`
and no configuration, and for the bitcoin network `mainnet` it returns the configuration
with the data directory, the network, the host, the port and the password file of liquid
set. -/
theorem ElementsFallback_ignores_Disabled :
    (∀ (home : Except Error String) (c : Config) (b : Bool),
      ElementsFallback home { c with Liquid := { c.Liquid with Disabled := b } }
        = (ElementsFallback home c).map
            (fun r => { r with Liquid := { r.Liquid with Disabled := b } }))
    ∧ (disabledLiquidConfig "testnet").Liquid.Disabled = true
    ∧ ElementsFallback (.ok "/home/user") (disabledLiquidConfig "testnet")
        = .error (Error.errorf "can not get liquid network dir for bitcoin network: testnet")
    ∧ (disabledLiquidConfig "mainnet").Liquid.Disabled = true
    ∧ ElementsFallback (.ok "/home/user") (disabledLiquidConfig "mainnet")
        = .ok { disabledLiquidConfig "mainnet" with
            Liquid :=
              { RpcUser := "", RpcPassword := "",
                RpcPasswordFile := "/home/user/.elements/liquidv1/.cookie",
                RpcHost := "http://127.0.0.1", RpcPort := 7041, RpcWallet := "",
                Network := "liquidv1", DataDir := "/home/user/.elements", Disabled := true } }
    ∧ (disabledLiquidConfig "mainnet").Liquid.DataDir = "" :=
  ⟨ElementsFallback_Disabled, rfl, rfl, rfl, rfl, rfl⟩

/-- C30, as the code has it: `bitcoinNetDir` knows the network `testnet3` and not the
network `testnet`, which `BitcoinFallbackFromClnConfig` assigns from the option
`testnet` of `bcli` and which `defaultBitcoinRpcPort` knows.  For `testnet`,
`bitcoinNetDir` fails, and `BitcoinFallback` on a configuration with the data directory
`/data/bitcoin`, this network and no rpc user, password or password file returns that
error and no configuration.  For `mainnet`, `signet` and `regtest`, `bitcoinNetDir`
succeeds and `BitcoinFallback` sets the password file to the cookie under the network
directory and the port to the one `defaultBitcoinRpcPort` gives. -/
theorem BitcoinFallback_testnet_fails :
    bcliNetwork [("testnet", none)] "" = "testnet"
    ∧ defaultBitcoinRpcPort "testnet" = 18332
    ∧ bitcoinNetDir "testnet"
        = .error (Error.errorf "can not get network dir for bitcoin network: testnet")
    ∧ BitcoinFallback (.ok "/home/user") (bitcoinConfig "testnet")
        = .error (Error.errorf "can not get network dir for bitcoin network: testnet")
    ∧ bitcoinNetDir "testnet3" = .ok "testnet"
    ∧ bitcoinNetDir "mainnet" = .ok ""
    ∧ bitcoinNetDir "signet" = .ok "signet"
    ∧ bitcoinNetDir "regtest" = .ok "regtest"
    ∧ (BitcoinFallback (.ok "/home/user") (bitcoinConfig "mainnet")).map
          (fun r => (r.Bitcoin.RpcPasswordFile, r.Bitcoin.RpcPort))
        = .ok ("/data/bitcoin/.cookie", 8332)
    ∧ (BitcoinFallback (.ok "/home/user") (bitcoinConfig "signet")).map
          (fun r => (r.Bitcoin.RpcPasswordFile, r.Bitcoin.RpcPort))
        = .ok ("/data/bitcoin/signet/.cookie", 38332)
    ∧ (BitcoinFallback (.ok "/home/user") (bitcoinConfig "regtest")).map
          (fun r => (r.Bitcoin.RpcPasswordFile, r.Bitcoin.RpcPort))
        = .ok ("/data/bitcoin/regtest/.cookie", 18443) :=
  ⟨rfl, rfl, rfl, rfl, rfl, rfl, rfl, rfl, rfl, rfl, rfl⟩

end clightning

end peerswap
